import Mathlib

/-!
# Verification of the silver-gate extraction / reverse-sync core

Shallow embedding of the JavaScript core of the repository:

* the escape-sequence repairer (`fixInvalidEscapeSequences`, backend routes),
* the resilient JSON-block extractor (`parseQuestionsFromContent`),
* the markdown fallback parser (regex based, embedded via a small
  backtracking regex engine that mirrors JS regex semantics),
* the question/solution matcher (`lessonsService.prepare`),
* the reverse-sync engine (`BaseReverseSyncer.sync`, `batchUpsert`,
  `LessonReverseSyncer.batchUpsert`), with the MongoDB target store
  modelled as explicit state, and
* the stable-identifier generator (`generateMongoId`).

Strings are modelled as `List Char`; machine integers do not occur
(all JS numbers involved are small integers, modelled as `Nat`/`Int`).
Stateful pieces (the Mongo collection, the id-generator counter) are
modelled by explicit state passing.
-/

namespace SilverGate

/-! ## Small string helpers shared by several components -/

/-- JS `String.prototype.padStart(len, c)`: left-pad to length `len`. -/
def padStart (len : Nat) (c : Char) (s : List Char) : List Char :=
  List.replicate (len - s.length) c ++ s

/-- Hex digit characters, lowercase, as produced by JS `Number.prototype.toString(16)`. -/
def hexChar (n : Nat) : Char :=
  if n < 10 then Char.ofNat (48 + n) else Char.ofNat (87 + n)

/-- Digits of `n` in base 16 (most significant first), `[]` for `0`;
fuel-driven so the definition is structurally recursive. -/
def hexDigitsAux : Nat → Nat → List Char
  | 0, _ => []
  | fuel + 1, n => if n = 0 then [] else hexDigitsAux fuel (n / 16) ++ [hexChar (n % 16)]

/-- JS `n.toString(16)` for a nonnegative integer `n`. -/
def toHex (n : Nat) : List Char :=
  if n = 0 then ['0'] else hexDigitsAux n n

/-- A character is a lowercase hexadecimal digit. -/
def isHexDigitChar (c : Char) : Bool :=
  ('0' ≤ c ∧ c ≤ '9') ∨ ('a' ≤ c ∧ c ≤ 'f')

/-! ## `generateMongoId` (src/app/backend/src/utils/mongoId.js)

```js
let counter = Math.floor(Math.random() * 0xffffff);
export function generateMongoId() {
  const timestamp = Math.floor(Date.now() / 1000).toString(16).padStart(8, '0');
  const random = Array.from({ length: 5 }, () =>
    Math.floor(Math.random() * 256).toString(16).padStart(2, '0')
  ).join('');
  counter = (counter + 1) % 0xffffff;
  const count = counter.toString(16).padStart(6, '0');
  return timestamp + random + count;
}
```

The ambient state (clock, RNG, module-level counter) is passed explicitly:
`nowMs` is `Date.now()`, `randomBytes` are the five sampled bytes, and the
counter is threaded in and out. -/

/-- One call of `generateMongoId`: returns the 24-char id and the new counter. -/
def generateMongoId (nowMs : Nat) (randomBytes : List Nat) (counter : Nat) :
    List Char × Nat :=
  let timestamp := padStart 8 '0' (toHex (nowMs / 1000))
  let random := (randomBytes.map (fun b => padStart 2 '0' (toHex b))).flatten
  let counter' := (counter + 1) % 0xffffff
  let count := padStart 6 '0' (toHex counter')
  (timestamp ++ random ++ count, counter')

/-! ### Facts about the hex formatting helpers -/

theorem padStart_length (len : Nat) (c : Char) (s : List Char) (h : s.length ≤ len) :
    (padStart len c s).length = len := by
  simp [padStart]
  omega

theorem hexDigitsAux_length_le (k : Nat) :
    ∀ fuel n, n < 16 ^ k → (hexDigitsAux fuel n).length ≤ k := by
  induction k with
  | zero =>
    intro fuel n hn
    interval_cases n
    cases fuel <;> simp [hexDigitsAux]
  | succ k ih =>
    intro fuel n hn
    cases fuel with
    | zero => simp [hexDigitsAux]
    | succ fuel =>
      by_cases h0 : n = 0
      · simp [hexDigitsAux, h0]
      · have hdiv : n / 16 < 16 ^ k := by
          rw [Nat.div_lt_iff_lt_mul (by norm_num)]
          calc n < 16 ^ (k + 1) := hn
            _ = 16 ^ k * 16 := by ring
        simp only [hexDigitsAux, h0, if_false, List.length_append, List.length_cons,
          List.length_nil]
        have := ih fuel (n / 16) hdiv
        omega

theorem toHex_length_le (k n : Nat) (hk : 0 < k) (hn : n < 16 ^ k) :
    (toHex n).length ≤ k := by
  by_cases h0 : n = 0
  · simp [toHex, h0]; omega
  · simpa [toHex, h0] using hexDigitsAux_length_le k n n hn

theorem isHexDigitChar_hexChar (m : Nat) (hm : m < 16) : isHexDigitChar (hexChar m) = true := by
  interval_cases m <;> decide

theorem hexDigitsAux_all_hex (fuel : Nat) :
    ∀ n c, c ∈ hexDigitsAux fuel n → isHexDigitChar c = true := by
  induction fuel with
  | zero => intro n c hc; simp [hexDigitsAux] at hc
  | succ fuel ih =>
    intro n c hc
    by_cases h0 : n = 0
    · simp [hexDigitsAux, h0] at hc
    · simp only [hexDigitsAux, h0, if_false, List.mem_append, List.mem_singleton] at hc
      rcases hc with hc | hc
      · exact ih _ _ hc
      · subst hc; exact isHexDigitChar_hexChar _ (Nat.mod_lt _ (by norm_num))

theorem toHex_all_hex (n : Nat) : ∀ c ∈ toHex n, isHexDigitChar c = true := by
  intro c hc
  by_cases h0 : n = 0
  · simp [toHex, h0] at hc; subst hc; decide
  · simp only [toHex, h0, if_false] at hc
    exact hexDigitsAux_all_hex n n c hc

theorem padStart_all_hex (len : Nat) (s : List Char) (h : ∀ c ∈ s, isHexDigitChar c = true) :
    ∀ c ∈ padStart len '0' s, isHexDigitChar c = true := by
  intro c hc
  simp only [padStart, List.mem_append, List.mem_replicate] at hc
  rcases hc with ⟨-, rfl⟩ | hc
  · decide
  · exact h c hc

theorem randomHex_length (bytes : List Nat) (hb : ∀ b ∈ bytes, b < 256) :
    ((bytes.map (fun b => padStart 2 '0' (toHex b))).flatten).length = 2 * bytes.length := by
  induction bytes with
  | nil => simp
  | cons b bs ih =>
    have hb0 : b < 256 := hb b (by simp)
    have hlen : (toHex b).length ≤ 2 := toHex_length_le 2 b (by norm_num) (by norm_num; omega)
    simp only [List.map_cons, List.flatten_cons, List.length_append, List.length_cons,
      padStart_length 2 '0' _ hlen, ih (fun x hx => hb x (by simp [hx]))]
    omega

/-! ### Claim theorems for the identifier generator (C9) -/

/-- C9 counterexample: the claim states the counter advances by `+1` modulo `2^24`.
The code computes `(counter + 1) % 0xffffff`, i.e. modulo `2^24 - 1 = 16777215`:
starting from counter state `0xfffffe = 16777214`, the next counter is `0`,
whereas `(16777214 + 1) % 2^24 = 16777215`. -/
theorem generateMongoId_wrap_not_pow24 :
    (generateMongoId 0 [0, 0, 0, 0, 0] 0xfffffe).2 ≠ (0xfffffe + 1) % 2 ^ 24 := by
  decide

/-- C9 (amended): `generateMongoId` returns a 24-character lowercase-hex string that
is the concatenation of an 8-hex-digit seconds timestamp, a 10-hex-digit random
component (five bytes), and a 6-hex-digit counter; the monotonic counter advances
by `+1` modulo `2^24 - 1` (`0xffffff`), not modulo `2^24`. Hypotheses: the seconds
timestamp fits in 32 bits (true until year 2106) and the five random samples are
bytes, exactly as produced by `Math.floor(Math.random() * 256)`. -/
theorem generateMongoId_spec (nowMs : Nat) (bytes : List Nat) (counter : Nat)
    (ht : nowMs / 1000 < 2 ^ 32) (hb : bytes.length = 5) (hbv : ∀ b ∈ bytes, b < 256) :
    ((generateMongoId nowMs bytes counter).1).length = 24 ∧
    (∀ c ∈ (generateMongoId nowMs bytes counter).1, isHexDigitChar c = true) ∧
    (generateMongoId nowMs bytes counter).1 =
      padStart 8 '0' (toHex (nowMs / 1000)) ++
      (bytes.map (fun b => padStart 2 '0' (toHex b))).flatten ++
      padStart 6 '0' (toHex ((counter + 1) % 0xffffff)) ∧
    (padStart 8 '0' (toHex (nowMs / 1000))).length = 8 ∧
    ((bytes.map (fun b => padStart 2 '0' (toHex b))).flatten).length = 10 ∧
    (padStart 6 '0' (toHex ((counter + 1) % 0xffffff))).length = 6 ∧
    (generateMongoId nowMs bytes counter).2 = (counter + 1) % (2 ^ 24 - 1) := by
  have ht8 : (toHex (nowMs / 1000)).length ≤ 8 :=
    toHex_length_le 8 _ (by norm_num) (by norm_num at ht ⊢; omega)
  have hc6 : (toHex ((counter + 1) % 0xffffff)).length ≤ 6 := by
    refine toHex_length_le 6 _ (by norm_num) ?_
    have : (counter + 1) % 0xffffff < 0xffffff := Nat.mod_lt _ (by norm_num)
    norm_num at this ⊢
    omega
  have hl1 : (padStart 8 '0' (toHex (nowMs / 1000))).length = 8 := padStart_length _ _ _ ht8
  have hl2 : ((bytes.map (fun b => padStart 2 '0' (toHex b))).flatten).length = 10 := by
    rw [randomHex_length bytes hbv, hb]
  have hl3 : (padStart 6 '0' (toHex ((counter + 1) % 0xffffff))).length = 6 :=
    padStart_length _ _ _ hc6
  refine ⟨?_, ?_, rfl, hl1, hl2, hl3, by norm_num [generateMongoId]⟩
  · show (padStart 8 '0' (toHex (nowMs / 1000)) ++
      (bytes.map (fun b => padStart 2 '0' (toHex b))).flatten ++
      padStart 6 '0' (toHex ((counter + 1) % 0xffffff))).length = 24
    simp [hl1, hl2, hl3]
  · intro c hc
    show isHexDigitChar c = true
    simp only [generateMongoId, List.mem_append] at hc
    rcases hc with (hc | hc) | hc
    · exact padStart_all_hex _ _ (toHex_all_hex _) c hc
    · simp only [List.mem_flatten, List.mem_map] at hc
      obtain ⟨piece, ⟨b, _, rfl⟩, hcp⟩ := hc
      exact padStart_all_hex _ _ (toHex_all_hex _) c hcp
    · exact padStart_all_hex _ _ (toHex_all_hex _) c hc

/-- Witness for `generateMongoId_spec` at a concrete input. -/
theorem generateMongoId_spec_witness :
    ((generateMongoId 1700000000000 [1, 2, 3, 4, 255] 7).1).length = 24 ∧
    (generateMongoId 1700000000000 [1, 2, 3, 4, 255] 7).2 = 8 := by
  have h := generateMongoId_spec 1700000000000 [1, 2, 3, 4, 255] 7
    (by norm_num) (by rfl) (by decide)
  exact ⟨h.1, by rw [h.2.2.2.2.2.2]; norm_num⟩

/-! ## Escape-sequence repairer (src/app/backend/src/routes/lessons.js, `fixInvalidEscapeSequences`)

Direct translation of the two nested scanning loops: the outer loop copies
characters until it sees a `"` that opens a string literal; the inner loop
processes string content, handling `\` followed by another character (valid
escapes copied, invalid escapes get the backslash doubled), an unescaped `"`
closing the literal, and a `\` that is the final character of the input
(copied as-is, since `i + 1 < jsonStr.length` fails). -/

/-- The valid JSON escape characters recognised by the repairer:
`'"\\/bfnrtu'.includes(nextChar)`. -/
def validEscapeChar (c : Char) : Bool :=
  c = '"' ∨ c = '\\' ∨ c = '/' ∨ c = 'b' ∨ c = 'f' ∨ c = 'n' ∨ c = 'r' ∨ c = 't' ∨ c = 'u'

mutual

/-- Outer loop of `fixInvalidEscapeSequences` (not inside a string literal). -/
def fixOutside : List Char → List Char
  | [] => []
  | c :: rest => if c = '"' then c :: fixInside rest else c :: fixOutside rest

/-- Inner loop of `fixInvalidEscapeSequences` (inside a string literal). -/
def fixInside : List Char → List Char
  | [] => []
  | c :: rest =>
    if c = '\\' then
      match rest with
      | [] => [c]
      | c2 :: rest2 =>
        if validEscapeChar c2 then c :: c2 :: fixInside rest2
        else '\\' :: '\\' :: c2 :: fixInside rest2
    else if c = '"' then c :: fixOutside rest
    else c :: fixInside rest

end

/-- `fixInvalidEscapeSequences` from the source: scan starts outside a string. -/
def fixInvalidEscapeSequences (s : List Char) : List Char := fixOutside s

/-- Scanner state used by the claim's description of the repairer. -/
inductive RepairMode where
  | outsideStr
  | insideStr
  deriving DecidableEq

/-- The repairer as the claim describes it: scan character-by-character;
outside string literals copy every character verbatim (a double quote enters a
literal); inside a literal, a backslash followed by a character outside the
valid escape set emits two backslashes followed by that character, a valid
two-character escape is copied unchanged, an unescaped double quote exits the
literal, and a trailing backslash at the very end of the input is copied
as-is. -/
def repairScan : RepairMode → List Char → List Char
  | .outsideStr, [] => []
  | .outsideStr, c :: rest =>
    c :: repairScan (if c = '"' then .insideStr else .outsideStr) rest
  | .insideStr, [] => []
  | .insideStr, ['\\'] => ['\\']
  | .insideStr, '\\' :: c :: rest =>
    if validEscapeChar c then '\\' :: c :: repairScan .insideStr rest
    else '\\' :: '\\' :: c :: repairScan .insideStr rest
  | .insideStr, c :: rest =>
    c :: repairScan (if c = '"' then .outsideStr else .insideStr) rest

theorem fix_both_modes (n : Nat) : ∀ s : List Char, s.length ≤ n →
    fixOutside s = repairScan .outsideStr s ∧ fixInside s = repairScan .insideStr s := by
  induction n with
  | zero =>
    intro s h
    have hs : s = [] := by cases s <;> simp_all
    subst hs
    exact ⟨rfl, rfl⟩
  | succ n ih =>
    intro s hlen
    cases s with
    | nil => exact ⟨rfl, rfl⟩
    | cons c rest =>
      have hrest : rest.length ≤ n := by simp at hlen; omega
      constructor
      · by_cases hq : c = '"'
        · subst hq
          simp only [fixOutside, repairScan, if_pos rfl]
          exact congrArg _ (ih rest hrest).2
        · simp only [fixOutside, repairScan, if_neg hq]
          exact congrArg _ (ih rest hrest).1
      · by_cases hb : c = '\\'
        · subst hb
          cases rest with
          | nil => rfl
          | cons c2 rest2 =>
            have hr2 : rest2.length ≤ n := by simp at hlen; omega
            by_cases hv : validEscapeChar c2
            · simp only [fixInside, repairScan, if_pos rfl, hv, if_true]
              exact congrArg _ (congrArg _ (ih rest2 (by omega)).2)
            · simp only [fixInside, repairScan, if_pos rfl, hv]
              simp only [Bool.false_eq_true, if_false]
              exact congrArg _ (congrArg _ (congrArg _ (ih rest2 (by omega)).2))
        · have hstep : fixInside (c :: rest) =
              if c = '"' then c :: fixOutside rest else c :: fixInside rest := by
            rw [fixInside.eq_def]
            simp only [if_neg hb]
          have hspec : repairScan .insideStr (c :: rest) =
              c :: repairScan (if c = '"' then .outsideStr else .insideStr) rest := by
            rw [repairScan.eq_def]
            split
            all_goals simp_all
          rw [hstep, hspec]
          by_cases hq : c = '"'
          · simp only [hq, if_pos rfl]
            exact congrArg _ (ih rest hrest).1
          · simp only [if_neg hq]
            exact congrArg _ (ih rest hrest).2

/-- C4: the escape-sequence repairer behaves exactly as the claim describes —
the source translation `fixInvalidEscapeSequences` coincides with `repairScan`
(started outside any string literal), the state machine written from the
claim's words, on every input string. -/
theorem fixInvalidEscapeSequences_spec (s : List Char) :
    fixInvalidEscapeSequences s = repairScan .outsideStr s :=
  (fix_both_modes s.length s le_rfl).1

/-! ## Question/solution matcher (`lessonsService.prepare`, questionExtraction.service.js 743-831)

The merge step of `prepare`: build a `Map` keyed by `String(solution.question_label)`
for solutions with a truthy label (later entries overwrite earlier ones), then map
over the questions looking up `String(question.question_label || '')`, deriving
`has_solution` and copying the optional solution fields when they are truthy.

Labels in the extracted JSON records are strings or numbers; both occur in
practice (the spec calls out numeric label `1` matching string label `"1"`).
Numbers are modelled as integers (labels are integer-valued in this data). -/

/-- A JS value usable as a `question_label`: a string or a number. -/
inductive LabelVal where
  | str (s : List Char)
  | num (n : Int)
  deriving DecidableEq, Repr

/-- JS truthiness for a label value: nonempty string / nonzero number. -/
def labelTruthy : LabelVal → Bool
  | .str s => s ≠ []
  | .num n => n ≠ 0

/-- JS `String(label)`: identity on strings, decimal rendering for numbers. -/
def labelToString : LabelVal → List Char
  | .str s => s
  | .num n => (toString n).toList

/-- An extracted solution record (optional fields may be absent). -/
structure ExtractedSolution where
  question_label : Option LabelVal
  answer_key : Option (List Char)
  worked_solution : Option (List Char)
  explanation : Option (List Char)
  deriving DecidableEq, Repr

/-- An extracted question record. -/
structure ExtractedQuestion where
  question_label : Option LabelVal
  text : List Char
  choices : List (List Char)
  deriving DecidableEq, Repr

/-- A merged lesson item as produced by the matcher. -/
structure LessonItem where
  question_label : Option LabelVal
  text : List Char
  choices : List (List Char)
  has_solution : Bool
  answer_key : Option (List Char)
  worked_solution : Option (List Char)
  explanation : Option (List Char)
  deriving DecidableEq, Repr

/-- The map key under which a solution is stored:
`if (solution.question_label) solutionsMap.set(String(solution.question_label), solution)` —
`some (String(label))` when the label is present and truthy, otherwise the
solution is not stored. -/
def solutionKey (s : ExtractedSolution) : Option (List Char) :=
  match s.question_label with
  | some l => if labelTruthy l then some (labelToString l) else none
  | none => none

/-- The lookup key computed for a question:
`String(question.question_label || '')`. -/
def questionKeyStr (q : ExtractedQuestion) : List Char :=
  match q.question_label with
  | some l => if labelTruthy l then labelToString l else []
  | none => []

/-- One `solutionsMap.set` step (JS `Map.set` overwrites on equal keys). -/
def solMapStep (m : List Char → Option ExtractedSolution) (s : ExtractedSolution) :
    List Char → Option ExtractedSolution :=
  match solutionKey s with
  | some k => fun k' => if k' = k then some s else m k'
  | none => m

/-- `if (matchingSolution.answer_key) item.answer_key = matchingSolution.answer_key`:
the field is copied exactly when present and truthy (nonempty). -/
def copyField (f : Option (List Char)) : Option (List Char) :=
  match f with
  | some s => if s ≠ [] then some s else none
  | none => none

/-- The merge phase of `lessonsService.prepare`: returns
(merged items, matchedCount, unmatchedCount). -/
def prepareItems (questions : List ExtractedQuestion) (solutions : List ExtractedSolution) :
    List LessonItem × Nat × Nat :=
  let solutionsMap := solutions.foldl solMapStep (fun _ => none)
  let mergedItems := questions.map (fun question =>
    let questionLabel := questionKeyStr question
    match solutionsMap questionLabel with
    | some matchingSolution =>
      { question_label := question.question_label, text := question.text,
        choices := question.choices, has_solution := true,
        answer_key := copyField matchingSolution.answer_key,
        worked_solution := copyField matchingSolution.worked_solution,
        explanation := copyField matchingSolution.explanation }
    | none =>
      { question_label := question.question_label, text := question.text,
        choices := question.choices, has_solution := false,
        answer_key := none, worked_solution := none, explanation := none })
  let matchedCount := (mergedItems.filter (·.has_solution)).length
  (mergedItems, matchedCount, mergedItems.length - matchedCount)

/-- Specification-side description of a matching solution: the *last* solution
in the list with a truthy label whose string coercion equals `k`. -/
def lastMatchingSolution (solutions : List ExtractedSolution) (k : List Char) :
    Option ExtractedSolution :=
  solutions.reverse.find? (fun s => decide (solutionKey s = some k))

/-- Specification-side description of one merged item, phrased against
`lastMatchingSolution` rather than the incremental `Map`. -/
def specMergedItem (solutions : List ExtractedSolution) (question : ExtractedQuestion) :
    LessonItem :=
  match lastMatchingSolution solutions (questionKeyStr question) with
  | some s =>
    { question_label := question.question_label, text := question.text,
      choices := question.choices, has_solution := true,
      answer_key := copyField s.answer_key,
      worked_solution := copyField s.worked_solution,
      explanation := copyField s.explanation }
  | none =>
    { question_label := question.question_label, text := question.text,
      choices := question.choices, has_solution := false,
      answer_key := none, worked_solution := none, explanation := none }

theorem solutionsMap_eq_lastMatching (solutions : List ExtractedSolution) :
    ∀ (m : List Char → Option ExtractedSolution) (k : List Char),
      (solutions.foldl solMapStep m) k =
        ((solutions.reverse.find? (fun s => decide (solutionKey s = some k))).elim (m k) some) := by
  induction solutions with
  | nil => intro m k; simp
  | cons s rest ih =>
    intro m k
    simp only [List.foldl_cons, List.reverse_cons, List.find?_append]
    rw [ih]
    cases hfind : rest.reverse.find? (fun s => decide (solutionKey s = some k)) with
    | some s' => simp
    | none =>
      simp only [Option.none_or]
      by_cases hk : solutionKey s = some k
      · simp [solMapStep, hk]
      · cases hsk : solutionKey s with
        | none => simp [solMapStep, hsk, hk]
        | some k0 =>
          have hne : k ≠ k0 := fun h => hk (by rw [hsk, h])
          simp [solMapStep, hsk, hne, hk, Ne.symm hne]

/-- C3 (amended): each merged LessonItem is characterised by the *last* solution
with a *truthy* label whose string coercion equals `String(question.question_label || '')`
(so numeric label `1` still matches string label `"1"`): `has_solution` is true
iff such a solution exists, the optional fields are copied from it exactly when
present and truthy, and matched/unmatched counts are the number of items with
`has_solution` true resp. false. (The original claim's symmetric
"coerced-to-string" condition fails for falsy labels: a solution whose label is
the number `0` is never entered into the lookup map, and a question label `0` is
coerced to `''` rather than `"0"`.) -/
theorem prepareItems_spec (qs : List ExtractedQuestion) (sols : List ExtractedSolution) :
    (prepareItems qs sols).1 = qs.map (specMergedItem sols) ∧
    (∀ q : ExtractedQuestion,
      ((specMergedItem sols q).has_solution = true ↔
        ∃ s ∈ sols, solutionKey s = some (questionKeyStr q))) ∧
    (prepareItems qs sols).2.1 =
      ((prepareItems qs sols).1.filter (·.has_solution)).length ∧
    (prepareItems qs sols).2.2 =
      ((prepareItems qs sols).1.filter (fun it => !it.has_solution)).length := by
  refine ⟨?_, ?_, rfl, ?_⟩
  · apply List.map_congr_left
    intro q _
    show (match (sols.foldl solMapStep fun _ => none) (questionKeyStr q) with
      | some matchingSolution =>
        { question_label := q.question_label, text := q.text,
          choices := q.choices, has_solution := true,
          answer_key := copyField matchingSolution.answer_key,
          worked_solution := copyField matchingSolution.worked_solution,
          explanation := copyField matchingSolution.explanation }
      | none =>
        { question_label := q.question_label, text := q.text,
          choices := q.choices, has_solution := false,
          answer_key := none, worked_solution := none,
          explanation := none : LessonItem }) = specMergedItem sols q
    rw [solutionsMap_eq_lastMatching]
    unfold specMergedItem lastMatchingSolution
    cases sols.reverse.find? (fun s => decide (solutionKey s = some (questionKeyStr q))) <;> rfl
  · intro q
    unfold specMergedItem lastMatchingSolution
    cases hfind : sols.reverse.find? (fun s => decide (solutionKey s = some (questionKeyStr q))) with
    | some s =>
      exact ⟨fun _ => ⟨s, List.mem_reverse.mp (List.mem_of_find?_eq_some hfind),
        by simpa using List.find?_some hfind⟩, fun _ => rfl⟩
    | none =>
      exact ⟨fun h => absurd h (by simp),
        fun ⟨s, hmem, hkey⟩ =>
          absurd (List.find?_eq_none.mp hfind s (List.mem_reverse.mpr hmem))
            (by simp [hkey])⟩
  · have key : ∀ l : List LessonItem,
        l.length - (l.filter (·.has_solution)).length =
          (l.filter (fun it => !it.has_solution)).length := by
      intro l
      have := l.length_eq_length_filter_add (·.has_solution)
      omega
    exact key (prepareItems qs sols).1

/-- C3 counterexample: the claim as stated — `has_solution` true iff some solution's
label coerced to string equals the question's label coerced to string — fails for
the falsy label `0`: `String(0) = "0" = String(0)`, yet the code stores no map
entry for the solution (its label is falsy) and coerces the question's label to
`''`, so the merged item has `has_solution = false`. -/
theorem prepareItems_label_coercion_counterexample :
    (∃ s ∈ [({ question_label := some (.num 0), answer_key := some ['A'],
               worked_solution := none, explanation := none } : ExtractedSolution)],
        s.question_label.map labelToString =
          (({ question_label := some (.num 0), text := [], choices := [] } :
            ExtractedQuestion)).question_label.map labelToString) ∧
    (prepareItems
        [{ question_label := some (.num 0), text := [], choices := [] }]
        [{ question_label := some (.num 0), answer_key := some ['A'],
           worked_solution := none, explanation := none }]).1 =
      [{ question_label := some (.num 0), text := [], choices := [],
         has_solution := false, answer_key := none, worked_solution := none,
         explanation := none }] := by
  constructor
  · exact ⟨{ question_label := some (.num 0), answer_key := some ['A'],
             worked_solution := none, explanation := none }, by simp, rfl⟩
  · rfl

/-! ## JSON values and `JSON.parse`

`JSON.parse` is the JS builtin used by `parseQuestionsFromContent`; it is
modelled by a fuel-driven recursive-descent parser over `List Char` following
the JSON grammar (objects, arrays, strings with the standard escapes including
`\uXXXX`, `true`/`false`/`null`, and integer numbers — the fractional/exponent
forms are not needed by any claim and are rejected by the model). Duplicate
object keys follow the JS semantics: the last occurrence wins on lookup. -/

/-- A parsed JSON value. -/
inductive Json where
  | null
  | bool (b : Bool)
  | num (n : Int)
  | str (s : List Char)
  | arr (elems : List Json)
  | obj (fields : List ((List Char) × Json))

/-- JS truthiness of a JSON value (arrays and objects are always truthy). -/
def jsTruthy : Json → Bool
  | .null => false
  | .bool b => b
  | .num n => n ≠ 0
  | .str s => s ≠ []
  | .arr _ => true
  | .obj _ => true

/-- Property lookup on a parsed object; with duplicate keys the last wins,
matching `JSON.parse` in JS. -/
def objLookupLast (fields : List ((List Char) × Json)) (key : List Char) : Option Json :=
  (fields.reverse.find? (fun f => decide (f.1 = key))).map (·.2)

/-- JSON whitespace accepted between tokens. -/
def jsonWs (c : Char) : Bool :=
  c = ' ' ∨ c = '\t' ∨ c = '\n' ∨ c = '\r'

/-- Value of a hex digit, if any. -/
def hexVal (c : Char) : Option Nat :=
  if '0' ≤ c ∧ c ≤ '9' then some (c.toNat - 48)
  else if 'a' ≤ c ∧ c ≤ 'f' then some (c.toNat - 87)
  else if 'A' ≤ c ∧ c ≤ 'F' then some (c.toNat - 55)
  else none

/-- Decode a simple (non-`u`) JSON string escape. -/
def jsonEscChar (c : Char) : Option Char :=
  if c = '"' then some '"'
  else if c = '\\' then some '\\'
  else if c = '/' then some '/'
  else if c = 'b' then some (Char.ofNat 8)
  else if c = 'f' then some (Char.ofNat 12)
  else if c = 'n' then some '\n'
  else if c = 'r' then some '\r'
  else if c = 't' then some '\t'
  else none

/-- Parse the body of a JSON string after the opening quote.
Returns the decoded content and the remaining input after the closing quote. -/
def pStr : Nat → List Char → Option (List Char × List Char)
  | 0, _ => none
  | _ + 1, [] => none
  | fuel + 1, c :: rest =>
    if c = '"' then some ([], rest)
    else if c = '\\' then
      match rest with
      | [] => none
      | e :: rest2 =>
        if e = 'u' then
          match rest2 with
          | h1 :: h2 :: h3 :: h4 :: rest3 =>
            match hexVal h1, hexVal h2, hexVal h3, hexVal h4 with
            | some v1, some v2, some v3, some v4 =>
              (pStr fuel rest3).map (fun r =>
                (Char.ofNat (((v1 * 16 + v2) * 16 + v3) * 16 + v4) :: r.1, r.2))
            | _, _, _, _ => none
          | _ => none
        else
          match jsonEscChar e with
          | some d => (pStr fuel rest2).map (fun r => (d :: r.1, r.2))
          | none => none
    else if c.toNat < 32 then none
    else (pStr fuel rest).map (fun r => (c :: r.1, r.2))

/-- Decimal value of a digit string. -/
def digitsVal (ds : List Char) : Nat :=
  ds.foldl (fun a c => a * 10 + (c.toNat - 48)) 0

/-- Parse a JSON number (integer forms only; a following `.`/`e`/`E` rejects). -/
def pNum (s : List Char) : Option (Int × List Char) :=
  let (neg, s1) : Bool × List Char :=
    match s with
    | '-' :: rest => (true, rest)
    | _ => (false, s)
  let ds := s1.takeWhile (·.isDigit)
  let rest := s1.dropWhile (·.isDigit)
  if ds = [] then none
  else if ds.length > 1 ∧ ds.headI = '0' then none
  else
    match rest with
    | c :: _ =>
      if c = '.' ∨ c = 'e' ∨ c = 'E' then none
      else some ((if neg then -(digitsVal ds : Int) else (digitsVal ds : Int)), rest)
    | [] => some ((if neg then -(digitsVal ds : Int) else (digitsVal ds : Int)), [])

mutual

/-- Parse one JSON value (leading whitespace allowed). -/
def pVal : Nat → List Char → Option (Json × List Char)
  | 0, _ => none
  | fuel + 1, s =>
    let s := s.dropWhile jsonWs
    match s with
    | [] => none
    | c :: rest =>
      if c = '\x7b' then
        let rest1 := rest.dropWhile jsonWs
        match rest1 with
        | '\x7d' :: rest2 => some (.obj [], rest2)
        | _ => (pMembers fuel rest).map (fun r => (Json.obj r.1, r.2))
      else if c = '[' then
        let rest1 := rest.dropWhile jsonWs
        match rest1 with
        | ']' :: rest2 => some (.arr [], rest2)
        | _ => (pElems fuel rest).map (fun r => (Json.arr r.1, r.2))
      else if c = '"' then
        (pStr (fuel + 1) rest).map (fun r => (Json.str r.1, r.2))
      else if s.take 4 = "true".toList then some (.bool true, s.drop 4)
      else if s.take 5 = "false".toList then some (.bool false, s.drop 5)
      else if s.take 4 = "null".toList then some (.null, s.drop 4)
      else (pNum s).map (fun r => (Json.num r.1, r.2))

/-- Parse `"key": value (, "key": value)* }` — object members. -/
def pMembers : Nat → List Char → Option (List ((List Char) × Json) × List Char)
  | 0, _ => none
  | fuel + 1, s =>
    let s := s.dropWhile jsonWs
    match s with
    | '"' :: rest =>
      match pStr (fuel + 1) rest with
      | some (key, rest1) =>
        match rest1.dropWhile jsonWs with
        | ':' :: rest2 =>
          match pVal fuel rest2 with
          | some (v, rest3) =>
            match rest3.dropWhile jsonWs with
            | ',' :: rest4 =>
              (pMembers fuel rest4).map (fun r => ((key, v) :: r.1, r.2))
            | '\x7d' :: rest4 => some ([(key, v)], rest4)
            | _ => none
          | none => none
        | _ => none
      | none => none
    | _ => none

/-- Parse `value (, value)* ]` — array elements. -/
def pElems : Nat → List Char → Option (List Json × List Char)
  | 0, _ => none
  | fuel + 1, s =>
    match pVal fuel s with
    | some (v, rest) =>
      match rest.dropWhile jsonWs with
      | ',' :: rest1 => (pElems fuel rest1).map (fun r => (v :: r.1, r.2))
      | ']' :: rest1 => some ([v], rest1)
      | _ => none
    | none => none

end

/-- `JSON.parse`: parse one value and require only whitespace to remain. -/
def jsonParse (s : List Char) : Option Json :=
  match pVal (8 * (s.length + 4)) s with
  | some (j, rest) => if rest.dropWhile jsonWs = [] then some j else none
  | none => none

/-- `parsed.questions && Array.isArray(parsed.questions)`: the questions array
of a parsed value, when present. -/
def questionsArrayOf (j : Json) : Option (List Json) :=
  match j with
  | .obj fields =>
    match objLookupLast fields ("questions".toList) with
    | some (.arr xs) => some xs
    | _ => none
  | _ => none

/-! ## A small backtracking regex engine

`parseQuestionsFromContent` and the markdown fallback parser use JS regexes.
They are embedded via an explicit regex AST and a continuation-passing
backtracking matcher that mirrors JS semantics: alternation prefers the left
branch, `star` is greedy, `lstar` is lazy, an iteration of a quantifier that
consumes nothing ends the loop, `(?=...)` is zero-width, and `^`/`$` (no `m`
flag) anchor to the ends of the whole input. The matcher is fuel-driven; the
fuel is far larger than any backtracking exploration of the patterns used. -/

/-- Capture list: slot `i` holds the span of group `i` (group 0 unused). -/
def Caps := List (Option (Nat × Nat))
  deriving DecidableEq

/-- Initially no group has captured. -/
def capsEmpty : Caps := List.replicate 4 none

/-- Record the span of group `i`. -/
def capsSet (cs : Caps) (i : Nat) (v : Nat × Nat) : Caps := cs.set i (some v)

/-- Read the span of group `i`. -/
def capGet (cs : Caps) (i : Nat) : Option (Nat × Nat) := (cs : List _).getD i none

/-- Regex AST: empty, character class, sequence, alternation, greedy star,
lazy star, capturing group, lookahead, begin/end anchors. -/
inductive RE where
  | eps
  | cls (p : Char → Bool)
  | seq (a b : RE)
  | alt (a b : RE)
  | star (r : RE)
  | lstar (r : RE)
  | grp (i : Nat) (r : RE)
  | look (r : RE)
  | bos
  | eos

/-- `r+` (greedy). -/
def rePlus (r : RE) : RE := .seq r (.star r)

/-- `r+?` (lazy). -/
def rePlusLazy (r : RE) : RE := .seq r (.lstar r)

/-- `r?` (greedy). -/
def reOpt (r : RE) : RE := .alt r .eps

/-- A literal character. -/
def reCh (c : Char) : RE := .cls (fun x => x = c)

/-- A literal character, case-insensitively (`i` flag). -/
def reChCI (c : Char) : RE := .cls (fun x => x.toLower = c.toLower)

/-- A literal string. -/
def reLit (cs : List Char) : RE := cs.foldr (fun c acc => RE.seq (reCh c) acc) .eps

/-- A literal string, case-insensitively. -/
def reLitCI (cs : List Char) : RE := cs.foldr (fun c acc => RE.seq (reChCI c) acc) .eps

/-- The JS `\s` class (ASCII part). -/
def jsSpaceChar (c : Char) : Bool :=
  c = ' ' ∨ c = '\t' ∨ c = '\n' ∨ c = '\r' ∨ c = Char.ofNat 11 ∨ c = Char.ofNat 12

/-- The JS `\d` class. -/
def jsDigitChar (c : Char) : Bool := c.isDigit

/-- The continuation-passing backtracking matcher. `k` receives the position
and captures after `re`; the result is the first (in JS preference order)
overall success. -/
def mrun (text : List Char) :
    Nat → RE → Nat → Caps → (Nat → Caps → Option (Nat × Caps)) → Option (Nat × Caps)
  | 0, _, _, _, _ => none
  | fuel + 1, re, pos, caps, k =>
    match re with
    | .eps => k pos caps
    | .cls p =>
      match text.get? pos with
      | some c => if p c then k (pos + 1) caps else none
      | none => none
    | .seq a b => mrun text fuel a pos caps (fun p c => mrun text fuel b p c k)
    | .alt a b =>
      (mrun text fuel a pos caps k).or (mrun text fuel b pos caps k)
    | .star r =>
      (mrun text fuel r pos caps
        (fun p c => if pos < p then mrun text fuel (.star r) p c k else k p c)).or
        (k pos caps)
    | .lstar r =>
      (k pos caps).or
        (mrun text fuel r pos caps
          (fun p c => if pos < p then mrun text fuel (.lstar r) p c k else none))
    | .grp i r => mrun text fuel r pos caps (fun p c => k p (capsSet c i (pos, p)))
    | .look r =>
      match mrun text fuel r pos caps (fun p c => some (p, c)) with
      | some _ => k pos caps
      | none => none
    | .bos => if pos = 0 then k pos caps else none
    | .eos => if pos = text.length then k pos caps else none

/-- A regex match: start, end, captures. -/
structure MatchRes where
  ms : Nat
  me : Nat
  caps : Caps
  deriving DecidableEq

/-- Fuel bound for the matcher. -/
def mFuel (text : List Char) : Nat := 2 ^ (2 * text.length + 24)

/-- Try to match `re` at exactly position `p`. -/
def tryMatchAt (re : RE) (text : List Char) (p : Nat) : Option MatchRes :=
  (mrun text (mFuel text) re p capsEmpty (fun e c => some (e, c))).map
    (fun r => ⟨p, r.1, r.2⟩)

/-- Search loop of `regex.exec`: try each position from `start` on; the fuel
equals `length + 1 - start`, so it runs out exactly when the search range is
exhausted. (Fuel-based structural recursion keeps the definition computable by
the kernel.) -/
def execFromAux (re : RE) (text : List Char) : Nat → Nat → Option MatchRes
  | 0, _ => none
  | fuel + 1, start =>
    if start ≤ text.length then
      match tryMatchAt re text start with
      | some m => some m
      | none => if start = text.length then none else execFromAux re text fuel (start + 1)
    else none

/-- JS `regex.exec` semantics: first match at a position `≥ start`
(`none` when `start` exceeds the input length). -/
def execFrom (re : RE) (text : List Char) (start : Nat) : Option MatchRes :=
  execFromAux re text (text.length + 1 - start) start

/-- The capture-`i` substring of a match (empty when the group did not capture),
as JS `match[i] || ''`. -/
def capStr (text : List Char) (m : MatchRes) (i : Nat) : List Char :=
  match capGet m.caps i with
  | some (a, b) => (text.drop a).take (b - a)
  | none => []

/-- The whole matched substring, JS `match[0]`. -/
def matchStr (text : List Char) (m : MatchRes) : List Char :=
  (text.drop m.ms).take (m.me - m.ms)

theorem tryMatchAt_ms0 (re : RE) (text : List Char) (pos : Nat) (m : MatchRes)
    (h : tryMatchAt re text pos = some m) : m.ms = pos := by
  unfold tryMatchAt at h
  cases hmr : mrun text (mFuel text) re pos capsEmpty (fun e c => some (e, c)) with
  | some r0 =>
    rw [hmr] at h
    simp only [Option.map_some'] at h
    cases h
    rfl
  | none => rw [hmr] at h; exact absurd h (by simp)

theorem execFromAux_bounds (re : RE) (text : List Char) :
    ∀ fuel start m, execFromAux re text fuel start = some m →
      start ≤ m.ms ∧ m.ms ≤ text.length ∧ tryMatchAt re text m.ms = some m := by
  intro fuel
  induction fuel with
  | zero =>
    intro start m hrun
    exact absurd hrun (by simp [execFromAux])
  | succ fuel ih =>
    intro start m hrun
    rw [execFromAux] at hrun
    by_cases hle : start ≤ text.length
    · rw [if_pos hle] at hrun
      cases htry : tryMatchAt re text start with
      | some m0 =>
        rw [htry] at hrun
        have hm0 : m0 = m := by simpa using hrun
        subst hm0
        have hms := tryMatchAt_ms0 re text start m0 htry
        rw [hms]
        exact ⟨le_rfl, hle, htry⟩
      | none =>
        rw [htry] at hrun
        by_cases hend : start = text.length
        · rw [if_pos hend] at hrun; exact absurd hrun (by simp)
        · rw [if_neg hend] at hrun
          have := ih (start + 1) m hrun
          exact ⟨by omega, this.2.1, this.2.2⟩
    · rw [if_neg hle] at hrun
      exact absurd hrun (by simp)

theorem execFrom_start_bounds (re : RE) (text : List Char) :
    ∀ start m, execFrom re text start = some m → start ≤ m.ms ∧ m.ms ≤ text.length :=
  fun start m h =>
    ⟨(execFromAux_bounds re text _ start m h).1, (execFromAux_bounds re text _ start m h).2.1⟩

theorem execFrom_finds_tryMatch (re : RE) (text : List Char) :
    ∀ start m, execFrom re text start = some m → tryMatchAt re text m.ms = some m :=
  fun start m h => (execFromAux_bounds re text _ start m h).2.2

/-! ## Resilient JSON-block extractor — candidate search and brace scan

Translation of the `while (true)` loop of `parseQuestionsFromContent`
(routes/lessons.js 1041-1140, identical scanning in
questionExtraction.service.js 411-494). -/

/-- Does `pat` occur in `text` starting exactly at `p`? -/
def litAt (text pat : List Char) (p : Nat) : Bool :=
  decide ((text.drop p).take pat.length = pat)

/-- Search loop of `indexOf`: fuel equals `length + 1 - start`. -/
def indexOfFromAux (text pat : List Char) : Nat → Nat → Option Nat
  | 0, _ => none
  | fuel + 1, start =>
    if start ≤ text.length then
      if litAt text pat start then some start
      else if start = text.length then none
      else indexOfFromAux text pat fuel (start + 1)
    else none

/-- JS `text.indexOf(pat, start)`: the least position `≥ start` where `pat`
occurs. -/
def indexOfFrom (text pat : List Char) (start : Nat) : Option Nat :=
  indexOfFromAux text pat (text.length + 1 - start) start

/-- Pattern 1: the literal `\x7b"questions"`. -/
def questionsPat1 : List Char := "\x7b\"questions\"".toList

/-- Pattern 2: the literal `{ "questions"`. -/
def questionsPat2 : List Char := "\x7b \"questions\"".toList

/-- Pattern 3: the regex `\{\s*"questions"\s*:\s*\[`. -/
def questionsPat3 : RE :=
  .seq (reCh '{')
    (.seq (.star (.cls jsSpaceChar))
      (.seq (reLit ("\"questions\"".toList))
        (.seq (.star (.cls jsSpaceChar))
          (.seq (reCh ':')
            (.seq (.star (.cls jsSpaceChar))
              (reCh '['))))))

/-- Minimum of two optional positions (absent values ignored), as the source's
`validPatterns = [...].filter(p => p !== -1); Math.min(...validPatterns)`. -/
def minOpt : Option Nat → Option Nat → Option Nat
  | none, b => b
  | a, none => a
  | some x, some y => some (min x y)

/-- The next candidate block start at or after `searchStart`: the earliest of
the three pattern positions. (For pattern 3 the source takes
`remainingContent.indexOf(regexMatch[0])`; the first occurrence of the matched
text coincides with the position of the first regex match, since the pattern
has no anchors or context.) -/
def findJsonStart (text : List Char) (searchStart : Nat) : Option Nat :=
  let pattern1 := indexOfFrom text questionsPat1 searchStart
  let pattern2 := indexOfFrom text questionsPat2 searchStart
  let pattern3 := (execFrom questionsPat3 text searchStart).map (·.ms)
  minOpt (minOpt pattern1 pattern2) pattern3

/-- The brace-balancing scan from `jsonStart`: track a brace counter that
ignores braces inside string literals (quote toggle plus backslash-escape
lookahead); the block ends one past the position where the counter returns to
zero. Fuel equals `length - i`. -/
def findJsonEndAux (text : List Char) : Nat → Nat → Int → Bool → Bool → Option Nat
  | 0, _, _, _, _ => none
  | fuel + 1, i, braceCount, inString, escapeNext =>
    match text[i]? with
    | none => none
    | some c =>
      if escapeNext then findJsonEndAux text fuel (i + 1) braceCount inString false
      else if c = '\\' then findJsonEndAux text fuel (i + 1) braceCount inString true
      else if c = '"' then findJsonEndAux text fuel (i + 1) braceCount (!inString) false
      else if !inString then
        let bc := if c = '\x7b' then braceCount + 1
          else if c = '\x7d' then braceCount - 1 else braceCount
        if bc = 0 then some (i + 1) else findJsonEndAux text fuel (i + 1) bc inString false
      else findJsonEndAux text fuel (i + 1) braceCount inString false

/-- `jsonEnd` for a candidate starting at `jsonStart`. -/
def findJsonEnd (text : List Char) (jsonStart : Nat) : Option Nat :=
  findJsonEndAux text (text.length - jsonStart) jsonStart 0 false false

/-- JS `text.substring(s, e)` (for `s ≤ e`). -/
def sliceStr (text : List Char) (s e : Nat) : List Char :=
  (text.drop s).take (e - s)

/-- The questions contributed by one candidate block: parse; on failure repair
with `fixInvalidEscapeSequences` and retry exactly once; a block that still
fails, or parses without a `questions` array, contributes nothing. -/
def blockQuestions (block : List Char) : List Json :=
  match jsonParse block with
  | some j => (questionsArrayOf j).getD []
  | none =>
    match jsonParse (fixInvalidEscapeSequences block) with
    | some j => (questionsArrayOf j).getD []
    | none => []

theorem indexOfFromAux_bounds (text pat : List Char) :
    ∀ fuel start p, indexOfFromAux text pat fuel start = some p →
      start ≤ p ∧ p ≤ text.length ∧ litAt text pat p = true := by
  intro fuel
  induction fuel with
  | zero =>
    intro start p hrun
    exact absurd hrun (by simp [indexOfFromAux])
  | succ fuel ih =>
    intro start p hrun
    rw [indexOfFromAux] at hrun
    by_cases hle : start ≤ text.length
    · rw [if_pos hle] at hrun
      by_cases hlit : litAt text pat start
      · rw [if_pos hlit] at hrun
        injection hrun with h
        subst h
        exact ⟨le_rfl, hle, hlit⟩
      · rw [if_neg hlit] at hrun
        by_cases hend : start = text.length
        · rw [if_pos hend] at hrun; exact absurd hrun (by simp)
        · rw [if_neg hend] at hrun
          have := ih (start + 1) p hrun
          exact ⟨by omega, this.2.1, this.2.2⟩
    · rw [if_neg hle] at hrun
      exact absurd hrun (by simp)

theorem indexOfFrom_bounds (text pat : List Char) :
    ∀ start p, indexOfFrom text pat start = some p → start ≤ p ∧ p ≤ text.length :=
  fun start p h =>
    ⟨(indexOfFromAux_bounds text pat _ start p h).1,
     (indexOfFromAux_bounds text pat _ start p h).2.1⟩

theorem minOpt_bounds (a b : Option Nat) (lo hi : Nat)
    (ha : ∀ x, a = some x → lo ≤ x ∧ x ≤ hi) (hb : ∀ x, b = some x → lo ≤ x ∧ x ≤ hi) :
    ∀ x, minOpt a b = some x → lo ≤ x ∧ x ≤ hi := by
  intro x hx
  cases a with
  | none => exact hb x (by simpa [minOpt] using hx)
  | some va =>
    cases b with
    | none => exact ha x (by simpa [minOpt] using hx)
    | some vb =>
      have hva := ha va rfl
      have hvb := hb vb rfl
      simp only [minOpt] at hx
      injection hx with h
      rcases min_cases va vb with ⟨hmin, -⟩ | ⟨hmin, -⟩ <;> omega

/-- C10 component: a found candidate start lies in `[searchStart, length]`. -/
theorem findJsonStart_bounds (text : List Char) (searchStart s : Nat)
    (h : findJsonStart text searchStart = some s) :
    searchStart ≤ s ∧ s ≤ text.length := by
  refine minOpt_bounds _ _ searchStart text.length
    (minOpt_bounds _ _ searchStart text.length
      (fun x hx => indexOfFrom_bounds text questionsPat1 searchStart x hx)
      (fun x hx => indexOfFrom_bounds text questionsPat2 searchStart x hx))
    ?_ s h
  intro x hx
  cases hm : execFrom questionsPat3 text searchStart with
  | none => simp [hm] at hx
  | some m =>
    simp only [hm, Option.map_some'] at hx
    cases hx
    exact execFrom_start_bounds questionsPat3 text searchStart m hm

theorem findJsonEndAux_bounds (text : List Char) :
    ∀ fuel i bc is en e,
      findJsonEndAux text fuel i bc is en = some e → i < e ∧ e ≤ text.length := by
  intro fuel
  induction fuel with
  | zero =>
    intro i bc is en e hrun
    exact absurd hrun (by simp [findJsonEndAux])
  | succ fuel ih =>
    intro i bc is en e hrun
    rw [findJsonEndAux] at hrun
    cases hget : text[i]? with
    | none => rw [hget] at hrun; exact absurd hrun (by simp)
    | some c =>
      rw [hget] at hrun
      have hlt : i < text.length := by
        by_contra hge
        rw [List.getElem?_eq_none (by omega)] at hget
        exact absurd hget (by simp)
      simp only [] at hrun
      by_cases hen : en = true
      · subst hen
        simp only [if_true] at hrun
        have := ih (i + 1) bc is false e hrun
        omega
      · replace hen : en = false := by cases en <;> simp_all
        subst hen
        simp only [Bool.false_eq_true, if_false] at hrun
        split at hrun
        · have := ih (i + 1) bc is true e hrun
          omega
        · split at hrun
          · have := ih (i + 1) bc (!is) false e hrun
            omega
          · split at hrun
            · split at hrun
              · split at hrun
                · injection hrun with h
                  omega
                · have := ih (i + 1) _ is false e hrun
                  omega
              · split at hrun
                · split at hrun
                  · injection hrun with h
                    omega
                  · have := ih (i + 1) _ is false e hrun
                    omega
                · split at hrun
                  · injection hrun with h
                    omega
                  · have := ih (i + 1) _ is false e hrun
                    omega
            · have := ih (i + 1) bc is false e hrun
              omega

/-- C10 component: a found block end lies in `(jsonStart, length]`. -/
theorem findJsonEnd_bounds (text : List Char) (jsonStart e : Nat)
    (h : findJsonEnd text jsonStart = some e) : jsonStart < e ∧ e ≤ text.length :=
  findJsonEndAux_bounds text (text.length - jsonStart) jsonStart 0 false false e h

/-- The accumulation loop of `parseQuestionsFromContent`: repeatedly find the
next candidate, scan to its end, parse (with one repair retry), collect the
block's questions, and move the cursor to the block end (or one past a
candidate with no closing brace). The fuel dominates the loop measure
`length + 1 - cursor`, which strictly decreases every iteration. -/
def collectQuestionsAux (text : List Char) : Nat → Nat → List Json
  | 0, _ => []
  | fuel + 1, searchStart =>
    match findJsonStart text searchStart with
    | none => []
    | some s =>
      match findJsonEnd text s with
      | some e => blockQuestions (sliceStr text s e) ++ collectQuestionsAux text fuel e
      | none => collectQuestionsAux text fuel (s + 1)

/-- The accumulated questions of all parsed blocks from cursor `searchStart`. -/
def collectQuestions (text : List Char) (searchStart : Nat) : List Json :=
  collectQuestionsAux text (text.length + 1) searchStart

/-- The number of candidate iterations the loop performs (same recursion). -/
def collectStepsAux (text : List Char) : Nat → Nat → Nat
  | 0, _ => 0
  | fuel + 1, searchStart =>
    match findJsonStart text searchStart with
    | none => 0
    | some s =>
      match findJsonEnd text s with
      | some e => 1 + collectStepsAux text fuel e
      | none => 1 + collectStepsAux text fuel (s + 1)

/-- The number of candidate iterations from cursor `searchStart`. -/
def collectSteps (text : List Char) (searchStart : Nat) : Nat :=
  collectStepsAux text (text.length + 1) searchStart

/-- The questions contributed by one candidate block in the service copy of
the extractor (`questionExtraction.service.js`): parse once; its catch only
logs a preview and skips — no escape repair, no retry. -/
def blockQuestionsSvc (block : List Char) : List Json :=
  match jsonParse block with
  | some j => (questionsArrayOf j).getD []
  | none => []

/-- The accumulation loop of the service copy of `parseQuestionsFromContent`:
identical candidate search, end scan and cursor rules, but a failed parse is
skipped directly (no repair retry). -/
def collectQuestionsSvcAux (text : List Char) : Nat → Nat → List Json
  | 0, _ => []
  | fuel + 1, searchStart =>
    match findJsonStart text searchStart with
    | none => []
    | some s =>
      match findJsonEnd text s with
      | some e =>
        blockQuestionsSvc (sliceStr text s e) ++ collectQuestionsSvcAux text fuel e
      | none => collectQuestionsSvcAux text fuel (s + 1)

/-- The accumulated questions of the service copy from cursor `searchStart`. -/
def collectQuestionsSvc (text : List Char) (searchStart : Nat) : List Json :=
  collectQuestionsSvcAux text (text.length + 1) searchStart

/-! ## Markdown fallback parser (routes/lessons.js 1161-1219)

Regex-based extraction used when the JSON path accumulated nothing. The three
question patterns (flags `gis`) and the two choice patterns plus the split
pattern (flags `gi`) are encoded as `RE` values; `.` in the question patterns
is dot-all (`s` flag), while in the choice patterns (no `s` flag) it excludes
JS line terminators; `^`/`$` anchor the whole input (no `m` flag), and the `i`
flag is reflected via case-insensitive character classes. -/

/-- `.` under the `s` (dot-all) flag. -/
def reAny : RE := .cls (fun _ => true)

/-- `.` without the `s` flag: any character except a JS LineTerminator
(`\n`, `\r`, U+2028, U+2029). -/
def reDot : RE :=
  .cls (fun c =>
    !(c = '\n' ∨ c = '\r' ∨ c = Char.ofNat 0x2028 ∨ c = Char.ofNat 0x2029))

/-- `[\.\)]`. -/
def dotParen (c : Char) : Bool := c = '.' ∨ c = ')'

/-- `[\.\:\)]`. -/
def dotColonParen (c : Char) : Bool := c = '.' ∨ c = ':' ∨ c = ')'

/-- `[a-d]` under the `i` flag. -/
def letterAtoD (c : Char) : Bool := 'a' ≤ c.toLower ∧ c.toLower ≤ 'd'

/-- `[A-E]` (and `[a-dA-E]`) under the `i` flag. -/
def letterAtoE (c : Char) : Bool := 'a' ≤ c.toLower ∧ c.toLower ≤ 'e'

/-- `(?:^|\n)`. -/
def lineStart : RE := .alt .bos (reCh '\n')

/-- `\n\s*$|$` — the common tail of the lookaheads. -/
def endTail : RE :=
  .alt (.seq (reCh '\n') (.seq (.star (.cls jsSpaceChar)) .eos)) .eos

/-- `/(?:^|\n)\s*(\d+)[\.\)]\s+(.+?)(?=\n\s*\d+[\.\)]|\n\s*$|$)/gis`. -/
def mdPat1 : RE :=
  .seq lineStart
    (.seq (.star (.cls jsSpaceChar))
      (.seq (.grp 1 (rePlus (.cls jsDigitChar)))
        (.seq (.cls dotParen)
          (.seq (rePlus (.cls jsSpaceChar))
            (.seq (.grp 2 (rePlusLazy reAny))
              (.look (.alt
                (.seq (reCh '\n')
                  (.seq (.star (.cls jsSpaceChar))
                    (.seq (rePlus (.cls jsDigitChar)) (.cls dotParen))))
                endTail)))))))

/-- `Q(?:uestion)?` under the `i` flag. -/
def reQWord : RE := .seq (reChCI 'Q') (reOpt (reLitCI ("uestion".toList)))

/-- `/(?:^|\n)\s*Q(?:uestion)?\.?\s*(\d+)[\.\:\)]\s*(.+?)(?=\n\s*Q(?:uestion)?\.?\s*\d+|\n\s*$|$)/gis`. -/
def mdPat2 : RE :=
  .seq lineStart
    (.seq (.star (.cls jsSpaceChar))
      (.seq reQWord
        (.seq (reOpt (reCh '.'))
          (.seq (.star (.cls jsSpaceChar))
            (.seq (.grp 1 (rePlus (.cls jsDigitChar)))
              (.seq (.cls dotColonParen)
                (.seq (.star (.cls jsSpaceChar))
                  (.seq (.grp 2 (rePlusLazy reAny))
                    (.look (.alt
                      (.seq (reCh '\n')
                        (.seq (.star (.cls jsSpaceChar))
                          (.seq reQWord
                            (.seq (reOpt (reCh '.'))
                              (.seq (.star (.cls jsSpaceChar))
                                (rePlus (.cls jsDigitChar)))))))
                      endTail))))))))))

/-- `/(?:^|\n)\s*\((\d+)\)\s+(.+?)(?=\n\s*\(\d+\)|\n\s*$|$)/gis`. -/
def mdPat3 : RE :=
  .seq lineStart
    (.seq (.star (.cls jsSpaceChar))
      (.seq (reCh '(')
        (.seq (.grp 1 (rePlus (.cls jsDigitChar)))
          (.seq (reCh ')')
            (.seq (rePlus (.cls jsSpaceChar))
              (.seq (.grp 2 (rePlusLazy reAny))
                (.look (.alt
                  (.seq (reCh '\n')
                    (.seq (.star (.cls jsSpaceChar))
                      (.seq (reCh '(')
                        (.seq (rePlus (.cls jsDigitChar)) (reCh ')')))))
                  endTail))))))))

/-- `/\(([a-d])\)\s*(.+?)(?=\n\s*\([a-d]\)|\n\s*\d+[\.\)]|\n\s*$|$)/gi`. -/
def lcChoicePat : RE :=
  .seq (reCh '(')
    (.seq (.grp 1 (.cls letterAtoD))
      (.seq (reCh ')')
        (.seq (.star (.cls jsSpaceChar))
          (.seq (.grp 2 (rePlusLazy reDot))
            (.look (.alt
              (.seq (reCh '\n')
                (.seq (.star (.cls jsSpaceChar))
                  (.seq (reCh '(') (.seq (.cls letterAtoD) (reCh ')')))))
              (.alt
                (.seq (reCh '\n')
                  (.seq (.star (.cls jsSpaceChar))
                    (.seq (rePlus (.cls jsDigitChar)) (.cls dotParen))))
                endTail)))))))

/-- `/(?:^|\n)\s*\(?([A-E])\)?[\.\)]\s*(.+?)(?=\n\s*\(?[A-E]\)?[\.\)]|\n\s*$|$)/gi`. -/
def ucChoicePat : RE :=
  .seq lineStart
    (.seq (.star (.cls jsSpaceChar))
      (.seq (reOpt (reCh '('))
        (.seq (.grp 1 (.cls letterAtoE))
          (.seq (reOpt (reCh ')'))
            (.seq (.cls dotParen)
              (.seq (.star (.cls jsSpaceChar))
                (.seq (.grp 2 (rePlusLazy reDot))
                  (.look (.alt
                    (.seq (reCh '\n')
                      (.seq (.star (.cls jsSpaceChar))
                        (.seq (reOpt (reCh '('))
                          (.seq (.cls letterAtoE)
                            (.seq (reOpt (reCh ')')) (.cls dotParen))))))
                    endTail)))))))))

/-- `/\n\s*\(?[a-dA-E]\)?[\.\)]/i` — the split pattern for the question text. -/
def splitChoicePat : RE :=
  .seq (reCh '\n')
    (.seq (.star (.cls jsSpaceChar))
      (.seq (reOpt (reCh '('))
        (.seq (.cls letterAtoE)
          (.seq (reOpt (reCh ')')) (.cls dotParen)))))

/-- The `while ((match = regex.exec(text)) !== null)` loop of a global regex:
each iteration resumes at the previous match's end (`lastIndex`). The fuel
bounds the iteration count; every pattern used consumes at least one character
per match, so `length + 1` iterations always suffice. -/
def execAllAux (re : RE) (text : List Char) : Nat → Nat → List MatchRes
  | 0, _ => []
  | fuel + 1, lastIndex =>
    match execFrom re text lastIndex with
    | none => []
    | some m => m :: execAllAux re text fuel m.me

/-- All matches of a global regex over `text`. -/
def execAll (re : RE) (text : List Char) : List MatchRes :=
  execAllAux re text (text.length + 1) 0

/-- JS `String.prototype.trim`. -/
def trimStr (s : List Char) : List Char :=
  ((s.dropWhile jsSpaceChar).reverse.dropWhile jsSpaceChar).reverse

/-- Lowercase-style choices of a question block:
`` `($\x7bchoiceMatch[1]\x7d) $\x7bchoiceMatch[2].trim()\x7d` ``. -/
def lcChoicesOf (block : List Char) : List (List Char) :=
  (execAll lcChoicePat block).map (fun m =>
    '(' :: (capStr block m 1 ++ (')' :: ' ' :: trimStr (capStr block m 2))))

/-- Uppercase-style choices (letter lowercased in the output). -/
def ucChoicesOf (block : List Char) : List (List Char) :=
  (execAll ucChoicePat block).map (fun m =>
    '(' :: ((capStr block m 1).map Char.toLower ++ (')' :: ' ' :: trimStr (capStr block m 2))))

/-- Choices of a question block: lowercase style first, uppercase style only
when the lowercase pass found none. -/
def mdChoicesOf (block : List Char) : List (List Char) :=
  let choices := lcChoicesOf block
  if choices.length = 0 then ucChoicesOf block else choices

/-- `questionBlock.split(/.../i)[0]`: the prefix before the first split-pattern
match (the whole block when the pattern does not occur). -/
def splitHead (block : List Char) : List Char :=
  match execFrom splitChoicePat block 0 with
  | some m => block.take m.ms
  | none => block

/-- One markdown question from one regex match: block = `match[2] || match[0]`,
choices extracted, question text cut before the first choice marker when
choices exist; the item is kept only when the question text is truthy. -/
def mdItemOfMatch (text : List Char) (m : MatchRes) : Option Json :=
  let questionLabel := capStr text m 1
  let questionBlock := if capStr text m 2 ≠ [] then capStr text m 2 else matchStr text m
  let choices := mdChoicesOf questionBlock
  let questionText := if choices.length > 0 then trimStr (splitHead questionBlock)
    else questionBlock
  if questionText ≠ [] then
    some (Json.obj [("question_label".toList, Json.str questionLabel),
                    ("text".toList, Json.str (trimStr questionText)),
                    ("choices".toList, Json.arr (choices.map Json.str))])
  else none

/-- The questions contributed by one pattern's exec loop. -/
def mdPatternQuestions (re : RE) (text : List Char) : List Json :=
  (execAll re text).filterMap (mdItemOfMatch text)

/-- The `for (const regex of questionPatterns)` loop: accumulate matches per
pattern, stopping after the first pattern that produced at least one
question. -/
def mdLoop (text : List Char) : List RE → List Json → List Json
  | [], acc => acc
  | re :: rest, acc =>
    let acc2 := acc ++ mdPatternQuestions re text
    if acc2.length > 0 then acc2 else mdLoop text rest acc2

/-- The markdown fallback parser: returns the `questions` array (possibly
empty — a valid, non-error outcome). -/
def markdownFallback (text : List Char) : List Json :=
  mdLoop text [mdPat1, mdPat2, mdPat3] []

/-! ## Deduplication and the top-level extractor -/

/-- JS `Set` key equality (SameValueZero) restricted to parsed JSON values.
Objects and arrays compare by reference in JS; every question object in the
accumulator comes from a distinct `JSON.parse` result, so two object/array
label values are never the same reference — modelled as `false`. -/
def sameValueZero : Json → Json → Bool
  | .null, .null => true
  | .bool a, .bool b => a = b
  | .num a, .num b => a = b
  | .str a, .str b => a = b
  | _, _ => false

/-- `q.question_label || ''` for a non-null value `q`: property access on
non-objects yields `undefined` (falsy), a falsy label collapses to `''`. -/
def questionLabelRaw (q : Json) : Json :=
  match q with
  | .obj fields =>
    match objLookupLast fields ("question_label".toList) with
    | some v => if jsTruthy v then v else .str []
    | none => .str []
  | _ => .str []

/-- `q.question_label || ''` with the JS error behaviour: reading a property
of `null` throws a `TypeError` (caught by the outer `try` of
`parseQuestionsFromContent`). -/
def questionKeyE : Json → Except Unit Json
  | .null => .error ()
  | q => .ok (questionLabelRaw q)

/-- The deduplication loop: `seen` is the `Set` of already-seen label keys;
first occurrence wins, later duplicates are dropped. -/
def dedupQuestionsAux : List Json → List Json → Except Unit (List Json)
  | [], _ => .ok []
  | q :: rest, seen =>
    match questionKeyE q with
    | .error e => .error e
    | .ok label =>
      if seen.any (fun k => sameValueZero k label) then dedupQuestionsAux rest seen
      else
        match dedupQuestionsAux rest (label :: seen) with
        | .ok tail => .ok (q :: tail)
        | .error e => .error e

/-- The JSON-path result: the deduplicated accumulator, or `[]` when the outer
`catch` fires (a `null` question makes the dedup loop throw; the catch returns
`\x7b questions: [], raw_content, parse_error \x7d`). -/
def jsonPathResult (allQuestions : List Json) : List Json :=
  match dedupQuestionsAux allQuestions [] with
  | .ok uniqueQuestions => uniqueQuestions
  | .error _ => []

/-- `parseQuestionsFromContent`, as the `questions` array of its result: the
deduplicated JSON-block accumulation when nonempty, otherwise the markdown
fallback. -/
def parseQuestionsFromContent (text : List Char) : List Json :=
  let allQuestions := collectQuestions text 0
  if allQuestions.length > 0 then jsonPathResult allQuestions
  else markdownFallback text

/-! ### Strengthened candidate-position bounds (a candidate is strictly inside
the text), needed for the termination claim. -/

theorem litAt_fits (text pat : List Char) (p : Nat) (hne : pat ≠ [])
    (h : litAt text pat p = true) : p + pat.length ≤ text.length := by
  unfold litAt at h
  have hlen := congrArg List.length (of_decide_eq_true h)
  rw [List.length_take, List.length_drop] at hlen
  have hpat : 0 < pat.length := List.length_pos.mpr hne
  rcases Nat.le_total pat.length (text.length - p) with hc | hc
  · omega
  · rw [Nat.min_eq_right hc] at hlen
    omega

theorem indexOfFrom_fits (text pat : List Char) (hne : pat ≠ []) :
    ∀ start p, indexOfFrom text pat start = some p →
      start ≤ p ∧ p + pat.length ≤ text.length := by
  intro start p h
  have hb := indexOfFromAux_bounds text pat _ start p h
  exact ⟨hb.1, litAt_fits text pat p hne hb.2.2⟩

theorem mrun_clsHead_needs_char (text : List Char) (p : Char → Bool) (r : RE)
    (fuel pos : Nat) (caps : Caps) (k : Nat → Caps → Option (Nat × Caps))
    (hpos : text.length ≤ pos) :
    mrun text fuel (.seq (.cls p) r) pos caps k = none := by
  match fuel with
  | 0 => rfl
  | 1 => rfl
  | fuel + 2 =>
    have hget : text[pos]? = none := List.getElem?_eq_none hpos
    simp [mrun, hget]

theorem tryMatchAt_clsHead_lt (text : List Char) (p : Char → Bool) (r : RE)
    (pos : Nat) (m : MatchRes)
    (h : tryMatchAt (.seq (.cls p) r) text pos = some m) : pos < text.length := by
  by_contra hge
  unfold tryMatchAt at h
  rw [mrun_clsHead_needs_char text p r _ pos _ _ (by omega)] at h
  exact absurd h (by simp)

/-- A found candidate start is strictly inside the text. -/
theorem findJsonStart_lt (text : List Char) (searchStart s : Nat)
    (h : findJsonStart text searchStart = some s) :
    searchStart ≤ s ∧ s < text.length := by
  have h1 : ∀ x, indexOfFrom text questionsPat1 searchStart = some x →
      searchStart ≤ x ∧ x < text.length := by
    intro x hx
    have := indexOfFrom_fits text questionsPat1 (by decide) searchStart x hx
    have hlen : questionsPat1.length = 12 := by decide
    omega
  have h2 : ∀ x, indexOfFrom text questionsPat2 searchStart = some x →
      searchStart ≤ x ∧ x < text.length := by
    intro x hx
    have := indexOfFrom_fits text questionsPat2 (by decide) searchStart x hx
    have hlen : questionsPat2.length = 13 := by decide
    omega
  have h3 : ∀ x, (execFrom questionsPat3 text searchStart).map (·.ms) = some x →
      searchStart ≤ x ∧ x < text.length := by
    intro x hx
    cases hm : execFrom questionsPat3 text searchStart with
    | none => simp [hm] at hx
    | some m =>
      simp only [hm, Option.map_some'] at hx
      cases hx
      have hb := execFrom_start_bounds questionsPat3 text searchStart m hm
      have htm := execFrom_finds_tryMatch questionsPat3 text searchStart m hm
      have hlt : m.ms < text.length :=
        tryMatchAt_clsHead_lt text (fun x => x = '\x7b') _ m.ms m htm
      omega
  have hcases : ∀ a b x, minOpt a b = some x → a = some x ∨ b = some x := by
    intro a b x hx
    cases a with
    | none => right; simpa [minOpt] using hx
    | some va =>
      cases b with
      | none => left; simpa [minOpt] using hx
      | some vb =>
        simp only [minOpt] at hx
        injection hx with hmin
        rcases min_cases va vb with ⟨hm, -⟩ | ⟨hm, -⟩
        · left; rw [← hmin, hm]
        · right; rw [← hmin, hm]
  rcases hcases _ _ s h with h12 | hp3
  · rcases hcases _ _ s h12 with hp1 | hp2
    · exact h1 s hp1
    · exact h2 s hp2
  · exact h3 s hp3

/-! ### Unfolding lemmas for the scanning loop

`collectQuestions`/`collectSteps` carry fuel `length + 1`; the loop measure
`length + 1 - cursor` strictly decreases each iteration, so the fuel never
runs out — made precise by the fuel-irrelevance lemmas below. -/

theorem collectQuestionsAux_irrel (text : List Char) :
    ∀ f1 f2 start, text.length + 1 - start ≤ f1 → text.length + 1 - start ≤ f2 →
      collectQuestionsAux text f1 start = collectQuestionsAux text f2 start := by
  intro f1
  induction f1 with
  | zero =>
    intro f2 start h1 h2
    have hnone : findJsonStart text start = none := by
      cases hfs : findJsonStart text start with
      | none => rfl
      | some s =>
        have := findJsonStart_lt text start s hfs
        omega
    cases f2 with
    | zero => rfl
    | succ g => simp [collectQuestionsAux, hnone]
  | succ f1 ih =>
    intro f2 start h1 h2
    cases hfs : findJsonStart text start with
    | none =>
      cases f2 with
      | zero => simp [collectQuestionsAux, hfs]
      | succ g => simp [collectQuestionsAux, hfs]
    | some s =>
      have hbs := findJsonStart_lt text start s hfs
      cases f2 with
      | zero => exact absurd h2 (by omega)
      | succ g =>
        cases hfe : findJsonEnd text s with
        | some e =>
          have hbe := findJsonEnd_bounds text s e hfe
          simp only [collectQuestionsAux, hfs, hfe]
          rw [ih g e (by omega) (by omega)]
        | none =>
          simp only [collectQuestionsAux, hfs, hfe]
          exact ih g (s + 1) (by omega) (by omega)

theorem collectStepsAux_irrel (text : List Char) :
    ∀ f1 f2 start, text.length + 1 - start ≤ f1 → text.length + 1 - start ≤ f2 →
      collectStepsAux text f1 start = collectStepsAux text f2 start := by
  intro f1
  induction f1 with
  | zero =>
    intro f2 start h1 h2
    have hnone : findJsonStart text start = none := by
      cases hfs : findJsonStart text start with
      | none => rfl
      | some s =>
        have := findJsonStart_lt text start s hfs
        omega
    cases f2 with
    | zero => rfl
    | succ g => simp [collectStepsAux, hnone]
  | succ f1 ih =>
    intro f2 start h1 h2
    cases hfs : findJsonStart text start with
    | none =>
      cases f2 with
      | zero => simp [collectStepsAux, hfs]
      | succ g => simp [collectStepsAux, hfs]
    | some s =>
      have hbs := findJsonStart_lt text start s hfs
      cases f2 with
      | zero => exact absurd h2 (by omega)
      | succ g =>
        cases hfe : findJsonEnd text s with
        | some e =>
          have hbe := findJsonEnd_bounds text s e hfe
          simp only [collectStepsAux, hfs, hfe]
          rw [ih g e (by omega) (by omega)]
        | none =>
          simp only [collectStepsAux, hfs, hfe]
          rw [ih g (s + 1) (by omega) (by omega)]

theorem collectQuestions_none (text : List Char) (start : Nat)
    (h : findJsonStart text start = none) : collectQuestions text start = [] := by
  show collectQuestionsAux text (text.length + 1) start = []
  simp [collectQuestionsAux, h]

theorem collectQuestions_noend (text : List Char) (start s : Nat)
    (h1 : findJsonStart text start = some s) (h2 : findJsonEnd text s = none) :
    collectQuestions text start = collectQuestions text (s + 1) := by
  have hbs := findJsonStart_lt text start s h1
  show collectQuestionsAux text (text.length + 1) start =
    collectQuestionsAux text (text.length + 1) (s + 1)
  rw [collectQuestionsAux]
  simp only [h1, h2]
  exact collectQuestionsAux_irrel text text.length (text.length + 1) (s + 1)
    (by omega) (by omega)

theorem collectQuestions_block (text : List Char) (start s e : Nat)
    (h1 : findJsonStart text start = some s) (h2 : findJsonEnd text s = some e) :
    collectQuestions text start =
      blockQuestions (sliceStr text s e) ++ collectQuestions text e := by
  have hbs := findJsonStart_lt text start s h1
  have hbe := findJsonEnd_bounds text s e h2
  show collectQuestionsAux text (text.length + 1) start =
    blockQuestions (sliceStr text s e) ++ collectQuestionsAux text (text.length + 1) e
  rw [collectQuestionsAux]
  simp only [h1, h2]
  rw [collectQuestionsAux_irrel text text.length (text.length + 1) e (by omega) (by omega)]

theorem collectQuestionsSvcAux_irrel (text : List Char) :
    ∀ f1 f2 start, text.length + 1 - start ≤ f1 → text.length + 1 - start ≤ f2 →
      collectQuestionsSvcAux text f1 start = collectQuestionsSvcAux text f2 start := by
  intro f1
  induction f1 with
  | zero =>
    intro f2 start h1 h2
    have hnone : findJsonStart text start = none := by
      cases hfs : findJsonStart text start with
      | none => rfl
      | some s =>
        have := findJsonStart_lt text start s hfs
        omega
    cases f2 with
    | zero => rfl
    | succ g => simp [collectQuestionsSvcAux, hnone]
  | succ f1 ih =>
    intro f2 start h1 h2
    cases hfs : findJsonStart text start with
    | none =>
      cases f2 with
      | zero => simp [collectQuestionsSvcAux, hfs]
      | succ g => simp [collectQuestionsSvcAux, hfs]
    | some s =>
      have hbs := findJsonStart_lt text start s hfs
      cases f2 with
      | zero => exact absurd h2 (by omega)
      | succ g =>
        cases hfe : findJsonEnd text s with
        | some e =>
          have hbe := findJsonEnd_bounds text s e hfe
          simp only [collectQuestionsSvcAux, hfs, hfe]
          rw [ih g e (by omega) (by omega)]
        | none =>
          simp only [collectQuestionsSvcAux, hfs, hfe]
          exact ih g (s + 1) (by omega) (by omega)

theorem collectQuestionsSvc_noend (text : List Char) (start s : Nat)
    (h1 : findJsonStart text start = some s) (h2 : findJsonEnd text s = none) :
    collectQuestionsSvc text start = collectQuestionsSvc text (s + 1) := by
  have hbs := findJsonStart_lt text start s h1
  show collectQuestionsSvcAux text (text.length + 1) start =
    collectQuestionsSvcAux text (text.length + 1) (s + 1)
  rw [collectQuestionsSvcAux]
  simp only [h1, h2]
  exact collectQuestionsSvcAux_irrel text text.length (text.length + 1) (s + 1)
    (by omega) (by omega)

theorem collectQuestionsSvc_block (text : List Char) (start s e : Nat)
    (h1 : findJsonStart text start = some s) (h2 : findJsonEnd text s = some e) :
    collectQuestionsSvc text start =
      blockQuestionsSvc (sliceStr text s e) ++ collectQuestionsSvc text e := by
  have hbs := findJsonStart_lt text start s h1
  have hbe := findJsonEnd_bounds text s e h2
  show collectQuestionsSvcAux text (text.length + 1) start =
    blockQuestionsSvc (sliceStr text s e) ++ collectQuestionsSvcAux text (text.length + 1) e
  rw [collectQuestionsSvcAux]
  simp only [h1, h2]
  rw [collectQuestionsSvcAux_irrel text text.length (text.length + 1) e
    (by omega) (by omega)]

theorem collectSteps_none (text : List Char) (start : Nat)
    (h : findJsonStart text start = none) : collectSteps text start = 0 := by
  show collectStepsAux text (text.length + 1) start = 0
  simp [collectStepsAux, h]

theorem collectSteps_noend (text : List Char) (start s : Nat)
    (h1 : findJsonStart text start = some s) (h2 : findJsonEnd text s = none) :
    collectSteps text start = 1 + collectSteps text (s + 1) := by
  have hbs := findJsonStart_lt text start s h1
  show collectStepsAux text (text.length + 1) start =
    1 + collectStepsAux text (text.length + 1) (s + 1)
  rw [collectStepsAux]
  simp only [h1, h2]
  rw [collectStepsAux_irrel text text.length (text.length + 1) (s + 1) (by omega) (by omega)]

theorem collectSteps_block (text : List Char) (start s e : Nat)
    (h1 : findJsonStart text start = some s) (h2 : findJsonEnd text s = some e) :
    collectSteps text start = 1 + collectSteps text e := by
  have hbs := findJsonStart_lt text start s h1
  have hbe := findJsonEnd_bounds text s e h2
  show collectStepsAux text (text.length + 1) start =
    1 + collectStepsAux text (text.length + 1) e
  rw [collectStepsAux]
  simp only [h1, h2]
  rw [collectStepsAux_irrel text text.length (text.length + 1) e (by omega) (by omega)]

/-- C10: the candidate-scanning loop terminates — a found candidate start lies
in `[cursor, length)`, a found block end lies in `(candidate, length]`, so the
cursor strictly increases and is bounded by the input length; the number of
candidate iterations from any cursor is at most `length - cursor` (hence at
most the input length). -/
theorem extractor_scan_terminates (text : List Char) :
    (∀ start s, findJsonStart text start = some s → start ≤ s ∧ s < text.length) ∧
    (∀ s e, findJsonEnd text s = some e → s < e ∧ e ≤ text.length) ∧
    (∀ start, collectSteps text start ≤ text.length - start) ∧
    (∀ start, collectSteps text start ≤ text.length) := by
  have hsteps : ∀ n start, text.length + 1 - start ≤ n →
      collectSteps text start ≤ text.length - start := by
    intro n
    induction n with
    | zero =>
      intro start hn
      cases hfs : findJsonStart text start with
      | none => rw [collectSteps_none text start hfs]; omega
      | some s =>
        have := findJsonStart_lt text start s hfs
        omega
    | succ n ih =>
      intro start hn
      cases hfs : findJsonStart text start with
      | none => rw [collectSteps_none text start hfs]; omega
      | some s =>
        have hbs := findJsonStart_lt text start s hfs
        cases hfe : findJsonEnd text s with
        | some e =>
          have hbe := findJsonEnd_bounds text s e hfe
          rw [collectSteps_block text start s e hfs hfe]
          have hrec := ih e (by omega)
          omega
        | none =>
          rw [collectSteps_noend text start s hfs hfe]
          have hrec := ih (s + 1) (by omega)
          omega
  refine ⟨findJsonStart_lt text, findJsonEnd_bounds text, ?_, ?_⟩
  · exact fun start => hsteps (text.length + 1 - start) start le_rfl
  · intro start
    have := hsteps (text.length + 1 - start) start le_rfl
    omega

/-- Witness for `extractor_scan_terminates` at a concrete input: in
`xx\x7b"questions": [1]\x7d tail` the candidate is found at position 2, the block
ends at position 20, and the loop performs exactly one candidate iteration. -/
theorem extractor_scan_terminates_witness :
    (2 ≤ 2 ∧ 2 < ("xx\x7b\"questions\": [1]\x7d tail".toList).length) ∧
    (2 < 20 ∧ 20 ≤ ("xx\x7b\"questions\": [1]\x7d tail".toList).length) ∧
    collectSteps ("xx\x7b\"questions\": [1]\x7d tail".toList) 0 ≤
      ("xx\x7b\"questions\": [1]\x7d tail".toList).length := by
  refine ⟨?_, ?_, ?_⟩
  · exact (extractor_scan_terminates ("xx\x7b\"questions\": [1]\x7d tail".toList)).1 2 2 (by rfl)
  · exact (extractor_scan_terminates ("xx\x7b\"questions\": [1]\x7d tail".toList)).2.1 2 20 (by rfl)
  · exact (extractor_scan_terminates ("xx\x7b\"questions\": [1]\x7d tail".toList)).2.2.2 0

/-- C6 (amended): error handling of a malformed block, per implementation.
When a candidate is located at `s` and its balanced-brace end is found at `e`
but the substring fails JSON parsing, the `routes/lessons.js` extractor
consults the parse of the repaired substring (`fixInvalidEscapeSequences`) —
exactly one retry, as `blockQuestions` unfolds — and when that also fails the
block contributes nothing and scanning continues from `e`; the
`questionExtraction.service.js` copy performs no repair and no retry: a block
whose raw parse fails contributes nothing and scanning continues from `e`
directly. In both copies, when no closing brace is found scanning continues
from `s + 1`, and the extractor is a total function, so a malformed block
never aborts the extraction. -/
theorem malformed_block_skipped (text : List Char) (start s e : Nat)
    (h1 : findJsonStart text start = some s) :
    (findJsonEnd text s = some e →
      jsonParse (sliceStr text s e) = none →
      (collectQuestions text start =
        (match jsonParse (fixInvalidEscapeSequences (sliceStr text s e)) with
          | some j => (questionsArrayOf j).getD []
          | none => []) ++ collectQuestions text e) ∧
      (jsonParse (fixInvalidEscapeSequences (sliceStr text s e)) = none →
        collectQuestions text start = collectQuestions text e) ∧
      (collectQuestionsSvc text start = collectQuestionsSvc text e)) ∧
    (findJsonEnd text s = none →
      collectQuestions text start = collectQuestions text (s + 1) ∧
      collectQuestionsSvc text start = collectQuestionsSvc text (s + 1)) := by
  constructor
  · intro h2 hfail
    have hblock : blockQuestions (sliceStr text s e) =
        (match jsonParse (fixInvalidEscapeSequences (sliceStr text s e)) with
          | some j => (questionsArrayOf j).getD []
          | none => []) := by
      unfold blockQuestions
      rw [hfail]
    refine ⟨?_, ?_, ?_⟩
    · rw [collectQuestions_block text start s e h1 h2, hblock]
    · intro hfail2
      rw [collectQuestions_block text start s e h1 h2, hblock, hfail2]
      rfl
    · rw [collectQuestionsSvc_block text start s e h1 h2]
      unfold blockQuestionsSvc
      rw [hfail]
      rfl
  · intro h2
    exact ⟨collectQuestions_noend text start s h1 h2,
      collectQuestionsSvc_noend text start s h1 h2⟩

/-- Witness for `malformed_block_skipped`: in `ab{"questions":[}z` the
candidate at position 2 has its brace-balanced end at position 16, the block
`{"questions":[}` fails to parse, the repaired block also fails (lessons.js
copy), the service copy skips directly, and both loops continue after the
block (finding nothing further). -/
theorem malformed_block_skipped_witness :
    collectQuestions ("ab\x7b\"questions\":[\x7dz".toList) 0 =
      collectQuestions ("ab\x7b\"questions\":[\x7dz".toList) 17 ∧
    collectQuestions ("ab\x7b\"questions\":[\x7dz".toList) 0 = [] ∧
    collectQuestionsSvc ("ab\x7b\"questions\":[\x7dz".toList) 0 =
      collectQuestionsSvc ("ab\x7b\"questions\":[\x7dz".toList) 17 := by
  have h := malformed_block_skipped ("ab\x7b\"questions\":[\x7dz".toList) 0 2 17 (by rfl)
  refine ⟨?_, ?_, ?_⟩
  · exact (h.1 (by rfl) (by rfl)).2.1 (by rfl)
  · rw [(h.1 (by rfl) (by rfl)).2.1 (by rfl)]
    rfl
  · exact (h.1 (by rfl) (by rfl)).2.2

/-- C6 counterexample: the frozen claim's "retries exactly once on the output
of the escape-sequence repairer" is false for the cited service copy of
`parseQuestionsFromContent`, whose catch only logs and skips. On a block whose
only flaw is the invalid escape `\q`, the lessons.js extractor repairs and
extracts the question, while the service extractor contributes nothing. -/
theorem service_extractor_no_retry_counterexample :
    collectQuestionsSvc
      ("ab\x7b\"questions\":[\x7b\"l\":\"\\q\"\x7d]\x7d".toList) 0 = [] ∧
    (collectQuestions
      ("ab\x7b\"questions\":[\x7b\"l\":\"\\q\"\x7d]\x7d".toList) 0).length = 1 := by
  exact ⟨rfl, rfl⟩

/-! ### Deduplication semantics (C5) and the markdown fallback switch (C7) -/

/-- Is a JSON value the literal `null`? -/
def isNullJson : Json → Bool
  | .null => true
  | _ => false

/-- JS `String()` on primitive JSON values (the claim's "string-coerced" key). -/
def jsStringOf : Json → List Char
  | .null => "null".toList
  | .bool b => (toString b).toList
  | .num n => (toString n).toList
  | .str s => s
  | .arr _ => []
  | .obj _ => []

theorem questionKeyE_of_not_null (q : Json) (h : isNullJson q = false) :
    questionKeyE q = .ok (questionLabelRaw q) := by
  cases q with
  | null => exact absurd h (by simp [isNullJson])
  | bool b => rfl
  | num n => rfl
  | str s => rfl
  | arr xs => rfl
  | obj fs => rfl

/-- The claim's description of the dedup pass as a left fold: keep a question
iff no kept question has the same (raw, falsy-collapsed) label key. -/
def dedupFold (qs : List Json) : List Json :=
  qs.foldl (fun acc q =>
    if acc.any (fun q0 => sameValueZero (questionLabelRaw q0) (questionLabelRaw q)) then acc
    else acc ++ [q]) []

theorem dedupAux_foldl (qs : List Json) :
    ∀ (seen : List Json) (acc : List Json),
      (∀ q ∈ qs, isNullJson q = false) →
      (∀ key, seen.any (fun k => sameValueZero k key) =
        acc.any (fun q0 => sameValueZero (questionLabelRaw q0) key)) →
      ∃ us, dedupQuestionsAux qs seen = .ok us ∧
        qs.foldl (fun acc q =>
          if acc.any (fun q0 => sameValueZero (questionLabelRaw q0) (questionLabelRaw q))
          then acc else acc ++ [q]) acc = acc ++ us := by
  induction qs with
  | nil =>
    intro seen acc hnn hinv
    exact ⟨[], rfl, by simp⟩
  | cons q rest ih =>
    intro seen acc hnn hinv
    have hq : questionKeyE q = .ok (questionLabelRaw q) :=
      questionKeyE_of_not_null q (hnn q (by simp))
    by_cases hdup : seen.any (fun k => sameValueZero k (questionLabelRaw q)) = true
    · have hdup2 : acc.any
          (fun q0 => sameValueZero (questionLabelRaw q0) (questionLabelRaw q)) = true := by
        rw [← hinv]; exact hdup
      obtain ⟨us, hrun, hfold⟩ := ih seen acc (fun x hx => hnn x (by simp [hx])) hinv
      refine ⟨us, ?_, ?_⟩
      · simp only [dedupQuestionsAux, hq, hdup, if_true]
        exact hrun
      · simp only [List.foldl_cons, hdup2, if_true]
        exact hfold
    · replace hdup : seen.any (fun k => sameValueZero k (questionLabelRaw q)) = false := by
        cases h0 : seen.any (fun k => sameValueZero k (questionLabelRaw q)) with
        | true => exact absurd h0 hdup
        | false => rfl
      have hdup2 : acc.any
          (fun q0 => sameValueZero (questionLabelRaw q0) (questionLabelRaw q)) = false := by
        rw [← hinv]; exact hdup
      have hinv2 : ∀ key, ((questionLabelRaw q) :: seen).any (fun k => sameValueZero k key) =
          (acc ++ [q]).any (fun q0 => sameValueZero (questionLabelRaw q0) key) := by
        intro key
        simp only [List.any_cons, List.any_append, List.any_cons, List.any_nil, hinv key]
        rw [Bool.or_comm]
        simp
      obtain ⟨us, hrun, hfold⟩ := ih ((questionLabelRaw q) :: seen) (acc ++ [q])
        (fun x hx => hnn x (by simp [hx])) hinv2
      refine ⟨q :: us, ?_, ?_⟩
      · simp only [dedupQuestionsAux, hq, hdup]
        simp only [Bool.false_eq_true, if_false, hrun]
      · simp only [List.foldl_cons, hdup2]
        simp only [Bool.false_eq_true, if_false, hfold, List.append_assoc,
          List.singleton_append]

/-- C5 (amended): when the accumulated questions are nonempty and none of them
is the JSON value `null`, the extractor's output is the accumulated array
deduplicated by the *raw* label value of `q.question_label || ''` (falsy labels
collapse to `''`; a number and a string never collide, since the JS `Set` uses
SameValueZero, not string coercion): the first occurrence wins, later
duplicates are dropped without an error, and survivors keep first-seen order.
(A `null` element instead aborts the dedup pass — property access throws — and
the outer catch returns an empty result.) -/
theorem dedup_by_raw_label (text : List Char)
    (hnn : ∀ q ∈ collectQuestions text 0, isNullJson q = false)
    (hne : 0 < (collectQuestions text 0).length) :
    parseQuestionsFromContent text = dedupFold (collectQuestions text 0) := by
  obtain ⟨us, hrun, hfold⟩ := dedupAux_foldl (collectQuestions text 0) [] [] hnn (by simp)
  show (if 0 < (collectQuestions text 0).length then jsonPathResult (collectQuestions text 0)
    else markdownFallback text) = dedupFold (collectQuestions text 0)
  rw [if_pos hne]
  unfold jsonPathResult dedupFold
  rw [hrun, hfold]
  simp

set_option maxRecDepth 100000 in
/-- Witness for `dedup_by_raw_label`: two blocks both carrying the string label
`"5"`; only the first question survives, in place. -/
theorem dedup_by_raw_label_witness :
    parseQuestionsFromContent
        ("\x7b\"questions\":[\x7b\"question_label\":\"5\",\"text\":\"a\"\x7d]\x7d and \x7b\"questions\":[\x7b\"question_label\":\"5\",\"text\":\"b\"\x7d]\x7d".toList) =
      dedupFold (collectQuestions
        ("\x7b\"questions\":[\x7b\"question_label\":\"5\",\"text\":\"a\"\x7d]\x7d and \x7b\"questions\":[\x7b\"question_label\":\"5\",\"text\":\"b\"\x7d]\x7d".toList) 0) :=
  dedup_by_raw_label _ (by decide) (by decide)

/-- C5 counterexample: the claim says the dedup key is the label *coerced to a
string*, so a numeric label `1` and a string label `"1"` should collide and the
later question should be dropped. In the code the `Set` key is the raw value
(`q.question_label || ''`) under SameValueZero, which distinguishes the number
`1` from the string `"1"`: both questions survive, refuting the claim at this
input (their string-coerced keys are equal, yet the output keeps both). -/
theorem dedup_string_coercion_counterexample :
    jsStringOf (questionLabelRaw
        (Json.obj [("question_label".toList, Json.num 1)])) =
      jsStringOf (questionLabelRaw
        (Json.obj [("question_label".toList, Json.str ['1'])])) ∧
    parseQuestionsFromContent
        ("\x7b\"questions\":[\x7b\"question_label\":1\x7d]\x7d x \x7b\"questions\":[\x7b\"question_label\":\"1\"\x7d]\x7d".toList) =
      [Json.obj [("question_label".toList, Json.num 1)],
       Json.obj [("question_label".toList, Json.str ['1'])]] := by
  constructor
  · rfl
  · rfl

theorem execAll_of_no_match (re : RE) (text : List Char)
    (h : execFrom re text 0 = none) : execAll re text = [] := by
  unfold execAll
  rw [execAllAux, h]

theorem mdPatternQuestions_of_no_match (re : RE) (text : List Char)
    (h : execFrom re text 0 = none) : mdPatternQuestions re text = [] := by
  unfold mdPatternQuestions
  rw [execAll_of_no_match re text h]
  rfl

/-- C7: the extractor returns the markdown fallback's result exactly when the
JSON path accumulated zero questions ("no JSON blocks found", in the code's own
logging), and otherwise the merged, deduplicated JSON-path result; when
additionally none of the three ordered markdown question patterns matches
anywhere in the text, the result is the empty (but valid) `{questions: []}`. -/
theorem markdown_fallback_switch (text : List Char) :
    (collectQuestions text 0 = [] → parseQuestionsFromContent text = markdownFallback text) ∧
    (0 < (collectQuestions text 0).length →
      parseQuestionsFromContent text = jsonPathResult (collectQuestions text 0)) ∧
    (collectQuestions text 0 = [] →
      execFrom mdPat1 text 0 = none → execFrom mdPat2 text 0 = none →
      execFrom mdPat3 text 0 = none →
      parseQuestionsFromContent text = []) := by
  refine ⟨?_, ?_, ?_⟩
  · intro h
    show (if 0 < (collectQuestions text 0).length then
      jsonPathResult (collectQuestions text 0) else markdownFallback text) = _
    rw [h]
    rfl
  · intro h
    show (if 0 < (collectQuestions text 0).length then
      jsonPathResult (collectQuestions text 0) else markdownFallback text) = _
    rw [if_pos h]
  · intro h h1 h2 h3
    show (if 0 < (collectQuestions text 0).length then
      jsonPathResult (collectQuestions text 0) else markdownFallback text) = []
    rw [h]
    show markdownFallback text = []
    unfold markdownFallback mdLoop
    rw [mdPatternQuestions_of_no_match mdPat1 text h1]
    simp only [List.nil_append, List.length_nil, gt_iff_lt, lt_irrefl, if_false]
    unfold mdLoop
    rw [mdPatternQuestions_of_no_match mdPat2 text h2]
    simp only [List.nil_append, List.length_nil, lt_irrefl, if_false]
    unfold mdLoop
    rw [mdPatternQuestions_of_no_match mdPat3 text h3]
    simp only [List.nil_append, List.length_nil, lt_irrefl, if_false]
    rfl

/-- Witness for `markdown_fallback_switch`: on `plain prose.` there is no JSON
block and no markdown question pattern matches, so the result is empty; on the
spec's end-to-end example the JSON path is taken. -/
theorem markdown_fallback_switch_witness :
    parseQuestionsFromContent ("plain prose.".toList) = [] ∧
    parseQuestionsFromContent
        ("Noise \x7b\"questions\": [\x7b\"question_label\":\"1\",\"text\":\"2+2=?\",\"choices\":[]\x7d]\x7d trailing".toList) =
      jsonPathResult (collectQuestions
        ("Noise \x7b\"questions\": [\x7b\"question_label\":\"1\",\"text\":\"2+2=?\",\"choices\":[]\x7d]\x7d trailing".toList) 0) := by
  constructor
  · exact (markdown_fallback_switch ("plain prose.".toList)).2.2 (by rfl) (by rfl) (by rfl)
      (by rfl)
  · exact (markdown_fallback_switch _).2.1 (by decide)

/-! ## Reverse sync engine (base.reverse-syncer.js, lesson.reverse-syncer.js,
reverse-sync/helpers.js)

The MongoDB target store is modelled as explicit state: a list of documents.
The generic `sync()` loop is `runSyncLoopAux`, parameterised (following the
source's virtual dispatch) by the per-entity `transformItem` and `batchUpsert`;
an item transform that throws is an `Except.error`, a falsy transform result is
`Option.none`. Wall-clock stats fields (`startTime`/`endTime`/`duration`) are
omitted; `matchedW` models the lesson syncer's extra `stats.matched`
accumulator. The `exercise` collection carries the unique index on
`(order, chapter, type)` documented in `LessonReverseSyncer.batchUpsert`
("Override batchUpsert to handle unique index on (order, chapter, type)"):
an insert or index-key update that would duplicate an existing key fails, and
with `ordered: false` the remaining operations still run, after which
`bulkWrite` throws and the whole batch is counted under `errors`. -/

/-- Counters of one sync run (`createStats`, timestamps omitted). -/
structure SyncStats where
  total : Nat
  inserted : Nat
  updated : Nat
  skipped : Nat
  errors : Nat
  matchedW : Nat
  deriving DecidableEq, Repr

/-- Fresh stats. -/
def createStats : SyncStats :=
  { total := 0, inserted := 0, updated := 0, skipped := 0, errors := 0, matchedW := 0 }

/-- `BATCH_SIZE` from reverse-sync/helpers.js. -/
def BATCH_SIZE : Nat := 100

/-- JS falsiness of a nullable string field (`!item.ref_id`). -/
def strFalsy : Option String → Bool
  | none => true
  | some s => s = ""

/-- The transform-and-batch loop of `BaseReverseSyncer.sync` over the fetched
rows: skip rows with a falsy `ref_id` (counted `skipped`), catch a throwing
transform (counted `errors`), count a falsy transform result as `skipped`,
flush the batch through `upsert` whenever it reaches `BATCH_SIZE`, and flush
the remaining partial batch at the end. -/
def runSyncLoopAux {Row Doc S : Type} (refId : Row → Option String)
    (transform : Row → Except Unit (Option Doc))
    (upsert : List Doc → S → SyncStats → S × SyncStats) :
    List Row → List Doc → S → SyncStats → S × SyncStats
  | [], batch, s, stats =>
    if batch.length > 0 then upsert batch s stats else (s, stats)
  | item :: rest, batch, s, stats =>
    if strFalsy (refId item) then
      runSyncLoopAux refId transform upsert rest batch s
        { stats with skipped := stats.skipped + 1 }
    else
      match transform item with
      | .error _ =>
        runSyncLoopAux refId transform upsert rest batch s
          { stats with errors := stats.errors + 1 }
      | .ok none =>
        runSyncLoopAux refId transform upsert rest batch s
          { stats with skipped := stats.skipped + 1 }
      | .ok (some d) =>
        let batch2 := batch ++ [d]
        if batch2.length ≥ BATCH_SIZE then
          let r := upsert batch2 s stats
          runSyncLoopAux refId transform upsert rest [] r.1 r.2
        else
          runSyncLoopAux refId transform upsert rest batch2 s stats

/-- One `sync()` run over a fetched row set (`stats.total` set up front; the
`total === 0` early return coincides with running the loop on `[]`). -/
def runSync {Row Doc S : Type} (refId : Row → Option String)
    (transform : Row → Except Unit (Option Doc))
    (upsert : List Doc → S → SyncStats → S × SyncStats)
    (rows : List Row) (s : S) : S × SyncStats :=
  runSyncLoopAux refId transform upsert rows [] s { createStats with total := rows.length }

/-- The document a row contributes to a batch, if any. -/
def rowDoc {Row Doc : Type} (refId : Row → Option String)
    (transform : Row → Except Unit (Option Doc)) (r : Row) : Option Doc :=
  if strFalsy (refId r) then none
  else
    match transform r with
    | .ok (some d) => some d
    | _ => none

/-- Is a row skipped (falsy `ref_id`, or falsy transform result)? -/
def rowSkipped {Row Doc : Type} (refId : Row → Option String)
    (transform : Row → Except Unit (Option Doc)) (r : Row) : Bool :=
  if strFalsy (refId r) then true
  else
    match transform r with
    | .ok none => true
    | _ => false

/-- Does a row's transform throw? -/
def rowErrored {Row Doc : Type} (refId : Row → Option String)
    (transform : Row → Except Unit (Option Doc)) (r : Row) : Bool :=
  if strFalsy (refId r) then false
  else
    match transform r with
    | .error _ => true
    | _ => false

/-- Instrumentation "store": the list of batches handed to `batchUpsert`, in
order. -/
def logUpsert {Doc : Type} (batch : List Doc) (s : List (List Doc))
    (stats : SyncStats) : List (List Doc) × SyncStats :=
  (s ++ [batch], stats)

/-- Replace the first element satisfying `p` (Mongo `updateOne` touches one
matching document). -/
def replaceFirst {α : Type} (p : α → Bool) (d : α) : List α → List α
  | [] => []
  | x :: xs => if p x then d :: xs else x :: replaceFirst p d xs

/-- Result of one base upsert operation / one base batch fold. -/
structure BaseOut (Doc : Type) where
  store : List Doc
  upserted : Nat
  modified : Nat
  deriving DecidableEq, Repr

/-- `BaseReverseSyncer.batchUpsert`'s one `updateOne ... upsert: true`
operation: update-if-exists (counted in `modifiedCount` only when the document
actually changes), insert-if-absent (counted in `upsertedCount`). -/
def baseUpsertOne {Doc : Type} [DecidableEq Doc] (docId : Doc → String) (d : Doc)
    (store : List Doc) : BaseOut Doc :=
  match store.find? (fun x => decide (docId x = docId d)) with
  | some x =>
    { store := replaceFirst (fun y => decide (docId y = docId d)) d store,
      upserted := 0, modified := if x = d then 0 else 1 }
  | none => { store := store ++ [d], upserted := 1, modified := 0 }

/-- `BaseReverseSyncer.batchUpsert`: bulk upsert keyed by `_id`;
`inserted += upsertedCount`, `updated += modifiedCount`. -/
def baseBatchUpsert {Doc : Type} [DecidableEq Doc] (docId : Doc → String)
    (documents : List Doc) (store : List Doc) (stats : SyncStats) :
    List Doc × SyncStats :=
  if documents.length = 0 then (store, stats)
  else
    let r := documents.foldl (fun acc d =>
      let u := baseUpsertOne docId d acc.store
      { store := u.store, upserted := acc.upserted + u.upserted,
        modified := acc.modified + u.modified })
      ({ store := store, upserted := 0, modified := 0 } : BaseOut Doc)
    (r.store, { stats with
                inserted := stats.inserted + r.upserted,
                updated := stats.updated + r.modified })

/-! ### The lesson → exercise syncer -/

/-- A Mongo DBRef (`toDBRef`): collection name plus object id. -/
structure DBRef where
  collection : String
  oid : String
  deriving DecidableEq, Repr

/-- An `exercise` document as built by `LessonReverseSyncer.transformItem`. -/
structure ExDoc where
  _id : String
  name : String
  index : String
  order : Int
  common_parent_section_name : String
  parent_section_name : String
  toc_output_json : String
  toc_status : String
  type : String
  book : Option DBRef
  chapter : Option DBRef
  deriving DecidableEq, Repr

/-- A stored `exercise` document: the `$set` fields plus the timestamps
maintained by the lesson syncer's upsert (`$setOnInsert: created_at`,
`$set: updated_at`). -/
structure ExStored where
  fields : ExDoc
  created_at : Nat
  updated_at : Nat
  deriving DecidableEq, Repr

/-- The secondary unique key of the `exercise` collection. -/
def exTuple (d : ExDoc) : Int × Option DBRef × String := (d.order, d.chapter, d.type)

/-- `toObjectId`: requires a 24-character string, else throws. -/
def toObjectIdE (id : Option String) : Except Unit String :=
  match id with
  | some s => if s.length = 24 then .ok s else .error ()
  | none => .error ()

/-- `toDBRef`: `null` for a falsy id, else an ObjectId-backed DBRef. -/
def toDBRefE (collection : String) (id : String) : Except Unit (Option DBRef) :=
  if id = "" then .ok none
  else (toObjectIdE (some id)).map (fun oid => some ⟨collection, oid⟩)

/-- A `lessons` source row (the columns `transformItem` reads). -/
structure LessonRow where
  id : Nat
  ref_id : Option String
  name : String
  question_range : String
  display_order : Int
  common_parent_section_name : String
  parent_section_name : String
  toc_output_json : String
  book_id : Nat
  chapter_id : Nat
  deriving DecidableEq, Repr

/-- The reference maps loaded by `LessonReverseSyncer.preSyncHook`. -/
structure LessonCtx where
  bookRefIds : Nat → Option String
  chapterRefIds : Nat → Option String

/-- Build an id → ref_id map, keeping only truthy ref_ids (later rows
overwrite earlier ones, as JS object assignment does). -/
def buildRefMap (rows : List (Nat × Option String)) : Nat → Option String :=
  rows.foldl (fun m p =>
    match p.2 with
    | some r => if r = "" then m else fun k => if k = p.1 then some r else m k
    | none => m) (fun _ => none)

/-- `LessonReverseSyncer.preSyncHook`. -/
def lessonPreSync (books chapters : List (Nat × Option String)) : LessonCtx :=
  { bookRefIds := buildRefMap books, chapterRefIds := buildRefMap chapters }

/-- `LessonReverseSyncer.transformItem`. -/
def lessonTransform (item : LessonRow) (context : LessonCtx) :
    Except Unit (Option ExDoc) := do
  let oid ← toObjectIdE item.ref_id
  let book ← match context.bookRefIds item.book_id with
    | some b => toDBRefE "book" b
    | none => pure none
  let chapter ← match context.chapterRefIds item.chapter_id with
    | some c => toDBRefE "chapter" c
    | none => pure none
  pure (some
    { _id := oid, name := item.name, index := item.question_range,
      order := item.display_order,
      common_parent_section_name := item.common_parent_section_name,
      parent_section_name := item.parent_section_name,
      toc_output_json := item.toc_output_json,
      toc_status := "COMPLETED", type := "EXAMPLE",
      book := book, chapter := chapter })

/-- The delete phase of `LessonReverseSyncer.batchUpsert`: for each batch
document, `deleteMany` every stored document with the same `(order, chapter,
type)` key but a different `_id`. -/
def lessonDeleteConflicts (docs : List ExDoc) (store : List ExStored) :
    List ExStored :=
  docs.foldl (fun st d =>
    st.filter (fun y =>
      !(decide (y.fields._id ≠ d._id) && decide (exTuple y.fields = exTuple d)))) store

/-- Result of one lesson upsert operation / one batch fold. -/
structure UpsertOut where
  store : List ExStored
  upserted : Nat
  modified : Nat
  matchedN : Nat
  errored : Bool
  deriving DecidableEq, Repr

/-- One `updateOne ... upsert: true` of the lesson syncer against the
`exercise` collection: `$set` all fields plus `updated_at := now`,
`$setOnInsert: created_at := now`; an operation whose new `(order, chapter,
type)` key would duplicate another document's key fails (unique index),
leaving the store unchanged and flagging the bulk error. -/
def lessonUpsertOne (now : Nat) (d : ExDoc) (store : List ExStored) : UpsertOut :=
  match store.find? (fun x => decide (x.fields._id = d._id)) with
  | some x =>
    if (!decide (exTuple x.fields = exTuple d)) &&
        store.any (fun y =>
          decide (y.fields._id ≠ d._id) && decide (exTuple y.fields = exTuple d)) then
      { store := store, upserted := 0, modified := 0, matchedN := 0, errored := true }
    else
      { store := replaceFirst (fun y => decide (y.fields._id = d._id))
          { fields := d, created_at := x.created_at, updated_at := now } store,
        upserted := 0,
        modified := if x.fields = d ∧ x.updated_at = now then 0 else 1,
        matchedN := 1, errored := false }
  | none =>
    if store.any (fun y => decide (exTuple y.fields = exTuple d)) then
      { store := store, upserted := 0, modified := 0, matchedN := 0, errored := true }
    else
      { store := store ++ [{ fields := d, created_at := now, updated_at := now }],
        upserted := 1, modified := 0, matchedN := 0, errored := false }

/-- `LessonReverseSyncer.batchUpsert`: best-effort conflict deletes, then the
bulk upsert (`ordered: false` — every operation runs); if any operation
failed, `bulkWrite` throws and the whole batch is counted under `errors`
(successful operations' store effects persist), otherwise the counters are
credited. -/
def lessonBatchUpsert (now : Nat) (documents : List ExDoc)
    (store : List ExStored) (stats : SyncStats) : List ExStored × SyncStats :=
  if documents.length = 0 then (store, stats)
  else
    let store1 := lessonDeleteConflicts documents store
    let r := documents.foldl (fun (acc : UpsertOut) d =>
      let u := lessonUpsertOne now d acc.store
      { store := u.store, upserted := acc.upserted + u.upserted,
        modified := acc.modified + u.modified,
        matchedN := acc.matchedN + u.matchedN,
        errored := acc.errored || u.errored })
      { store := store1, upserted := 0, modified := 0, matchedN := 0, errored := false }
    if r.errored then
      (r.store, { stats with errors := stats.errors + documents.length })
    else
      (r.store, { stats with
                  inserted := stats.inserted + r.upserted,
                  updated := stats.updated + r.modified,
                  matchedW := stats.matchedW + r.matchedN })

/-- A full lesson sync run: `preSyncHook` then the batched transform/upsert
loop, against an explicit store, at batch timestamp `now`. -/
def lessonSync (books chapters : List (Nat × Option String)) (rows : List LessonRow)
    (store : List ExStored) (now : Nat) : List ExStored × SyncStats :=
  let context := lessonPreSync books chapters
  runSync (fun r => r.ref_id) (fun r => lessonTransform r context)
    (lessonBatchUpsert now) rows store

/-- The documents a lesson sync run writes. -/
def lessonDocs (books chapters : List (Nat × Option String))
    (rows : List LessonRow) : List ExDoc :=
  rows.filterMap (rowDoc (fun r => r.ref_id)
    (fun r => lessonTransform r (lessonPreSync books chapters)))

/-- The store invariant maintained by the `exercise` collection: unique `_id`s
and the unique `(order, chapter, type)` index. -/
def storeOk (store : List ExStored) : Prop :=
  (store.map (fun y => y.fields._id)).Nodup ∧
  store.Pairwise (fun y z => exTuple y.fields ≠ exTuple z.fields)

/-- A `lesson_items` source row (the columns
`LessonItemReverseSyncer.transformItem` reads). -/
structure LessonItemRow where
  ref_id : Option String
  lesson_id : Nat
  problem_statement : String
  index : String
  question_label : String
  question_type : String
  question_solution_item_json : String
  deriving DecidableEq, Repr

/-- An `exercise_item` document as built by
`LessonItemReverseSyncer.transformItem`. -/
structure ExItemDoc where
  _id : String
  exercise : Option DBRef
  question : String
  index : String
  display_order : String
  question_label : String
  question_type : String
  question_solution_item_json : String
  deriving DecidableEq, Repr

/-- `LessonItemReverseSyncer.transformItem`: return `null` (skip) when the
lesson reference is missing — its `preSyncHook` keeps only truthy lesson
ref_ids — else build the document (`toObjectId` throws on a non-24-character
ref_id). -/
def lessonItemTransform (item : LessonItemRow)
    (lessonRefIds : Nat → Option String) : Except Unit (Option ExItemDoc) :=
  match lessonRefIds item.lesson_id with
  | none => .ok none
  | some l => do
    let oid ← toObjectIdE item.ref_id
    let ex ← toDBRefE "exercise" l
    pure (some
      { _id := oid, exercise := ex, question := item.problem_statement,
        index := item.index, display_order := item.question_label,
        question_label := item.question_label,
        question_type := item.question_type,
        question_solution_item_json := item.question_solution_item_json })

/-- No other stored document occupies `d`'s secondary `(order, chapter, type)`
tuple (what the delete-conflicts phase establishes for `d`). -/
def noTupleClash (d : ExDoc) (store : List ExStored) : Prop :=
  ∀ y ∈ store, y.fields._id ≠ d._id → exTuple y.fields ≠ exTuple d

/-- Document `d` was last written at time `now`: it is stored with
`updated_at = now` (some creation time), and nothing else occupies its
secondary tuple. -/
def syncedAt (now : Nat) (d : ExDoc) (store : List ExStored) : Prop :=
  (∃ c, ExStored.mk d c now ∈ store) ∧ noTupleClash d store

/-- A stored document without its `updated_at` timestamp. -/
def stripEx (y : ExStored) : ExDoc × Nat := (y.fields, y.created_at)

/-! ### C8: row partition of a sync run -/

theorem runSyncLoopAux_log_spec {Row Doc : Type} (refId : Row → Option String)
    (transform : Row → Except Unit (Option Doc)) :
    ∀ (rows : List Row) (batch : List Doc) (log : List (List Doc)) (stats : SyncStats),
      ((runSyncLoopAux refId transform logUpsert rows batch log stats).1).flatten =
        log.flatten ++ batch ++ rows.filterMap (rowDoc refId transform) ∧
      (runSyncLoopAux refId transform logUpsert rows batch log stats).2 =
        { stats with
          skipped := stats.skipped + (rows.filter (rowSkipped refId transform)).length,
          errors := stats.errors + (rows.filter (rowErrored refId transform)).length } := by
  intro rows
  induction rows with
  | nil =>
    intro batch log stats
    constructor
    · by_cases hb : batch.length > 0
      · simp [runSyncLoopAux, hb, logUpsert]
      · have hbe : batch = [] := by
          cases batch with
          | nil => rfl
          | cons x xs => simp at hb
        subst hbe
        simp [runSyncLoopAux]
    · by_cases hb : batch.length > 0
      · simp [runSyncLoopAux, hb, logUpsert]
      · simp [runSyncLoopAux, hb]
  | cons item rest ih =>
    intro batch log stats
    obtain ⟨t, i, u, sk, er, m⟩ := stats
    by_cases hf : strFalsy (refId item) = true
    · have h1 := ih batch log ⟨t, i, u, sk + 1, er, m⟩
      constructor
      · simp only [runSyncLoopAux, hf, if_true]
        rw [h1.1]
        simp [rowDoc, hf]
      · simp only [runSyncLoopAux, hf, if_true]
        rw [h1.2]
        simp [List.filter_cons, rowSkipped, rowErrored, hf, SyncStats.mk.injEq] <;> omega
    · replace hf : strFalsy (refId item) = false := by
        cases h0 : strFalsy (refId item) with
        | true => exact absurd h0 hf
        | false => rfl
      cases htr : transform item with
      | error e =>
        have h1 := ih batch log ⟨t, i, u, sk, er + 1, m⟩
        constructor
        · simp only [runSyncLoopAux, hf, Bool.false_eq_true, if_false, htr]
          rw [h1.1]
          simp [rowDoc, hf, htr]
        · simp only [runSyncLoopAux, hf, Bool.false_eq_true, if_false, htr]
          rw [h1.2]
          simp [List.filter_cons, rowSkipped, rowErrored, hf, htr,
            SyncStats.mk.injEq] <;> omega
      | ok od =>
        cases od with
        | none =>
          have h1 := ih batch log ⟨t, i, u, sk + 1, er, m⟩
          constructor
          · simp only [runSyncLoopAux, hf, Bool.false_eq_true, if_false, htr]
            rw [h1.1]
            simp [rowDoc, hf, htr]
          · simp only [runSyncLoopAux, hf, Bool.false_eq_true, if_false, htr]
            rw [h1.2]
            simp [List.filter_cons, rowSkipped, rowErrored, hf, htr,
              SyncStats.mk.injEq] <;> omega
        | some d =>
          by_cases hflush : (batch ++ [d]).length ≥ BATCH_SIZE
          · have h1 := ih [] (log ++ [batch ++ [d]]) ⟨t, i, u, sk, er, m⟩
            constructor
            · simp only [runSyncLoopAux, hf, Bool.false_eq_true, if_false, htr, hflush,
                if_true, logUpsert]
              rw [h1.1]
              simp [rowDoc, hf, htr]
            · simp only [runSyncLoopAux, hf, Bool.false_eq_true, if_false, htr, hflush,
                if_true, logUpsert]
              rw [h1.2]
              simp [List.filter_cons, rowSkipped, rowErrored, hf, htr,
                SyncStats.mk.injEq] <;> omega
          · have h1 := ih (batch ++ [d]) log ⟨t, i, u, sk, er, m⟩
            constructor
            · simp only [runSyncLoopAux, hf, Bool.false_eq_true, if_false, htr, hflush]
              rw [h1.1]
              simp [rowDoc, hf, htr]
            · simp only [runSyncLoopAux, hf, Bool.false_eq_true, if_false, htr, hflush]
              rw [h1.2]
              simp [List.filter_cons, rowSkipped, rowErrored, hf, htr,
                SyncStats.mk.injEq] <;> omega

/-- C8: during a `sync()` run (instrumented to record the batches sent to the
target store), a row with a falsy `ref_id` or a falsy transform result is never
included in any batch and increments `skipped` (never `errors`); a row whose
transform throws increments `errors` only; and the concatenation of all upsert
batches is exactly the successfully transformed documents, one per row, in
fetch order. -/
theorem sync_rows_partition {Row Doc : Type} (refId : Row → Option String)
    (transform : Row → Except Unit (Option Doc)) (rows : List Row) :
    ((runSync refId transform logUpsert rows []).1).flatten =
      rows.filterMap (rowDoc refId transform) ∧
    (runSync refId transform logUpsert rows []).2.skipped =
      (rows.filter (rowSkipped refId transform)).length ∧
    (runSync refId transform logUpsert rows []).2.errors =
      (rows.filter (rowErrored refId transform)).length ∧
    (runSync refId transform logUpsert rows []).2.total = rows.length ∧
    (runSync refId transform logUpsert rows []).2.inserted = 0 ∧
    (runSync refId transform logUpsert rows []).2.updated = 0 ∧
    (∀ (lessonRefIds : Nat → Option String) (r : LessonItemRow),
      lessonRefIds r.lesson_id = none →
        rowSkipped (fun r => r.ref_id)
          (fun r => lessonItemTransform r lessonRefIds) r = true ∧
        rowErrored (fun r => r.ref_id)
          (fun r => lessonItemTransform r lessonRefIds) r = false ∧
        rowDoc (fun r => r.ref_id)
          (fun r => lessonItemTransform r lessonRefIds) r = none) := by
  have h := runSyncLoopAux_log_spec refId transform rows [] []
    { createStats with total := rows.length }
  have hL : ∀ (lessonRefIds : Nat → Option String) (r : LessonItemRow),
      lessonRefIds r.lesson_id = none →
        rowSkipped (fun r => r.ref_id)
          (fun r => lessonItemTransform r lessonRefIds) r = true ∧
        rowErrored (fun r => r.ref_id)
          (fun r => lessonItemTransform r lessonRefIds) r = false ∧
        rowDoc (fun r => r.ref_id)
          (fun r => lessonItemTransform r lessonRefIds) r = none := by
    intro lessonRefIds r hmiss
    refine ⟨?_, ?_, ?_⟩
    · unfold rowSkipped
      split
      · rfl
      · simp [lessonItemTransform, hmiss]
    · unfold rowErrored
      split
      · rfl
      · simp [lessonItemTransform, hmiss]
    · unfold rowDoc
      split
      · rfl
      · simp [lessonItemTransform, hmiss]
  refine ⟨by simpa using h.1, ?_, ?_, ?_, ?_, ?_, hL⟩
  all_goals
    rw [show (runSync refId transform logUpsert rows []).2 =
      (runSyncLoopAux refId transform logUpsert rows [] []
        { createStats with total := rows.length }).2 from rfl, h.2] <;>
    simp [createStats]

/-- Closed instance of the C8 partition theorem: a concrete two-row
lesson-item run in which the second row's lesson has no ref mapping — that row
is skipped, not errored, and contributes no document. -/
theorem sync_rows_partition_witness :
    rowSkipped (fun r : LessonItemRow => r.ref_id)
      (fun r => lessonItemTransform r (buildRefMap [(1, some "x")]))
      { ref_id := some "aaaaaaaaaaaaaaaaaaaaaaa1", lesson_id := 2,
        problem_statement := "p", index := "i", question_label := "1",
        question_type := "t", question_solution_item_json := "\x7b\x7d" } = true ∧
    rowErrored (fun r : LessonItemRow => r.ref_id)
      (fun r => lessonItemTransform r (buildRefMap [(1, some "x")]))
      { ref_id := some "aaaaaaaaaaaaaaaaaaaaaaa1", lesson_id := 2,
        problem_statement := "p", index := "i", question_label := "1",
        question_type := "t", question_solution_item_json := "\x7b\x7d" } = false ∧
    rowDoc (fun r : LessonItemRow => r.ref_id)
      (fun r => lessonItemTransform r (buildRefMap [(1, some "x")]))
      { ref_id := some "aaaaaaaaaaaaaaaaaaaaaaa1", lesson_id := 2,
        problem_statement := "p", index := "i", question_label := "1",
        question_type := "t", question_solution_item_json := "\x7b\x7d" } = none :=
  (sync_rows_partition (fun r : LessonItemRow => r.ref_id)
      (fun r => lessonItemTransform r (buildRefMap [(1, some "x")]))
      []).2.2.2.2.2.2 (buildRefMap [(1, some "x")])
    { ref_id := some "aaaaaaaaaaaaaaaaaaaaaaa1", lesson_id := 2,
      problem_statement := "p", index := "i", question_label := "1",
      question_type := "t", question_solution_item_json := "\x7b\x7d" } (by rfl)

/-! ### C1: preservation of the unique `(order, chapter, type)` index -/

theorem replaceFirst_split {α : Type} (p : α → Bool) (d : α) :
    ∀ (s : List α) (x : α), s.find? p = some x →
      ∃ s₁ s₂, s = s₁ ++ x :: s₂ ∧ (∀ z ∈ s₁, p z = false) ∧
        replaceFirst p d s = s₁ ++ d :: s₂ := by
  intro s
  induction s with
  | nil => intro x h; simp [List.find?] at h
  | cons y ys ih =>
    intro x h
    by_cases hp : p y = true
    · rw [List.find?_cons_of_pos _ hp] at h
      cases h
      exact ⟨[], ys, rfl, by intro z hz; simp at hz, by simp [replaceFirst, hp]⟩
    · replace hp : p y = false := by
        cases h0 : p y with
        | true => exact absurd h0 hp
        | false => rfl
      rw [List.find?_cons_of_neg _ (by simp [hp])] at h
      obtain ⟨s₁, s₂, hs, hs₁, hrw⟩ := ih x h
      refine ⟨y :: s₁, s₂, by rw [hs]; rfl, ?_, ?_⟩
      · intro z hz
        rcases List.mem_cons.mp hz with hz | hz
        · rw [hz]; exact hp
        · exact hs₁ z hz
      · simp [replaceFirst, hp, hrw]

theorem replaceFirst_map_eq {α β : Type} (p : α → Bool) (d : α) (f : α → β) :
    ∀ s : List α, (∀ z ∈ s, p z = true → f z = f d) →
      (replaceFirst p d s).map f = s.map f := by
  intro s
  induction s with
  | nil => intro _; rfl
  | cons y ys ih =>
    intro h
    by_cases hp : p y = true
    · simp [replaceFirst, hp, h y (by simp) hp]
    · replace hp : p y = false := by
        cases h0 : p y with
        | true => exact absurd h0 hp
        | false => rfl
      simp only [replaceFirst, hp, Bool.false_eq_true, if_false, List.map_cons]
      rw [ih (fun z hz => h z (by simp [hz]))]

theorem replaceFirst_eq_self {α : Type} (p : α → Bool) (d : α) :
    ∀ s : List α, (∀ z ∈ s, p z = true → z = d) → replaceFirst p d s = s := by
  intro s
  induction s with
  | nil => intro _; rfl
  | cons y ys ih =>
    intro h
    by_cases hp : p y = true
    · simp [replaceFirst, hp, (h y (by simp) hp).symm]
    · replace hp : p y = false := by
        cases h0 : p y with
        | true => exact absurd h0 hp
        | false => rfl
      simp only [replaceFirst, hp, Bool.false_eq_true, if_false]
      rw [ih (fun z hz => h z (by simp [hz]))]

theorem mem_replaceFirst_of_mem {α : Type} (p : α → Bool) (d z : α) :
    ∀ s : List α, z ∈ s → p z = false → z ∈ replaceFirst p d s := by
  intro s
  induction s with
  | nil => intro h; simp at h
  | cons y ys ih =>
    intro hz hpz
    by_cases hp : p y = true
    · rcases List.mem_cons.mp hz with hz | hz
      · rw [hz] at hpz; rw [hpz] at hp; cases hp
      · simp [replaceFirst, hp, hz]
    · replace hp : p y = false := by
        cases h0 : p y with
        | true => exact absurd h0 hp
        | false => rfl
      rcases List.mem_cons.mp hz with hz | hz
      · simp [replaceFirst, hp, hz]
      · simp only [replaceFirst, hp, Bool.false_eq_true, if_false]
        exact List.mem_cons.mpr (Or.inr (ih hz hpz))

theorem find?_eq_of_mem_nodup {α β : Type} [DecidableEq β] (f : α → β) :
    ∀ (s : List α) (y : α), (s.map f).Nodup → y ∈ s →
      s.find? (fun z => decide (f z = f y)) = some y := by
  intro s
  induction s with
  | nil => intro y _ h; simp at h
  | cons x xs ih =>
    intro y hnd hy
    rw [List.map_cons, List.nodup_cons] at hnd
    rcases List.mem_cons.mp hy with hy | hy
    · rw [hy]
      exact List.find?_cons_of_pos _ (by simp)
    · have hne : f x ≠ f y := by
        intro hEq
        exact hnd.1 (hEq ▸ List.mem_map.mpr ⟨y, hy, rfl⟩)
      rw [List.find?_cons_of_neg _ (by simp [hne])]
      exact ih y hnd.2 hy

theorem storeOk_filter (q : ExStored → Bool) (s : List ExStored) (h : storeOk s) :
    storeOk (s.filter q) := by
  exact ⟨h.1.sublist ((List.filter_sublist s).map (fun y => y.fields._id)),
    h.2.sublist (List.filter_sublist s)⟩

theorem storeOk_deleteConflicts (docs : List ExDoc) :
    ∀ s : List ExStored, storeOk s → storeOk (lessonDeleteConflicts docs s) := by
  induction docs with
  | nil => intro s h; exact h
  | cons d ds ih =>
    intro s h
    have hstep : lessonDeleteConflicts (d :: ds) s =
        lessonDeleteConflicts ds (s.filter (fun y =>
          !(decide (y.fields._id ≠ d._id) && decide (exTuple y.fields = exTuple d)))) := by
      simp [lessonDeleteConflicts]
    rw [hstep]
    exact ih _ (storeOk_filter _ _ h)

theorem lessonUpsertOne_storeOk (now : Nat) (d : ExDoc) (s : List ExStored)
    (h : storeOk s) : storeOk (lessonUpsertOne now d s).store := by
  obtain ⟨h1, h2⟩ := h
  cases hfind : s.find? (fun x => decide (x.fields._id = d._id)) with
  | none =>
    have hno : ∀ x ∈ s, ¬ x.fields._id = d._id := by
      intro x hx
      have := List.find?_eq_none.mp hfind x hx
      simpa using this
    by_cases hany : s.any (fun y => decide (exTuple y.fields = exTuple d)) = true
    · simp only [lessonUpsertOne, hfind, hany, if_true]
      exact ⟨h1, h2⟩
    · have hnoT : ∀ y ∈ s, exTuple y.fields ≠ exTuple d := by
        intro y hy hEq
        exact hany (List.any_eq_true.mpr ⟨y, hy, by simp [hEq]⟩)
      simp only [lessonUpsertOne, hfind, hany, Bool.false_eq_true, if_false]
      constructor
      · rw [List.map_append, List.nodup_append]
        refine ⟨h1, by simp, ?_⟩
        intro a ha hb
        simp only [List.mem_map] at ha
        obtain ⟨z, hz, hza⟩ := ha
        simp only [List.map_cons, List.map_nil, List.mem_cons, List.not_mem_nil,
          or_false] at hb
        exact hno z hz (hza.trans hb)
      · rw [List.pairwise_append]
        refine ⟨h2, List.pairwise_singleton _ _, ?_⟩
        intro a ha b hb
        simp only [List.mem_cons, List.not_mem_nil, or_false] at hb
        rw [hb]
        exact fun hEq => hnoT a ha hEq
  | some x =>
    have hxp := List.find?_some hfind
    have hxid : x.fields._id = d._id := of_decide_eq_true hxp
    by_cases herr : ((!decide (exTuple x.fields = exTuple d)) &&
        s.any (fun y =>
          decide (y.fields._id ≠ d._id) && decide (exTuple y.fields = exTuple d))) = true
    · simp only [lessonUpsertOne, hfind, herr, if_true]
      exact ⟨h1, h2⟩
    · simp only [lessonUpsertOne, hfind, herr, Bool.false_eq_true, if_false]
      obtain ⟨s₁, s₂, hs, hs₁, hrw⟩ :=
        replaceFirst_split (fun y => decide (y.fields._id = d._id))
          { fields := d, created_at := x.created_at, updated_at := now } s x hfind
      rw [hrw]
      subst hs
      rw [List.map_append, List.map_cons, List.nodup_append, List.nodup_cons] at h1
      obtain ⟨h1a, ⟨hxnot, h1b⟩, h1c⟩ := h1
      rw [List.pairwise_append, List.pairwise_cons] at h2
      obtain ⟨h2a, ⟨hx2, h2b⟩, h2c⟩ := h2
      have hids₁ : ∀ a ∈ s₁, a.fields._id ≠ x.fields._id := by
        intro a ha hEq
        exact h1c (List.mem_map.mpr ⟨a, ha, rfl⟩) (List.mem_cons.mpr (Or.inl hEq))
      have hids₂ : ∀ b ∈ s₂, b.fields._id ≠ x.fields._id := by
        intro b hb hEq
        exact hxnot (List.mem_map.mpr ⟨b, hb, hEq⟩)
      have hcase : ∀ z, z ∈ s₁ ∨ z ∈ s₂ → exTuple z.fields ≠ exTuple d := by
        by_cases ht : exTuple x.fields = exTuple d
        · intro z hz hzEq
          rcases hz with hz | hz
          · exact h2c z hz x (List.mem_cons.mpr (Or.inl rfl)) (hzEq.trans ht.symm)
          · exact hx2 z hz (ht.trans hzEq.symm)
        · intro z hz hzEq
          have hzid : z.fields._id ≠ d._id := by
            rcases hz with hz | hz
            · exact fun hEq => hids₁ z hz (hEq.trans hxid.symm)
            · exact fun hEq => hids₂ z hz (hEq.trans hxid.symm)
          apply herr
          rw [Bool.and_eq_true]
          refine ⟨by simp [ht], List.any_eq_true.mpr ⟨z, ?_, by simp [hzid, hzEq]⟩⟩
          rcases hz with hz | hz
          · exact List.mem_append.mpr (Or.inl hz)
          · exact List.mem_append.mpr (Or.inr (List.mem_cons.mpr (Or.inr hz)))
      constructor
      · simp only [List.map_append, List.map_cons, List.nodup_append, List.nodup_cons]
        refine ⟨h1a, ⟨by simpa [hxid] using hxnot, h1b⟩, ?_⟩
        intro a ha hb
        apply h1c ha
        rcases List.mem_cons.mp hb with hb | hb
        · exact List.mem_cons.mpr (Or.inl (hb.trans hxid.symm))
        · exact List.mem_cons.mpr (Or.inr hb)
      · rw [List.pairwise_append, List.pairwise_cons]
        refine ⟨h2a, ⟨?_, h2b⟩, ?_⟩
        · intro b hb
          exact fun hEq => hcase b (Or.inr hb) hEq.symm
        · intro a ha b hb
          rcases List.mem_cons.mp hb with hb | hb
          · rw [hb]
            exact hcase a (Or.inl ha)
          · exact h2c a ha b (List.mem_cons.mpr (Or.inr hb))

theorem lessonBatchUpsert_fold_storeOk (now : Nat) :
    ∀ (l : List ExDoc) (acc : UpsertOut), storeOk acc.store →
      storeOk (l.foldl (fun (acc : UpsertOut) d =>
        let u := lessonUpsertOne now d acc.store
        { store := u.store, upserted := acc.upserted + u.upserted,
          modified := acc.modified + u.modified,
          matchedN := acc.matchedN + u.matchedN,
          errored := acc.errored || u.errored }) acc).store := by
  intro l
  induction l with
  | nil => intro acc h; exact h
  | cons e l ih =>
    intro acc h
    rw [List.foldl_cons]
    exact ih _ (lessonUpsertOne_storeOk now e acc.store h)

theorem lessonBatchUpsert_storeOk (now : Nat) (ds : List ExDoc)
    (s : List ExStored) (stats : SyncStats) (h : storeOk s) :
    storeOk (lessonBatchUpsert now ds s stats).1 := by
  by_cases hlen : ds.length = 0
  · simp only [lessonBatchUpsert, hlen, if_pos]
    exact h
  · simp only [lessonBatchUpsert, if_neg hlen]
    split
    · exact lessonBatchUpsert_fold_storeOk now ds _ (storeOk_deleteConflicts ds s h)
    · exact lessonBatchUpsert_fold_storeOk now ds _ (storeOk_deleteConflicts ds s h)

theorem runSyncLoopAux_preserves {Row Doc S : Type} (refId : Row → Option String)
    (transform : Row → Except Unit (Option Doc))
    (upsert : List Doc → S → SyncStats → S × SyncStats)
    (P : S → Prop)
    (hup : ∀ b s st, P s → P (upsert b s st).1) :
    ∀ (rows : List Row) (batch : List Doc) (s : S) (stats : SyncStats),
      P s → P (runSyncLoopAux refId transform upsert rows batch s stats).1 := by
  intro rows
  induction rows with
  | nil =>
    intro batch s stats hP
    simp only [runSyncLoopAux]
    split
    · exact hup _ _ _ hP
    · exact hP
  | cons item rest ih =>
    intro batch s stats hP
    simp only [runSyncLoopAux]
    split
    · exact ih _ _ _ hP
    · split
      · exact ih _ _ _ hP
      · exact ih _ _ _ hP
      · split
        · exact ih _ _ _ (hup _ _ _ hP)
        · exact ih _ _ _ hP

/-- C1: after a completed lesson sync run over any source row set, against any
store satisfying the `exercise` collection's index invariants, the final store
still satisfies them — in particular at most one document survives per
secondary `(order, chapter, type)` tuple: two surviving documents with equal
tuples are one and the same. The delete-conflicts phase and the unique-index
guard of each upsert jointly preserve the invariant. -/
theorem lessonSync_secondary_unique (books chapters : List (Nat × Option String))
    (rows : List LessonRow) (store : List ExStored) (now : Nat)
    (h : storeOk store) :
    storeOk (lessonSync books chapters rows store now).1 ∧
    ∀ y ∈ (lessonSync books chapters rows store now).1,
      ∀ z ∈ (lessonSync books chapters rows store now).1,
        exTuple y.fields = exTuple z.fields → y = z := by
  have hP : storeOk (lessonSync books chapters rows store now).1 :=
    runSyncLoopAux_preserves _ _ _ storeOk
      (fun b s st hs => lessonBatchUpsert_storeOk now b s st hs) rows [] store _ h
  refine ⟨hP, ?_⟩
  intro y hy z hz hEq
  by_contra hne
  exact hP.2.forall (fun a b hab => Ne.symm hab) hy hz hne hEq

/-- Closed instance of the C1 theorem: two rows with different 24-character
ref_ids mapping to the same `(order, chapter, type)` tuple, synced into an
empty store — the final store satisfies the invariant and holds at most one
document per tuple. -/
theorem lessonSync_secondary_unique_witness :
    storeOk (lessonSync [] []
      [{ id := 1, ref_id := some "aaaaaaaaaaaaaaaaaaaaaaa1", name := "n1",
         question_range := "q", display_order := 7,
         common_parent_section_name := "c", parent_section_name := "p",
         toc_output_json := "\x7b\x7d", book_id := 0, chapter_id := 0 },
       { id := 2, ref_id := some "aaaaaaaaaaaaaaaaaaaaaaa2", name := "n2",
         question_range := "q", display_order := 7,
         common_parent_section_name := "c", parent_section_name := "p",
         toc_output_json := "\x7b\x7d", book_id := 0, chapter_id := 0 }] [] 5).1 ∧
    ∀ y ∈ (lessonSync [] []
      [{ id := 1, ref_id := some "aaaaaaaaaaaaaaaaaaaaaaa1", name := "n1",
         question_range := "q", display_order := 7,
         common_parent_section_name := "c", parent_section_name := "p",
         toc_output_json := "\x7b\x7d", book_id := 0, chapter_id := 0 },
       { id := 2, ref_id := some "aaaaaaaaaaaaaaaaaaaaaaa2", name := "n2",
         question_range := "q", display_order := 7,
         common_parent_section_name := "c", parent_section_name := "p",
         toc_output_json := "\x7b\x7d", book_id := 0, chapter_id := 0 }] [] 5).1,
      ∀ z ∈ (lessonSync [] []
        [{ id := 1, ref_id := some "aaaaaaaaaaaaaaaaaaaaaaa1", name := "n1",
           question_range := "q", display_order := 7,
           common_parent_section_name := "c", parent_section_name := "p",
           toc_output_json := "\x7b\x7d", book_id := 0, chapter_id := 0 },
         { id := 2, ref_id := some "aaaaaaaaaaaaaaaaaaaaaaa2", name := "n2",
           question_range := "q", display_order := 7,
           common_parent_section_name := "c", parent_section_name := "p",
           toc_output_json := "\x7b\x7d", book_id := 0, chapter_id := 0 }] [] 5).1,
        exTuple y.fields = exTuple z.fields → y = z :=
  lessonSync_secondary_unique [] []
    [{ id := 1, ref_id := some "aaaaaaaaaaaaaaaaaaaaaaa1", name := "n1",
       question_range := "q", display_order := 7,
       common_parent_section_name := "c", parent_section_name := "p",
       toc_output_json := "\x7b\x7d", book_id := 0, chapter_id := 0 },
     { id := 2, ref_id := some "aaaaaaaaaaaaaaaaaaaaaaa2", name := "n2",
       question_range := "q", display_order := 7,
       common_parent_section_name := "c", parent_section_name := "p",
       toc_output_json := "\x7b\x7d", book_id := 0, chapter_id := 0 }] [] 5
    ⟨by simp, by simp⟩

/-! ### C2: idempotence of the second run -/

theorem mem_of_mem_replaceFirst {α : Type} (p : α → Bool) (d z : α) :
    ∀ s : List α, z ∈ replaceFirst p d s → z ∈ s ∨ z = d := by
  intro s
  induction s with
  | nil => intro h; simp [replaceFirst] at h
  | cons y ys ih =>
    by_cases hp : p y = true
    · intro h
      simp only [replaceFirst, hp, if_true] at h
      rcases List.mem_cons.mp h with h | h
      · exact Or.inr h
      · exact Or.inl (List.mem_cons.mpr (Or.inr h))
    · replace hp : p y = false := by
        cases h0 : p y with
        | true => exact absurd h0 hp
        | false => rfl
      intro h
      simp only [replaceFirst, hp, Bool.false_eq_true, if_false] at h
      rcases List.mem_cons.mp h with h | h
      · exact Or.inl (List.mem_cons.mpr (Or.inl h))
      · rcases ih h with h | h
        · exact Or.inl (List.mem_cons.mpr (Or.inr h))
        · exact Or.inr h

theorem noTupleClash_of_sub (d : ExDoc) (s s' : List ExStored)
    (hsub : ∀ y ∈ s', y ∈ s) (h : noTupleClash d s) : noTupleClash d s' :=
  fun y hy => h y (hsub y hy)

theorem deleteConflicts_sub (es : List ExDoc) :
    ∀ (s : List ExStored) (y : ExStored),
      y ∈ lessonDeleteConflicts es s → y ∈ s := by
  induction es with
  | nil => intro s y h; exact h
  | cons e es ih =>
    intro s y h
    have hstep : lessonDeleteConflicts (e :: es) s =
        lessonDeleteConflicts es (s.filter (fun y =>
          !(decide (y.fields._id ≠ e._id) && decide (exTuple y.fields = exTuple e)))) := by
      simp [lessonDeleteConflicts]
    rw [hstep] at h
    exact (List.mem_filter.mp (ih _ y h)).1

theorem deleteConflicts_noTupleClash (es : List ExDoc) :
    ∀ (s : List ExStored) (d : ExDoc), d ∈ es →
      noTupleClash d (lessonDeleteConflicts es s) := by
  induction es with
  | nil => intro s d h; simp at h
  | cons e es ih =>
    intro s d hd
    have hstep : lessonDeleteConflicts (e :: es) s =
        lessonDeleteConflicts es (s.filter (fun y =>
          !(decide (y.fields._id ≠ e._id) && decide (exTuple y.fields = exTuple e)))) := by
      simp [lessonDeleteConflicts]
    rw [hstep]
    rcases List.mem_cons.mp hd with hd | hd
    · subst hd
      apply noTupleClash_of_sub d _ _ (fun y hy => deleteConflicts_sub es _ y hy)
      intro y hy hid hEq
      have := (List.mem_filter.mp hy).2
      simp only [Bool.not_eq_true', Bool.and_eq_false_iff] at this
      rcases this with h | h
      · exact absurd (by simpa using h) (by simpa using hid)
      · exact absurd (by simpa using h) (by simp [hEq])
    · exact ih _ d hd

theorem deleteConflicts_eq_self (es : List ExDoc) :
    ∀ s : List ExStored, (∀ e ∈ es, noTupleClash e s) →
      lessonDeleteConflicts es s = s := by
  induction es with
  | nil => intro s _; rfl
  | cons e es ih =>
    intro s h
    have hstep : lessonDeleteConflicts (e :: es) s =
        lessonDeleteConflicts es (s.filter (fun y =>
          !(decide (y.fields._id ≠ e._id) && decide (exTuple y.fields = exTuple e)))) := by
      simp [lessonDeleteConflicts]
    have hfe : s.filter (fun y =>
        !(decide (y.fields._id ≠ e._id) && decide (exTuple y.fields = exTuple e))) = s := by
      apply List.filter_eq_self.mpr
      intro y hy
      by_cases hid : y.fields._id = e._id
      · simp [hid]
      · simp [h e (by simp) y hy hid]
    rw [hstep, hfe]
    exact ih s (fun e' he' => h e' (by simp [he']))

theorem syncedAt_deleteConflicts (now : Nat) (d : ExDoc) (es : List ExDoc) :
    ∀ s : List ExStored, (∀ e ∈ es, e._id = d._id ∨ exTuple e ≠ exTuple d) →
      syncedAt now d s → syncedAt now d (lessonDeleteConflicts es s) := by
  induction es with
  | nil => intro s _ h; exact h
  | cons e es ih =>
    intro s hes h
    have hstep : lessonDeleteConflicts (e :: es) s =
        lessonDeleteConflicts es (s.filter (fun y =>
          !(decide (y.fields._id ≠ e._id) && decide (exTuple y.fields = exTuple e)))) := by
      simp [lessonDeleteConflicts]
    rw [hstep]
    apply ih _ (fun e' he' => hes e' (by simp [he']))
    obtain ⟨⟨c, hc⟩, hnc⟩ := h
    refine ⟨⟨c, List.mem_filter.mpr ⟨hc, ?_⟩⟩,
      noTupleClash_of_sub d _ _ (fun y hy => (List.mem_filter.mp hy).1) hnc⟩
    rcases hes e (by simp) with he | he
    · simp [he]
    · have : exTuple (ExStored.mk d c now).fields ≠ exTuple e := fun hEq => he hEq.symm
      simp only [Bool.not_eq_true', Bool.and_eq_false_iff]
      right
      simpa using this

theorem syncedAt_upsertOne_other (nw now : Nat) (d e : ExDoc) (s : List ExStored)
    (hid : e._id ≠ d._id) (ht : exTuple e ≠ exTuple d) (h : syncedAt now d s) :
    syncedAt now d (lessonUpsertOne nw e s).store := by
  obtain ⟨⟨c, hc⟩, hnc⟩ := h
  have hmemconc : ∀ s' : List ExStored,
      (∀ y ∈ s', y ∈ s ∨ y.fields = e) → noTupleClash d s' := by
    intro s' hsub y hy hyid
    rcases hsub y hy with hmem | hfe
    · exact hnc y hmem hyid
    · rw [hfe]; exact ht
  cases hfind : s.find? (fun x => decide (x.fields._id = e._id)) with
  | some x =>
    by_cases herr : ((!decide (exTuple x.fields = exTuple e)) &&
        s.any (fun y =>
          decide (y.fields._id ≠ e._id) && decide (exTuple y.fields = exTuple e))) = true
    · simp only [lessonUpsertOne, hfind, herr, if_true]
      exact ⟨⟨c, hc⟩, hnc⟩
    · simp only [lessonUpsertOne, hfind, herr, Bool.false_eq_true, if_false]
      refine ⟨⟨c, ?_⟩, ?_⟩
      · exact mem_replaceFirst_of_mem _ _ _ s hc (by simp [hid.symm])
      · apply hmemconc
        intro y hy
        rcases mem_of_mem_replaceFirst _ _ y s hy with hmem | hnd
        · exact Or.inl hmem
        · exact Or.inr (by rw [hnd])
  | none =>
    by_cases hany : s.any (fun y => decide (exTuple y.fields = exTuple e)) = true
    · simp only [lessonUpsertOne, hfind, hany, if_true]
      exact ⟨⟨c, hc⟩, hnc⟩
    · simp only [lessonUpsertOne, hfind, hany, Bool.false_eq_true, if_false]
      refine ⟨⟨c, List.mem_append.mpr (Or.inl hc)⟩, ?_⟩
      apply hmemconc
      intro y hy
      rcases List.mem_append.mp hy with hmem | hnd
      · exact Or.inl hmem
      · exact Or.inr (by simp at hnd; rw [hnd])

theorem noTupleClash_upsertOne_other (nw : Nat) (d e : ExDoc) (s : List ExStored)
    (ht : exTuple e ≠ exTuple d) (h : noTupleClash d s) :
    noTupleClash d (lessonUpsertOne nw e s).store := by
  have key : ∀ s' : List ExStored,
      (∀ y ∈ s', y ∈ s ∨ y.fields = e) → noTupleClash d s' := by
    intro s' hsub y hy hyid
    rcases hsub y hy with hmem | hfe
    · exact h y hmem hyid
    · rw [hfe]; exact ht
  cases hfind : s.find? (fun x => decide (x.fields._id = e._id)) with
  | some x =>
    by_cases herr : ((!decide (exTuple x.fields = exTuple e)) &&
        s.any (fun y =>
          decide (y.fields._id ≠ e._id) && decide (exTuple y.fields = exTuple e))) = true
    · simp only [lessonUpsertOne, hfind, herr, if_true]; exact h
    · simp only [lessonUpsertOne, hfind, herr, Bool.false_eq_true, if_false]
      apply key
      intro y hy
      rcases mem_of_mem_replaceFirst _ _ y s hy with hmem | hnd
      · exact Or.inl hmem
      · exact Or.inr (by rw [hnd])
  | none =>
    by_cases hany : s.any (fun y => decide (exTuple y.fields = exTuple e)) = true
    · simp only [lessonUpsertOne, hfind, hany, if_true]; exact h
    · simp only [lessonUpsertOne, hfind, hany, Bool.false_eq_true, if_false]
      apply key
      intro y hy
      rcases List.mem_append.mp hy with hmem | hnd
      · exact Or.inl hmem
      · exact Or.inr (by simp at hnd; rw [hnd])

theorem lessonUpsertOne_establish (now : Nat) (d : ExDoc) (s : List ExStored)
    (hnc : noTupleClash d s) : syncedAt now d (lessonUpsertOne now d s).store := by
  have key : ∀ s' : List ExStored,
      (∀ y ∈ s', y ∈ s ∨ y.fields = d) → noTupleClash d s' := by
    intro s' hsub y hy hyid
    rcases hsub y hy with hmem | hfd
    · exact hnc y hmem hyid
    · exact absurd (by rw [hfd]) hyid
  cases hfind : s.find? (fun x => decide (x.fields._id = d._id)) with
  | some x =>
    have hxmem := List.mem_of_find?_eq_some hfind
    have hxp := List.find?_some hfind
    have hxid : x.fields._id = d._id := of_decide_eq_true hxp
    have herr : ((!decide (exTuple x.fields = exTuple d)) &&
        s.any (fun y =>
          decide (y.fields._id ≠ d._id) && decide (exTuple y.fields = exTuple d))) = false := by
      rw [Bool.and_eq_false_iff]
      by_cases ht : exTuple x.fields = exTuple d
      · left; simp [ht]
      · right
        rw [List.any_eq_false]
        intro y hy
        by_cases hyid : y.fields._id = d._id
        · simp [hyid]
        · simp [hnc y hy hyid]
    simp only [lessonUpsertOne, hfind, herr, Bool.false_eq_true, if_false]
    obtain ⟨s₁, s₂, hs, hs₁, hrw⟩ :=
      replaceFirst_split (fun y => decide (y.fields._id = d._id))
        (ExStored.mk d x.created_at now) s x hfind
    refine ⟨⟨x.created_at, ?_⟩, ?_⟩
    · rw [hrw]
      exact List.mem_append.mpr (Or.inr (List.mem_cons.mpr (Or.inl rfl)))
    · apply key
      intro y hy
      rcases mem_of_mem_replaceFirst _ _ y s hy with hmem | hnd
      · exact Or.inl hmem
      · exact Or.inr (by rw [hnd])
  | none =>
    have hany : s.any (fun y => decide (exTuple y.fields = exTuple d)) = false := by
      rw [List.any_eq_false]
      intro y hy
      have hyid : ¬ y.fields._id = d._id := by
        have := List.find?_eq_none.mp hfind y hy
        simpa using this
      simp [hnc y hy hyid]
    simp only [lessonUpsertOne, hfind, hany, Bool.false_eq_true, if_false]
    refine ⟨⟨now, List.mem_append.mpr (Or.inr (by simp))⟩, ?_⟩
    apply key
    intro y hy
    rcases List.mem_append.mp hy with hmem | hnd
    · exact Or.inl hmem
    · exact Or.inr (by simp at hnd; rw [hnd])

theorem lessonUpsert_fold_establish (now : Nat) :
    ∀ (ds : List ExDoc) (acc : UpsertOut),
      (ds.map (fun d => d._id)).Nodup →
      ds.Pairwise (fun d e => exTuple d ≠ exTuple e) →
      (∀ d ∈ ds, noTupleClash d acc.store) →
      (∀ d ∈ ds, syncedAt now d
        ((ds.foldl (fun (acc : UpsertOut) d =>
          let u := lessonUpsertOne now d acc.store
          { store := u.store, upserted := acc.upserted + u.upserted,
            modified := acc.modified + u.modified,
            matchedN := acc.matchedN + u.matchedN,
            errored := acc.errored || u.errored }) acc).store)) ∧
      (∀ (τ : Nat) (d0 : ExDoc),
        (∀ e ∈ ds, e._id ≠ d0._id ∧ exTuple e ≠ exTuple d0) →
        syncedAt τ d0 acc.store →
        syncedAt τ d0 ((ds.foldl (fun (acc : UpsertOut) d =>
          let u := lessonUpsertOne now d acc.store
          { store := u.store, upserted := acc.upserted + u.upserted,
            modified := acc.modified + u.modified,
            matchedN := acc.matchedN + u.matchedN,
            errored := acc.errored || u.errored }) acc).store)) := by
  intro ds
  induction ds with
  | nil =>
    intro acc _ _ _
    exact ⟨by intro d hd; simp at hd, by intro τ d0 _ h; exact h⟩
  | cons e es ih =>
    intro acc hnd hpw hnc
    rw [List.map_cons, List.nodup_cons] at hnd
    rw [List.pairwise_cons] at hpw
    have hupd := lessonUpsertOne_establish now e acc.store (hnc e (by simp))
    have htail := ih
      { store := (lessonUpsertOne now e acc.store).store,
        upserted := acc.upserted + (lessonUpsertOne now e acc.store).upserted,
        modified := acc.modified + (lessonUpsertOne now e acc.store).modified,
        matchedN := acc.matchedN + (lessonUpsertOne now e acc.store).matchedN,
        errored := acc.errored || (lessonUpsertOne now e acc.store).errored }
      hnd.2 hpw.2
      (by
        intro d hd
        exact noTupleClash_upsertOne_other now d e acc.store
          (hpw.1 d hd) (hnc d (by simp [hd])))
    constructor
    · intro d hd
      rw [List.foldl_cons]
      rcases List.mem_cons.mp hd with hd | hd
      · subst hd
        apply htail.2 now d
        · intro e' he'
          refine ⟨?_, fun hEq => hpw.1 e' he' hEq.symm⟩
          intro hEq
          exact hnd.1 (hEq ▸ List.mem_map.mpr ⟨e', he', rfl⟩)
        · exact hupd
      · exact htail.1 d hd
    · intro τ d0 hds h0
      rw [List.foldl_cons]
      apply htail.2 τ d0 (fun e' he' => hds e' (by simp [he']))
      exact syncedAt_upsertOne_other now τ d0 e acc.store
        (hds e (by simp)).1 (hds e (by simp)).2 h0

theorem lessonBatchUpsert_establish (now : Nat) (ds : List ExDoc)
    (s : List ExStored) (stats : SyncStats)
    (hnd : (ds.map (fun d => d._id)).Nodup)
    (hpw : ds.Pairwise (fun d e => exTuple d ≠ exTuple e)) :
    (∀ d ∈ ds, syncedAt now d (lessonBatchUpsert now ds s stats).1) ∧
    (∀ (τ : Nat) (d0 : ExDoc),
      (∀ e ∈ ds, e._id ≠ d0._id ∧ exTuple e ≠ exTuple d0) →
      syncedAt τ d0 s → syncedAt τ d0 (lessonBatchUpsert now ds s stats).1) := by
  by_cases hlen : ds.length = 0
  · have hds : ds = [] := List.length_eq_zero.mp hlen
    subst hds
    simp only [lessonBatchUpsert, if_pos]
    exact ⟨by intro d hd; simp at hd, by intro τ d0 _ h; exact h⟩
  · have hfold := lessonUpsert_fold_establish now ds
      { store := lessonDeleteConflicts ds s, upserted := 0, modified := 0,
        matchedN := 0, errored := false }
      hnd hpw (by intro d hd; exact deleteConflicts_noTupleClash ds s d hd)
    constructor
    · intro d hd
      simp only [lessonBatchUpsert, if_neg hlen]
      split
      · exact hfold.1 d hd
      · exact hfold.1 d hd
    · intro τ d0 hds h0
      have h1 : syncedAt τ d0 (lessonDeleteConflicts ds s) := by
        apply syncedAt_deleteConflicts τ d0 ds s
        · intro e he
          exact Or.inr (hds e he).2
        · exact h0
      simp only [lessonBatchUpsert, if_neg hlen]
      split
      · exact hfold.2 τ d0 hds h1
      · exact hfold.2 τ d0 hds h1

theorem lessonLoop_establish {Row : Type} (now : Nat) (refId : Row → Option String)
    (transform : Row → Except Unit (Option ExDoc)) :
    ∀ (rows : List Row) (batch : List ExDoc) (s : List ExStored) (stats : SyncStats),
      ((batch ++ rows.filterMap (rowDoc refId transform)).map (fun d => d._id)).Nodup →
      (batch ++ rows.filterMap (rowDoc refId transform)).Pairwise
        (fun d e => exTuple d ≠ exTuple e) →
      (∀ d ∈ batch ++ rows.filterMap (rowDoc refId transform),
        syncedAt now d
          (runSyncLoopAux refId transform (lessonBatchUpsert now) rows batch s stats).1) ∧
      (∀ (τ : Nat) (d0 : ExDoc),
        (∀ e ∈ batch ++ rows.filterMap (rowDoc refId transform),
          e._id ≠ d0._id ∧ exTuple e ≠ exTuple d0) →
        syncedAt τ d0 s →
        syncedAt τ d0
          (runSyncLoopAux refId transform (lessonBatchUpsert now) rows batch s stats).1) := by
  intro rows
  induction rows with
  | nil =>
    intro batch s stats hnd hpw
    simp only [List.filterMap_nil, List.append_nil] at hnd hpw ⊢
    by_cases hb : batch.length > 0
    · simp only [runSyncLoopAux, hb, if_true]
      exact lessonBatchUpsert_establish now batch s stats hnd hpw
    · have hbe : batch = [] := by
        cases batch with
        | nil => rfl
        | cons x xs => simp at hb
      subst hbe
      simp only [runSyncLoopAux, hb, if_false]
      exact ⟨by intro d hd; simp at hd, by intro τ d0 _ h; exact h⟩
  | cons item rest ih =>
    intro batch s stats hnd hpw
    by_cases hf : strFalsy (refId item) = true
    · have hdoc : rowDoc refId transform item = none := by simp [rowDoc, hf]
      rw [List.filterMap_cons, hdoc] at hnd hpw ⊢
      simp only [runSyncLoopAux, hf, if_true]
      exact ih batch s _ hnd hpw
    · replace hf : strFalsy (refId item) = false := by
        cases h0 : strFalsy (refId item) with
        | true => exact absurd h0 hf
        | false => rfl
      cases htr : transform item with
      | error e =>
        have hdoc : rowDoc refId transform item = none := by simp [rowDoc, hf, htr]
        rw [List.filterMap_cons, hdoc] at hnd hpw ⊢
        simp only [runSyncLoopAux, hf, Bool.false_eq_true, if_false, htr]
        exact ih batch s _ hnd hpw
      | ok od =>
        cases od with
        | none =>
          have hdoc : rowDoc refId transform item = none := by simp [rowDoc, hf, htr]
          rw [List.filterMap_cons, hdoc] at hnd hpw ⊢
          simp only [runSyncLoopAux, hf, Bool.false_eq_true, if_false, htr]
          exact ih batch s _ hnd hpw
        | some d =>
          have hdoc : rowDoc refId transform item = some d := by
            simp [rowDoc, hf, htr]
          have hassoc : batch ++ (rest.filterMap (rowDoc refId transform)).cons d =
              (batch ++ [d]) ++ rest.filterMap (rowDoc refId transform) := by
            simp
          rw [List.filterMap_cons, hdoc] at hnd hpw ⊢
          by_cases hflush : (batch ++ [d]).length ≥ BATCH_SIZE
          · simp only [runSyncLoopAux, hf, Bool.false_eq_true, if_false, htr, hflush,
              if_true]
            rw [hassoc] at hnd hpw ⊢
            rw [List.map_append, List.nodup_append] at hnd
            rw [List.pairwise_append] at hpw
            have hbatch := lessonBatchUpsert_establish now (batch ++ [d]) s stats
              hnd.1 hpw.1
            have hrest := ih []
              (lessonBatchUpsert now (batch ++ [d]) s stats).1
              (lessonBatchUpsert now (batch ++ [d]) s stats).2
              (by simpa using hnd.2.1) (by simpa using hpw.2.1)
            constructor
            · intro e he
              rcases List.mem_append.mp he with he | he
              · apply hrest.2 now e
                · intro e' he'
                  simp only [List.nil_append] at he' ⊢
                  refine ⟨?_, fun hEq => hpw.2.2 e he e' he' hEq.symm⟩
                  intro hEq
                  exact hnd.2.2 (List.mem_map.mpr ⟨e, he, rfl⟩)
                    (by rw [← hEq]; exact List.mem_map.mpr ⟨e', he', rfl⟩)
                · exact hbatch.1 e he
              · exact hrest.1 e (by simpa using he)
            · intro τ d0 hds h0
              apply hrest.2 τ d0
              · intro e' he'
                exact hds e' (List.mem_append.mpr (Or.inr (by simpa using he')))
              · exact hbatch.2 τ d0
                  (fun e he => hds e (List.mem_append.mpr (Or.inl he))) h0
          · simp only [runSyncLoopAux, hf, Bool.false_eq_true, if_false, htr, hflush,
              if_false]
            rw [hassoc] at hnd hpw ⊢
            exact ih (batch ++ [d]) s _ hnd hpw

theorem lessonUpsertOne_synced (now1 now2 : Nat) (d : ExDoc) (s : List ExStored)
    (hnod : (s.map (fun y => y.fields._id)).Nodup)
    (h : syncedAt now1 d s) :
    ∃ c, ExStored.mk d c now1 ∈ s ∧
      lessonUpsertOne now2 d s =
        { store := replaceFirst (fun y => decide (y.fields._id = d._id))
            (ExStored.mk d c now2) s,
          upserted := 0, modified := if now1 = now2 then 0 else 1,
          matchedN := 1, errored := false } ∧
      syncedAt now2 d (lessonUpsertOne now2 d s).store := by
  obtain ⟨⟨c, hc⟩, hnc⟩ := h
  have hfind : s.find? (fun x => decide (x.fields._id = d._id)) =
      some (ExStored.mk d c now1) :=
    find?_eq_of_mem_nodup (fun y => y.fields._id) s (ExStored.mk d c now1) hnod hc
  have hcond : ((!decide (exTuple (ExStored.mk d c now1).fields = exTuple d)) &&
      s.any (fun y =>
        decide (y.fields._id ≠ d._id) && decide (exTuple y.fields = exTuple d))) = false := by
    simp
  have heq : lessonUpsertOne now2 d s =
      { store := replaceFirst (fun y => decide (y.fields._id = d._id))
          (ExStored.mk d c now2) s,
        upserted := 0, modified := if now1 = now2 then 0 else 1,
        matchedN := 1, errored := false } := by
    simp only [lessonUpsertOne, hfind, hcond, Bool.false_eq_true, if_false]
    by_cases hnn : now1 = now2 <;> simp [hnn]
  refine ⟨c, hc, heq, ?_⟩
  rw [heq]
  obtain ⟨s₁, s₂, hs, hs₁, hrw⟩ :=
    replaceFirst_split (fun y => decide (y.fields._id = d._id))
      (ExStored.mk d c now2) s (ExStored.mk d c now1) hfind
  constructor
  · refine ⟨c, ?_⟩
    show ExStored.mk d c now2 ∈
      replaceFirst (fun y => decide (y.fields._id = d._id)) (ExStored.mk d c now2) s
    rw [hrw]
    exact List.mem_append.mpr (Or.inr (by simp))
  · intro y hy hyid
    rcases mem_of_mem_replaceFirst _ _ y s hy with hmem | hnd2
    · exact hnc y hmem hyid
    · rw [hnd2] at hyid
      simp at hyid

theorem lessonUpsert_fold_second (now1 now2 : Nat) :
    ∀ (ds : List ExDoc) (acc : UpsertOut),
      storeOk acc.store →
      (ds.map (fun d => d._id)).Nodup →
      ds.Pairwise (fun d e => exTuple d ≠ exTuple e) →
      (∀ d ∈ ds, syncedAt now1 d acc.store) →
      ((ds.foldl (fun (acc : UpsertOut) d =>
          let u := lessonUpsertOne now2 d acc.store
          { store := u.store, upserted := acc.upserted + u.upserted,
            modified := acc.modified + u.modified,
            matchedN := acc.matchedN + u.matchedN,
            errored := acc.errored || u.errored }) acc).store.map stripEx =
        acc.store.map stripEx) ∧
      (now1 = now2 → (ds.foldl (fun (acc : UpsertOut) d =>
          let u := lessonUpsertOne now2 d acc.store
          { store := u.store, upserted := acc.upserted + u.upserted,
            modified := acc.modified + u.modified,
            matchedN := acc.matchedN + u.matchedN,
            errored := acc.errored || u.errored }) acc).store = acc.store) ∧
      ((ds.foldl (fun (acc : UpsertOut) d =>
          let u := lessonUpsertOne now2 d acc.store
          { store := u.store, upserted := acc.upserted + u.upserted,
            modified := acc.modified + u.modified,
            matchedN := acc.matchedN + u.matchedN,
            errored := acc.errored || u.errored }) acc).upserted = acc.upserted) ∧
      ((ds.foldl (fun (acc : UpsertOut) d =>
          let u := lessonUpsertOne now2 d acc.store
          { store := u.store, upserted := acc.upserted + u.upserted,
            modified := acc.modified + u.modified,
            matchedN := acc.matchedN + u.matchedN,
            errored := acc.errored || u.errored }) acc).modified =
        acc.modified + (if now1 = now2 then 0 else ds.length)) ∧
      ((ds.foldl (fun (acc : UpsertOut) d =>
          let u := lessonUpsertOne now2 d acc.store
          { store := u.store, upserted := acc.upserted + u.upserted,
            modified := acc.modified + u.modified,
            matchedN := acc.matchedN + u.matchedN,
            errored := acc.errored || u.errored }) acc).matchedN =
        acc.matchedN + ds.length) ∧
      ((ds.foldl (fun (acc : UpsertOut) d =>
          let u := lessonUpsertOne now2 d acc.store
          { store := u.store, upserted := acc.upserted + u.upserted,
            modified := acc.modified + u.modified,
            matchedN := acc.matchedN + u.matchedN,
            errored := acc.errored || u.errored }) acc).errored = acc.errored) ∧
      storeOk ((ds.foldl (fun (acc : UpsertOut) d =>
          let u := lessonUpsertOne now2 d acc.store
          { store := u.store, upserted := acc.upserted + u.upserted,
            modified := acc.modified + u.modified,
            matchedN := acc.matchedN + u.matchedN,
            errored := acc.errored || u.errored }) acc).store) ∧
      (∀ (τ : Nat) (d0 : ExDoc),
        (∀ e ∈ ds, e._id ≠ d0._id ∧ exTuple e ≠ exTuple d0) →
        syncedAt τ d0 acc.store →
        syncedAt τ d0 ((ds.foldl (fun (acc : UpsertOut) d =>
          let u := lessonUpsertOne now2 d acc.store
          { store := u.store, upserted := acc.upserted + u.upserted,
            modified := acc.modified + u.modified,
            matchedN := acc.matchedN + u.matchedN,
            errored := acc.errored || u.errored }) acc).store)) := by
  intro ds
  induction ds with
  | nil =>
    intro acc hok _ _ _
    refine ⟨rfl, fun _ => rfl, rfl, by simp, by simp, rfl, hok, ?_⟩
    intro τ d0 _ h
    exact h
  | cons e es ih =>
    intro acc hok hnd hpw hsync
    rw [List.map_cons, List.nodup_cons] at hnd
    rw [List.pairwise_cons] at hpw
    obtain ⟨c, hc, heq, hsyn2⟩ :=
      lessonUpsertOne_synced now1 now2 e acc.store hok.1 (hsync e (by simp))
    have hids : ∀ z ∈ acc.store,
        (fun y => decide (y.fields._id = e._id)) z = true → z = ExStored.mk e c now1 := by
      intro z hz hpz
      exact List.inj_on_of_nodup_map hok.1 hz hc
        (by simpa using of_decide_eq_true hpz)
    have hstoreq : (lessonUpsertOne now2 e acc.store).store =
        replaceFirst (fun y => decide (y.fields._id = e._id))
          (ExStored.mk e c now2) acc.store := by
      rw [heq]
    have hstrip : (lessonUpsertOne now2 e acc.store).store.map stripEx =
        acc.store.map stripEx := by
      rw [hstoreq]
      apply replaceFirst_map_eq
      intro z hz hpz
      rw [hids z hz hpz]
      rfl
    have hsame : now1 = now2 → (lessonUpsertOne now2 e acc.store).store = acc.store := by
      intro hnn
      rw [hstoreq]
      apply replaceFirst_eq_self
      intro z hz hpz
      rw [hids z hz hpz, hnn]
    have hok2 : storeOk (lessonUpsertOne now2 e acc.store).store :=
      lessonUpsertOne_storeOk now2 e acc.store hok
    have hsync2 : ∀ d ∈ es, syncedAt now1 d (lessonUpsertOne now2 e acc.store).store := by
      intro d hd
      apply syncedAt_upsertOne_other now2 now1 d e acc.store
      · intro hEq
        exact hnd.1 (hEq ▸ List.mem_map.mpr ⟨d, hd, rfl⟩)
      · exact hpw.1 d hd
      · exact hsync d (by simp [hd])
    have htail := ih
      { store := (lessonUpsertOne now2 e acc.store).store,
        upserted := acc.upserted + (lessonUpsertOne now2 e acc.store).upserted,
        modified := acc.modified + (lessonUpsertOne now2 e acc.store).modified,
        matchedN := acc.matchedN + (lessonUpsertOne now2 e acc.store).matchedN,
        errored := acc.errored || (lessonUpsertOne now2 e acc.store).errored }
      hok2 hnd.2 hpw.2 hsync2
    obtain ⟨t1, t2, t3, t4, t5, t6, t7, t8⟩ := htail
    rw [List.foldl_cons]
    refine ⟨?_, ?_, ?_, ?_, ?_, ?_, ?_, ?_⟩
    · exact t1.trans hstrip
    · intro hnn
      exact (t2 hnn).trans (hsame hnn)
    · refine t3.trans ?_
      rw [heq]
      simp
    · refine t4.trans ?_
      rw [heq]
      simp only [List.length_cons]
      by_cases hnn : now1 = now2 <;> simp [hnn] <;> omega
    · refine t5.trans ?_
      rw [heq]
      simp only [List.length_cons]
      omega
    · refine t6.trans ?_
      rw [heq]
      simp
    · exact t7
    · intro τ d0 hds h0
      apply t8 τ d0 (fun e' he' => hds e' (by simp [he']))
      exact syncedAt_upsertOne_other now2 τ d0 e acc.store
        (hds e (by simp)).1 (hds e (by simp)).2 h0

theorem lessonBatchUpsert_second (now1 now2 : Nat) (ds : List ExDoc)
    (s : List ExStored) (stats : SyncStats)
    (hok : storeOk s)
    (hnd : (ds.map (fun d => d._id)).Nodup)
    (hpw : ds.Pairwise (fun d e => exTuple d ≠ exTuple e))
    (hsync : ∀ d ∈ ds, syncedAt now1 d s) :
    (lessonBatchUpsert now2 ds s stats).1.map stripEx = s.map stripEx ∧
    (now1 = now2 → (lessonBatchUpsert now2 ds s stats).1 = s) ∧
    (lessonBatchUpsert now2 ds s stats).2 =
      { stats with
        updated := stats.updated + (if now1 = now2 then 0 else ds.length),
        matchedW := stats.matchedW + ds.length } ∧
    storeOk (lessonBatchUpsert now2 ds s stats).1 ∧
    (∀ (τ : Nat) (d0 : ExDoc),
      (∀ e ∈ ds, e._id ≠ d0._id ∧ exTuple e ≠ exTuple d0) →
      syncedAt τ d0 s → syncedAt τ d0 (lessonBatchUpsert now2 ds s stats).1) := by
  obtain ⟨t, i, u, sk, er, m⟩ := stats
  by_cases hlen : ds.length = 0
  · have hds : ds = [] := List.length_eq_zero.mp hlen
    subst hds
    simp only [lessonBatchUpsert, if_pos]
    refine ⟨rfl, fun _ => rfl, ?_, hok, ?_⟩
    · simp only [List.length_nil, SyncStats.mk.injEq]
      by_cases hnn : now1 = now2 <;> simp [hnn]
    · intro τ d0 _ h
      exact h
  · have hdel : lessonDeleteConflicts ds s = s :=
      deleteConflicts_eq_self ds s (fun e he => (hsync e he).2)
    have hfold := lessonUpsert_fold_second now1 now2 ds
      { store := lessonDeleteConflicts ds s, upserted := 0, modified := 0,
        matchedN := 0, errored := false }
      (by rw [hdel]; exact hok) hnd hpw (by rw [hdel]; exact hsync)
    obtain ⟨t1, t2, t3, t4, t5, t6, t7, t8⟩ := hfold
    simp only [lessonBatchUpsert, if_neg hlen]
    split
    · rename_i hcond
      rw [t6] at hcond
      simp at hcond
    · refine ⟨?_, ?_, ?_, t7, ?_⟩
      · exact t1.trans (by rw [hdel])
      · intro hnn
        exact (t2 hnn).trans (by rw [hdel])
      · rw [t3, t4, t5]
        by_cases hnn : now1 = now2 <;>
          simp [SyncStats.mk.injEq, hnn] <;> omega
      · intro τ d0 hds h0
        have h0d : syncedAt τ d0 (lessonDeleteConflicts ds s) := by
          rw [hdel]
          exact h0
        exact t8 τ d0 hds h0d

theorem lessonLoop_second {Row : Type} (now1 now2 : Nat)
    (refId : Row → Option String)
    (transform : Row → Except Unit (Option ExDoc)) :
    ∀ (rows : List Row) (batch : List ExDoc) (s : List ExStored) (stats : SyncStats),
      storeOk s →
      ((batch ++ rows.filterMap (rowDoc refId transform)).map (fun d => d._id)).Nodup →
      (batch ++ rows.filterMap (rowDoc refId transform)).Pairwise
        (fun d e => exTuple d ≠ exTuple e) →
      (∀ d ∈ batch ++ rows.filterMap (rowDoc refId transform), syncedAt now1 d s) →
      ((runSyncLoopAux refId transform (lessonBatchUpsert now2) rows batch s stats).1.map
          stripEx = s.map stripEx) ∧
      (now1 = now2 →
        (runSyncLoopAux refId transform (lessonBatchUpsert now2) rows batch s stats).1 = s) ∧
      ((runSyncLoopAux refId transform (lessonBatchUpsert now2) rows batch s stats).2.inserted
          = stats.inserted) ∧
      ((runSyncLoopAux refId transform (lessonBatchUpsert now2) rows batch s stats).2.updated
          = stats.updated +
            (if now1 = now2 then 0
             else (batch ++ rows.filterMap (rowDoc refId transform)).length)) := by
  intro rows
  induction rows with
  | nil =>
    intro batch s stats hok hnd hpw hsync
    simp only [List.filterMap_nil, List.append_nil] at hnd hpw hsync ⊢
    by_cases hb : batch.length > 0
    · simp only [runSyncLoopAux, hb, if_true]
      have hbatch := lessonBatchUpsert_second now1 now2 batch s stats hok hnd hpw hsync
      refine ⟨hbatch.1, hbatch.2.1, ?_, ?_⟩
      · rw [hbatch.2.2.1]
      · rw [hbatch.2.2.1]
    · have hbe : batch = [] := by
        cases batch with
        | nil => rfl
        | cons x xs => simp at hb
      subst hbe
      simp [runSyncLoopAux, hb]
  | cons item rest ih =>
    intro batch s stats hok hnd hpw hsync
    by_cases hf : strFalsy (refId item) = true
    · have hdoc : rowDoc refId transform item = none := by simp [rowDoc, hf]
      rw [List.filterMap_cons, hdoc] at hnd hpw hsync ⊢
      simp only [runSyncLoopAux, hf, if_true]
      exact ih batch s _ hok hnd hpw hsync
    · replace hf : strFalsy (refId item) = false := by
        cases h0 : strFalsy (refId item) with
        | true => exact absurd h0 hf
        | false => rfl
      cases htr : transform item with
      | error e =>
        have hdoc : rowDoc refId transform item = none := by simp [rowDoc, hf, htr]
        rw [List.filterMap_cons, hdoc] at hnd hpw hsync ⊢
        simp only [runSyncLoopAux, hf, Bool.false_eq_true, if_false, htr]
        exact ih batch s _ hok hnd hpw hsync
      | ok od =>
        cases od with
        | none =>
          have hdoc : rowDoc refId transform item = none := by simp [rowDoc, hf, htr]
          rw [List.filterMap_cons, hdoc] at hnd hpw hsync ⊢
          simp only [runSyncLoopAux, hf, Bool.false_eq_true, if_false, htr]
          exact ih batch s _ hok hnd hpw hsync
        | some d =>
          have hdoc : rowDoc refId transform item = some d := by
            simp [rowDoc, hf, htr]
          have hassoc : batch ++ (rest.filterMap (rowDoc refId transform)).cons d =
              (batch ++ [d]) ++ rest.filterMap (rowDoc refId transform) := by
            simp
          rw [List.filterMap_cons, hdoc] at hnd hpw hsync ⊢
          by_cases hflush : (batch ++ [d]).length ≥ BATCH_SIZE
          · simp only [runSyncLoopAux, hf, Bool.false_eq_true, if_false, htr, hflush,
              if_true]
            rw [hassoc] at hnd hpw hsync ⊢
            rw [List.map_append, List.nodup_append] at hnd
            rw [List.pairwise_append] at hpw
            have hbatch := lessonBatchUpsert_second now1 now2 (batch ++ [d]) s stats
              hok hnd.1 hpw.1 (fun e he => hsync e (List.mem_append.mpr (Or.inl he)))
            have hsyncrest : ∀ e ∈ ([] : List ExDoc) ++
                rest.filterMap (rowDoc refId transform),
                syncedAt now1 e (lessonBatchUpsert now2 (batch ++ [d]) s stats).1 := by
              intro e he
              simp only [List.nil_append] at he
              apply hbatch.2.2.2.2 now1 e
              · intro e' he'
                refine ⟨?_, hpw.2.2 e' he' e he⟩
                intro hEq
                exact hnd.2.2 (List.mem_map.mpr ⟨e', he', rfl⟩)
                  (by rw [hEq]; exact List.mem_map.mpr ⟨e, he, rfl⟩)
              · exact hsync e (List.mem_append.mpr (Or.inr he))
            have hrest := ih []
              (lessonBatchUpsert now2 (batch ++ [d]) s stats).1
              (lessonBatchUpsert now2 (batch ++ [d]) s stats).2
              hbatch.2.2.2.1 (by simpa using hnd.2.1) (by simpa using hpw.2.1)
              hsyncrest
            refine ⟨hrest.1.trans hbatch.1, ?_, ?_, ?_⟩
            · intro hnn
              exact (hrest.2.1 hnn).trans (hbatch.2.1 hnn)
            · rw [hrest.2.2.1, hbatch.2.2.1]
            · rw [hrest.2.2.2, hbatch.2.2.1]
              simp only [List.nil_append, List.length_append]
              by_cases hnn : now1 = now2 <;> simp [hnn] <;> omega
          · simp only [runSyncLoopAux, hf, Bool.false_eq_true, if_false, htr, hflush,
              if_false]
            rw [hassoc] at hnd hpw hsync ⊢
            exact ih (batch ++ [d]) s _ hok hnd hpw hsync

theorem baseUpsertOne_nodup {Doc : Type} [DecidableEq Doc] (docId : Doc → String)
    (d : Doc) (s : List Doc) (h : (s.map docId).Nodup) :
    ((baseUpsertOne docId d s).store.map docId).Nodup := by
  cases hfind : s.find? (fun x => decide (docId x = docId d)) with
  | some x =>
    simp only [baseUpsertOne, hfind]
    rw [replaceFirst_map_eq]
    · exact h
    · intro z hz hpz
      exact of_decide_eq_true hpz
  | none =>
    simp only [baseUpsertOne, hfind]
    rw [List.map_append, List.nodup_append]
    refine ⟨h, by simp, ?_⟩
    intro a ha hb
    simp only [List.mem_map] at ha
    obtain ⟨z, hz, hza⟩ := ha
    simp only [List.map_cons, List.map_nil, List.mem_cons, List.not_mem_nil,
      or_false] at hb
    have := List.find?_eq_none.mp hfind z hz
    simp only [decide_eq_true_eq] at this
    exact this (hza.trans hb)

theorem baseUpsertOne_mem_self {Doc : Type} [DecidableEq Doc] (docId : Doc → String)
    (d : Doc) (s : List Doc) : d ∈ (baseUpsertOne docId d s).store := by
  cases hfind : s.find? (fun x => decide (docId x = docId d)) with
  | some x =>
    simp only [baseUpsertOne, hfind]
    obtain ⟨s₁, s₂, hs, hs₁, hrw⟩ :=
      replaceFirst_split (fun y => decide (docId y = docId d)) d s x hfind
    rw [hrw]
    exact List.mem_append.mpr (Or.inr (by simp))
  | none =>
    simp only [baseUpsertOne, hfind]
    exact List.mem_append.mpr (Or.inr (by simp))

theorem baseUpsertOne_frame {Doc : Type} [DecidableEq Doc] (docId : Doc → String)
    (d x : Doc) (s : List Doc) (hid : docId x ≠ docId d) (hx : x ∈ s) :
    x ∈ (baseUpsertOne docId d s).store := by
  cases hfind : s.find? (fun y => decide (docId y = docId d)) with
  | some y =>
    simp only [baseUpsertOne, hfind]
    exact mem_replaceFirst_of_mem _ _ _ s hx (by simp [hid])
  | none =>
    simp only [baseUpsertOne, hfind]
    exact List.mem_append.mpr (Or.inl hx)

theorem baseUpsertOne_noop {Doc : Type} [DecidableEq Doc] (docId : Doc → String)
    (d : Doc) (s : List Doc) (hnod : (s.map docId).Nodup) (hmem : d ∈ s) :
    baseUpsertOne docId d s = { store := s, upserted := 0, modified := 0 } := by
  have hfind : s.find? (fun x => decide (docId x = docId d)) = some d :=
    find?_eq_of_mem_nodup docId s d hnod hmem
  simp only [baseUpsertOne, hfind]
  have hself : replaceFirst (fun y => decide (docId y = docId d)) d s = s := by
    apply replaceFirst_eq_self
    intro z hz hpz
    exact List.inj_on_of_nodup_map hnod hz hmem (of_decide_eq_true hpz)
  simp [hself]

theorem baseFold_post {Doc : Type} [DecidableEq Doc] (docId : Doc → String) :
    ∀ (ds : List Doc) (acc : BaseOut Doc),
      ((acc.store.map docId)).Nodup →
      (ds.map docId).Nodup →
      (((ds.foldl (fun acc d =>
          let u := baseUpsertOne docId d acc.store
          { store := u.store, upserted := acc.upserted + u.upserted,
            modified := acc.modified + u.modified }) acc).store.map docId).Nodup) ∧
      (∀ d ∈ ds, d ∈ (ds.foldl (fun acc d =>
          let u := baseUpsertOne docId d acc.store
          { store := u.store, upserted := acc.upserted + u.upserted,
            modified := acc.modified + u.modified }) acc).store) ∧
      (∀ x ∈ acc.store, (∀ e ∈ ds, docId e ≠ docId x) →
        x ∈ (ds.foldl (fun acc d =>
          let u := baseUpsertOne docId d acc.store
          { store := u.store, upserted := acc.upserted + u.upserted,
            modified := acc.modified + u.modified }) acc).store) := by
  intro ds
  induction ds with
  | nil =>
    intro acc hok _
    exact ⟨hok, by intro d hd; simp at hd, by intro x hx _; exact hx⟩
  | cons e es ih =>
    intro acc hok hnd
    rw [List.map_cons, List.nodup_cons] at hnd
    have hok2 := baseUpsertOne_nodup docId e acc.store hok
    have htail := ih
      { store := (baseUpsertOne docId e acc.store).store,
        upserted := acc.upserted + (baseUpsertOne docId e acc.store).upserted,
        modified := acc.modified + (baseUpsertOne docId e acc.store).modified }
      hok2 hnd.2
    rw [List.foldl_cons]
    refine ⟨htail.1, ?_, ?_⟩
    · intro d hd
      rcases List.mem_cons.mp hd with hd | hd
      · subst hd
        apply htail.2.2 d (baseUpsertOne_mem_self docId d acc.store)
        intro e' he' hEq
        exact hnd.1 (hEq ▸ List.mem_map.mpr ⟨e', he', rfl⟩)
      · exact htail.2.1 d hd
    · intro x hx hds
      apply htail.2.2 x
      · exact baseUpsertOne_frame docId e x acc.store (Ne.symm (hds e (by simp))) hx
      · intro e' he'
        exact hds e' (by simp [he'])

theorem baseFold_noop {Doc : Type} [DecidableEq Doc] (docId : Doc → String) :
    ∀ (ds : List Doc) (acc : BaseOut Doc),
      ((acc.store.map docId)).Nodup →
      (∀ d ∈ ds, d ∈ acc.store) →
      (ds.foldl (fun acc d =>
        let u := baseUpsertOne docId d acc.store
        { store := u.store, upserted := acc.upserted + u.upserted,
          modified := acc.modified + u.modified }) acc) = acc := by
  intro ds
  induction ds with
  | nil => intro acc _ _; rfl
  | cons e es ih =>
    intro acc hok hmem
    rw [List.foldl_cons]
    have hstep := baseUpsertOne_noop docId e acc.store hok (hmem e (by simp))
    have hacc : (fun (acc : BaseOut Doc) d =>
        let u := baseUpsertOne docId d acc.store
        { store := u.store, upserted := acc.upserted + u.upserted,
          modified := acc.modified + u.modified }) acc e = acc := by
      simp only [hstep]
      obtain ⟨st, up, mo⟩ := acc
      simp
    have hrest := ih acc hok (fun d hd => hmem d (by simp [hd]))
    exact (congrArg (fun a => List.foldl (fun (acc : BaseOut Doc) d =>
      let u := baseUpsertOne docId d acc.store
      { store := u.store, upserted := acc.upserted + u.upserted,
        modified := acc.modified + u.modified }) a es) hacc).trans hrest

theorem baseBatchUpsert_post {Doc : Type} [DecidableEq Doc] (docId : Doc → String)
    (ds : List Doc) (s : List Doc) (stats : SyncStats)
    (hok : (s.map docId).Nodup) (hnd : (ds.map docId).Nodup) :
    (((baseBatchUpsert docId ds s stats).1.map docId).Nodup) ∧
    (∀ d ∈ ds, d ∈ (baseBatchUpsert docId ds s stats).1) ∧
    (∀ x ∈ s, (∀ e ∈ ds, docId e ≠ docId x) →
      x ∈ (baseBatchUpsert docId ds s stats).1) := by
  by_cases hlen : ds.length = 0
  · have hds : ds = [] := List.length_eq_zero.mp hlen
    subst hds
    simp only [baseBatchUpsert, if_pos]
    exact ⟨hok, by intro d hd; simp at hd, by intro x hx _; exact hx⟩
  · have hfold := baseFold_post docId ds
      { store := s, upserted := 0, modified := 0 } hok hnd
    simp only [baseBatchUpsert, if_neg hlen]
    exact hfold

theorem baseBatchUpsert_noop {Doc : Type} [DecidableEq Doc] (docId : Doc → String)
    (ds : List Doc) (s : List Doc) (stats : SyncStats)
    (hok : (s.map docId).Nodup) (hmem : ∀ d ∈ ds, d ∈ s) :
    baseBatchUpsert docId ds s stats = (s, stats) := by
  obtain ⟨t, i, u, sk, er, m⟩ := stats
  by_cases hlen : ds.length = 0
  · simp only [baseBatchUpsert, if_pos hlen]
  · have hfold := baseFold_noop docId ds
      { store := s, upserted := 0, modified := 0 } hok hmem
    simp only [baseBatchUpsert, if_neg hlen, hfold]
    simp

theorem baseLoop_post {Row Doc : Type} [DecidableEq Doc] (docId : Doc → String)
    (refId : Row → Option String) (transform : Row → Except Unit (Option Doc)) :
    ∀ (rows : List Row) (batch : List Doc) (s : List Doc) (stats : SyncStats),
      (s.map docId).Nodup →
      ((batch ++ rows.filterMap (rowDoc refId transform)).map docId).Nodup →
      (((runSyncLoopAux refId transform (baseBatchUpsert docId) rows batch s stats).1.map
          docId).Nodup) ∧
      (∀ d ∈ batch ++ rows.filterMap (rowDoc refId transform),
        d ∈ (runSyncLoopAux refId transform (baseBatchUpsert docId) rows batch s stats).1) ∧
      (∀ x ∈ s, (∀ e ∈ batch ++ rows.filterMap (rowDoc refId transform),
          docId e ≠ docId x) →
        x ∈ (runSyncLoopAux refId transform (baseBatchUpsert docId) rows batch s stats).1) := by
  intro rows
  induction rows with
  | nil =>
    intro batch s stats hok hnd
    simp only [List.filterMap_nil, List.append_nil] at hnd ⊢
    by_cases hb : batch.length > 0
    · simp only [runSyncLoopAux, hb, if_true]
      exact baseBatchUpsert_post docId batch s stats hok hnd
    · have hbe : batch = [] := by
        cases batch with
        | nil => rfl
        | cons x xs => simp at hb
      subst hbe
      simp only [runSyncLoopAux, hb, if_false]
      exact ⟨hok, by intro d hd; simp at hd, by intro x hx _; exact hx⟩
  | cons item rest ih =>
    intro batch s stats hok hnd
    by_cases hf : strFalsy (refId item) = true
    · have hdoc : rowDoc refId transform item = none := by simp [rowDoc, hf]
      rw [List.filterMap_cons, hdoc] at hnd ⊢
      simp only [runSyncLoopAux, hf, if_true]
      exact ih batch s _ hok hnd
    · replace hf : strFalsy (refId item) = false := by
        cases h0 : strFalsy (refId item) with
        | true => exact absurd h0 hf
        | false => rfl
      cases htr : transform item with
      | error e =>
        have hdoc : rowDoc refId transform item = none := by simp [rowDoc, hf, htr]
        rw [List.filterMap_cons, hdoc] at hnd ⊢
        simp only [runSyncLoopAux, hf, Bool.false_eq_true, if_false, htr]
        exact ih batch s _ hok hnd
      | ok od =>
        cases od with
        | none =>
          have hdoc : rowDoc refId transform item = none := by simp [rowDoc, hf, htr]
          rw [List.filterMap_cons, hdoc] at hnd ⊢
          simp only [runSyncLoopAux, hf, Bool.false_eq_true, if_false, htr]
          exact ih batch s _ hok hnd
        | some d =>
          have hdoc : rowDoc refId transform item = some d := by
            simp [rowDoc, hf, htr]
          have hassoc : batch ++ (rest.filterMap (rowDoc refId transform)).cons d =
              (batch ++ [d]) ++ rest.filterMap (rowDoc refId transform) := by
            simp
          rw [List.filterMap_cons, hdoc] at hnd ⊢
          by_cases hflush : (batch ++ [d]).length ≥ BATCH_SIZE
          · simp only [runSyncLoopAux, hf, Bool.false_eq_true, if_false, htr, hflush,
              if_true]
            rw [hassoc] at hnd ⊢
            rw [List.map_append, List.nodup_append] at hnd
            have hbatch := baseBatchUpsert_post docId (batch ++ [d]) s stats hok hnd.1
            have hrest := ih []
              (baseBatchUpsert docId (batch ++ [d]) s stats).1
              (baseBatchUpsert docId (batch ++ [d]) s stats).2
              hbatch.1 (by simpa using hnd.2.1)
            refine ⟨hrest.1, ?_, ?_⟩
            · intro e he
              rcases List.mem_append.mp he with he | he
              · apply hrest.2.2 e (hbatch.2.1 e he)
                intro e' he' hEq
                exact hnd.2.2 (List.mem_map.mpr ⟨e, he, rfl⟩)
                  (by rw [← hEq]; exact List.mem_map.mpr ⟨e', by simpa using he', rfl⟩)
              · exact hrest.2.1 e (by simpa using he)
            · intro x hx hds
              apply hrest.2.2 x
              · apply hbatch.2.2 x hx
                intro e he
                exact hds e (List.mem_append.mpr (Or.inl he))
              · intro e he
                exact hds e (List.mem_append.mpr (Or.inr (by simpa using he)))
          · simp only [runSyncLoopAux, hf, Bool.false_eq_true, if_false, htr, hflush,
              if_false]
            rw [hassoc] at hnd ⊢
            exact ih (batch ++ [d]) s _ hok hnd

theorem baseLoop_noop {Row Doc : Type} [DecidableEq Doc] (docId : Doc → String)
    (refId : Row → Option String) (transform : Row → Except Unit (Option Doc)) :
    ∀ (rows : List Row) (batch : List Doc) (s : List Doc) (stats : SyncStats),
      (s.map docId).Nodup →
      (∀ d ∈ batch ++ rows.filterMap (rowDoc refId transform), d ∈ s) →
      ((runSyncLoopAux refId transform (baseBatchUpsert docId) rows batch s stats).1 = s) ∧
      ((runSyncLoopAux refId transform (baseBatchUpsert docId) rows batch s stats).2.inserted
        = stats.inserted) ∧
      ((runSyncLoopAux refId transform (baseBatchUpsert docId) rows batch s stats).2.updated
        = stats.updated) := by
  intro rows
  induction rows with
  | nil =>
    intro batch s stats hok hmem
    by_cases hb : batch.length > 0
    · simp only [runSyncLoopAux, hb, if_true]
      rw [baseBatchUpsert_noop docId batch s stats hok
        (fun d hd => hmem d (by simpa using hd))]
      simp
    · simp only [runSyncLoopAux, hb, if_false]
      simp
  | cons item rest ih =>
    intro batch s stats hok hmem
    by_cases hf : strFalsy (refId item) = true
    · have hdoc : rowDoc refId transform item = none := by simp [rowDoc, hf]
      rw [List.filterMap_cons, hdoc] at hmem
      simp only [runSyncLoopAux, hf, if_true]
      exact ih batch s _ hok hmem
    · replace hf : strFalsy (refId item) = false := by
        cases h0 : strFalsy (refId item) with
        | true => exact absurd h0 hf
        | false => rfl
      cases htr : transform item with
      | error e =>
        have hdoc : rowDoc refId transform item = none := by simp [rowDoc, hf, htr]
        rw [List.filterMap_cons, hdoc] at hmem
        simp only [runSyncLoopAux, hf, Bool.false_eq_true, if_false, htr]
        exact ih batch s _ hok hmem
      | ok od =>
        cases od with
        | none =>
          have hdoc : rowDoc refId transform item = none := by simp [rowDoc, hf, htr]
          rw [List.filterMap_cons, hdoc] at hmem
          simp only [runSyncLoopAux, hf, Bool.false_eq_true, if_false, htr]
          exact ih batch s _ hok hmem
        | some d =>
          have hdoc : rowDoc refId transform item = some d := by
            simp [rowDoc, hf, htr]
          rw [List.filterMap_cons, hdoc] at hmem
          have hmem2 : ∀ e ∈ (batch ++ [d]) ++
              rest.filterMap (rowDoc refId transform), e ∈ s := by
            intro e he
            apply hmem e
            rcases List.mem_append.mp he with he | he
            · rcases List.mem_append.mp he with he | he
              · exact List.mem_append.mpr (Or.inl he)
              · have hed : e = d := by simpa using he
                exact List.mem_append.mpr (Or.inr (List.mem_cons.mpr (Or.inl hed)))
            · exact List.mem_append.mpr (Or.inr (List.mem_cons.mpr (Or.inr he)))
          by_cases hflush : (batch ++ [d]).length ≥ BATCH_SIZE
          · simp only [runSyncLoopAux, hf, Bool.false_eq_true, if_false, htr, hflush,
              if_true]
            rw [baseBatchUpsert_noop docId (batch ++ [d]) s stats hok
              (fun e he => hmem2 e (List.mem_append.mpr (Or.inl he)))]
            exact ih [] s _ hok
              (fun e he => hmem2 e (List.mem_append.mpr (Or.inr (by simpa using he))))
          · simp only [runSyncLoopAux, hf, Bool.false_eq_true, if_false, htr, hflush,
              if_false]
            exact ih (batch ++ [d]) s _ hok hmem2

/-- C2 counterexample: the lesson syncer is not stats-idempotent. Syncing one
unchanged source row twice (batch timestamps 0, then 1) into an empty store
makes the second run report `updated = 1`, not `0` — `batchUpsert` always
`$set`s a fresh `updated_at: new Date()`, so Mongo counts every document of
the second run as modified. -/
theorem lesson_sync_not_idempotent_counterexample :
    (lessonSync [] []
      [{ id := 1, ref_id := some "aaaaaaaaaaaaaaaaaaaaaaa1", name := "n",
         question_range := "q", display_order := 7,
         common_parent_section_name := "c", parent_section_name := "p",
         toc_output_json := "\x7b\x7d", book_id := 0, chapter_id := 0 }]
      (lessonSync [] []
        [{ id := 1, ref_id := some "aaaaaaaaaaaaaaaaaaaaaaa1", name := "n",
           question_range := "q", display_order := 7,
           common_parent_section_name := "c", parent_section_name := "p",
           toc_output_json := "\x7b\x7d", book_id := 0, chapter_id := 0 }] [] 0).1
      1).2.updated = 1 ∧
    (lessonSync [] []
      [{ id := 1, ref_id := some "aaaaaaaaaaaaaaaaaaaaaaa1", name := "n",
         question_range := "q", display_order := 7,
         common_parent_section_name := "c", parent_section_name := "p",
         toc_output_json := "\x7b\x7d", book_id := 0, chapter_id := 0 }]
      (lessonSync [] []
        [{ id := 1, ref_id := some "aaaaaaaaaaaaaaaaaaaaaaa1", name := "n",
           question_range := "q", display_order := 7,
           common_parent_section_name := "c", parent_section_name := "p",
           toc_output_json := "\x7b\x7d", book_id := 0, chapter_id := 0 }] [] 0).1
      1).2.inserted = 0 := by
  constructor <;> rfl

/-- C2 (amended): second-run behaviour of an unchanged source. Base syncer
(upserts keyed by `_id`, given unique `_id`s in store and among the run's
documents): the second run leaves the store exactly unchanged and reports
`inserted = 0` and `updated = 0`. Lesson syncer (given the store invariants
and per-run documents with unique `_id`s and unique secondary tuples): the
second run reports `inserted = 0` and preserves the stored documents and
their `created_at`; if the second run's batch timestamp equals the first's
the store is exactly unchanged and `updated = 0`, but with a fresh timestamp
every document is rewritten and `updated` equals the number of synced
documents. -/
theorem sync_idempotent_amended {Row Doc : Type} [DecidableEq Doc]
    (docId : Doc → String) (refId : Row → Option String)
    (transform : Row → Except Unit (Option Doc)) (rows : List Row)
    (store : List Doc)
    (books chapters : List (Nat × Option String)) (lrows : List LessonRow)
    (lstore : List ExStored) (now1 now2 : Nat) :
    ((store.map docId).Nodup →
      ((rows.filterMap (rowDoc refId transform)).map docId).Nodup →
      (runSync refId transform (baseBatchUpsert docId) rows
        (runSync refId transform (baseBatchUpsert docId) rows store).1).1 =
        (runSync refId transform (baseBatchUpsert docId) rows store).1 ∧
      (runSync refId transform (baseBatchUpsert docId) rows
        (runSync refId transform (baseBatchUpsert docId) rows store).1).2.inserted = 0 ∧
      (runSync refId transform (baseBatchUpsert docId) rows
        (runSync refId transform (baseBatchUpsert docId) rows store).1).2.updated = 0) ∧
    (storeOk lstore →
      ((lessonDocs books chapters lrows).map (fun d => d._id)).Nodup →
      (lessonDocs books chapters lrows).Pairwise (fun d e => exTuple d ≠ exTuple e) →
      (lessonSync books chapters lrows
          (lessonSync books chapters lrows lstore now1).1 now2).2.inserted = 0 ∧
      ((lessonSync books chapters lrows
          (lessonSync books chapters lrows lstore now1).1 now2).1.map stripEx =
        (lessonSync books chapters lrows lstore now1).1.map stripEx) ∧
      (now2 = now1 →
        (lessonSync books chapters lrows
            (lessonSync books chapters lrows lstore now1).1 now2).1 =
          (lessonSync books chapters lrows lstore now1).1 ∧
        (lessonSync books chapters lrows
            (lessonSync books chapters lrows lstore now1).1 now2).2.updated = 0) ∧
      (now2 ≠ now1 →
        (lessonSync books chapters lrows
            (lessonSync books chapters lrows lstore now1).1 now2).2.updated =
          (lessonDocs books chapters lrows).length)) := by
  constructor
  · intro hok hnd
    have hpost := baseLoop_post docId refId transform rows [] store
      { createStats with total := rows.length } hok (by simpa using hnd)
    have hnoop := baseLoop_noop docId refId transform rows []
      (runSync refId transform (baseBatchUpsert docId) rows store).1
      { createStats with total := rows.length }
      hpost.1
      (by
        intro d hd
        exact hpost.2.1 d hd)
    refine ⟨hnoop.1, ?_, ?_⟩
    · exact hnoop.2.1
    · exact hnoop.2.2
  · intro hok hnd hpw
    have hok1 : storeOk (lessonSync books chapters lrows lstore now1).1 :=
      runSyncLoopAux_preserves _ _ _ storeOk
        (fun b s st hs => lessonBatchUpsert_storeOk now1 b s st hs) lrows [] lstore _ hok
    have hest := lessonLoop_establish now1 (fun r => r.ref_id)
      (fun r => lessonTransform r (lessonPreSync books chapters)) lrows [] lstore
      { createStats with total := lrows.length }
      (by simpa using hnd) (by simpa using hpw)
    have hsec := lessonLoop_second now1 now2 (fun r => r.ref_id)
      (fun r => lessonTransform r (lessonPreSync books chapters)) lrows []
      (lessonSync books chapters lrows lstore now1).1
      { createStats with total := lrows.length }
      hok1 (by simpa using hnd) (by simpa using hpw)
      (by
        intro d hd
        exact hest.1 d hd)
    refine ⟨?_, hsec.1, ?_, ?_⟩
    · exact hsec.2.2.1
    · intro hnn
      refine ⟨hsec.2.1 hnn.symm, ?_⟩
      refine hsec.2.2.2.trans ?_
      rw [if_pos hnn.symm]
      rfl
    · intro hnn
      have hne : ¬ now1 = now2 := fun hEq => hnn hEq.symm
      refine hsec.2.2.2.trans ?_
      rw [if_neg hne]
      show 0 + _ = _
      rw [Nat.zero_add]
      rfl

/-- Closed instance of the amended C2 theorem: one lesson row, empty stores,
batch timestamps 0 then 1 — the base syncer's second run is a strict no-op
while the lesson syncer's second run rewrites the single document
(`updated = 1 = number of synced documents`). -/
theorem sync_idempotent_amended_witness :
    (runSync (fun r : LessonRow => r.ref_id)
      (fun r => lessonTransform r (lessonPreSync [] []))
      (baseBatchUpsert (fun d : ExDoc => d._id))
      [{ id := 1, ref_id := some "aaaaaaaaaaaaaaaaaaaaaaa1", name := "n",
         question_range := "q", display_order := 7,
         common_parent_section_name := "c", parent_section_name := "p",
         toc_output_json := "\x7b\x7d", book_id := 0, chapter_id := 0 }]
      (runSync (fun r : LessonRow => r.ref_id)
        (fun r => lessonTransform r (lessonPreSync [] []))
        (baseBatchUpsert (fun d : ExDoc => d._id))
        [{ id := 1, ref_id := some "aaaaaaaaaaaaaaaaaaaaaaa1", name := "n",
           question_range := "q", display_order := 7,
           common_parent_section_name := "c", parent_section_name := "p",
           toc_output_json := "\x7b\x7d", book_id := 0, chapter_id := 0 }] []).1).2.updated
      = 0 ∧
    (lessonSync [] []
      [{ id := 1, ref_id := some "aaaaaaaaaaaaaaaaaaaaaaa1", name := "n",
         question_range := "q", display_order := 7,
         common_parent_section_name := "c", parent_section_name := "p",
         toc_output_json := "\x7b\x7d", book_id := 0, chapter_id := 0 }]
      (lessonSync [] []
        [{ id := 1, ref_id := some "aaaaaaaaaaaaaaaaaaaaaaa1", name := "n",
           question_range := "q", display_order := 7,
           common_parent_section_name := "c", parent_section_name := "p",
           toc_output_json := "\x7b\x7d", book_id := 0, chapter_id := 0 }] [] 0).1
      1).2.inserted = 0 ∧
    (lessonSync [] []
      [{ id := 1, ref_id := some "aaaaaaaaaaaaaaaaaaaaaaa1", name := "n",
         question_range := "q", display_order := 7,
         common_parent_section_name := "c", parent_section_name := "p",
         toc_output_json := "\x7b\x7d", book_id := 0, chapter_id := 0 }]
      (lessonSync [] []
        [{ id := 1, ref_id := some "aaaaaaaaaaaaaaaaaaaaaaa1", name := "n",
           question_range := "q", display_order := 7,
           common_parent_section_name := "c", parent_section_name := "p",
           toc_output_json := "\x7b\x7d", book_id := 0, chapter_id := 0 }] [] 0).1
      1).2.updated =
      (lessonDocs [] []
        [{ id := 1, ref_id := some "aaaaaaaaaaaaaaaaaaaaaaa1", name := "n",
           question_range := "q", display_order := 7,
           common_parent_section_name := "c", parent_section_name := "p",
           toc_output_json := "\x7b\x7d", book_id := 0, chapter_id := 0 }]).length := by
  have h := sync_idempotent_amended (fun d : ExDoc => d._id)
    (fun r : LessonRow => r.ref_id)
    (fun r => lessonTransform r (lessonPreSync [] []))
    [{ id := 1, ref_id := some "aaaaaaaaaaaaaaaaaaaaaaa1", name := "n",
       question_range := "q", display_order := 7,
       common_parent_section_name := "c", parent_section_name := "p",
       toc_output_json := "\x7b\x7d", book_id := 0, chapter_id := 0 }]
    [] [] []
    [{ id := 1, ref_id := some "aaaaaaaaaaaaaaaaaaaaaaa1", name := "n",
       question_range := "q", display_order := 7,
       common_parent_section_name := "c", parent_section_name := "p",
       toc_output_json := "\x7b\x7d", book_id := 0, chapter_id := 0 }]
    [] 0 1
  have hbase := h.1 (by simp) (by decide)
  have hlesson := h.2 ⟨by simp, by simp⟩ (by decide) (by decide)
  exact ⟨hbase.2.2, hlesson.1, hlesson.2.2.2 (by decide)⟩

end SilverGate
